import Mathlib

/-!
# Arena allocator (`arena.c`, `arena.h`): model and properties

The C program manipulates `struct Arena` headers that live at the start of
memory mappings obtained from `mmap`.  The model keeps

* a heap: the live mappings, keyed by their address, each holding the header
  stored at its start;
* a trace: the calls issued to the virtual-memory backend, oldest first;
* the page protection of the headers: the addresses of the live mappings
  whose first page, the page that holds the header, is `PROT_NONE`.

Every C statement becomes loads and stores on that heap.  A load or store
through a pointer that is not the address of a live mapping (a null pointer,
`MAP_FAILED`, a block that was unmapped), or through the address of a live
mapping whose header page is `PROT_NONE`, is a memory fault: the process is
killed and the call does not return.

`mmap` maps with `PROT_NONE` (line 19); `commit` and `decommit` are
`mprotect` calls whose results the program ignores (lines 22-28).  `mprotect`
follows Linux: a start address that is not on a page boundary changes
nothing, a length of zero changes nothing, and otherwise the protection is
changed from the start address up to the end of the requested range or up to
the first unmapped address, whichever comes first.  Only the mappings of the
arena exist in the model.  A mapping starts on a page boundary and a page is
at least as large as a header, so a header has the protection of the first
page of its mapping; the pages behind it hold user data, which the program
never touches, and their protection is not kept.

All integers of the program are 64 bits wide; sums and differences are taken
modulo `2 ^ 64`.  `mmap` is not deterministic: each operation that may
reserve memory takes the value `mmap` returns as an extra argument.
`getpagesize()` is the parameter `pg`; `sizeof(Arena)` is 88 (LP64).
-/

namespace ArenaAlloc

/-! ## Machine integers -/

/-- Number of values of a `uint64_t`. -/
def WORD : Nat := 2 ^ 64

/-- Addition of two `uint64_t`. -/
def u64add (a b : Nat) : Nat := (a + b) % WORD

/-- Subtraction of two `uint64_t`. -/
def u64sub (a b : Nat) : Nat := ((WORD - b % WORD) + a) % WORD

/-- Multiplication of two `uint64_t`. -/
def u64mul (a b : Nat) : Nat := (a * b) % WORD

/-- Bitwise complement of a `uint64_t`. -/
def u64not (a : Nat) : Nat := (WORD - 1) - a % WORD

/-- The macro `ALIGN(a, b) (((a) + (b) - 1) & (~((b) - 1)))`. -/
def ALIGN (a b : Nat) : Nat :=
  (u64sub (u64add a b) 1) &&& (u64not (u64sub b 1))

/-! ## Constants -/

/-- The null pointer. -/
def NULL : Nat := 0

/-- The value `(void *) -1` that `mmap` returns on failure. -/
def MAP_FAILED : Nat := WORD - 1

/-- The macro `ARENA_HEADER_SIZE`, `sizeof(Arena)`. -/
def ARENA_HEADER_SIZE : Nat := 88

/-- The flag `ARENA_USE_CHAINING`. -/
def ARENA_USE_CHAINING : Nat := 1

/-- The flag `ARENA_USE_FREE_LIST`. -/
def ARENA_USE_FREE_LIST : Nat := 2

/-- The macro `ARENA_DEFAULT_RESERVE_SIZE`. -/
def ARENA_DEFAULT_RESERVE_SIZE : Nat := 2 ^ 30

/-- The macro `ARENA_DEFAULT_COMMIT_SIZE`. -/
def ARENA_DEFAULT_COMMIT_SIZE : Nat := 2 ^ 20

/-! ## Data model -/

/-- The header `struct Arena`; pointers are addresses, `0` is `NULL`. -/
structure Arena where
  pos : Nat
  base_pos : Nat
  capacity : Nat
  committed : Nat
  prev : Nat
  next : Nat
  base : Nat
  top : Nat
  curr : Nat
  free_list : Nat
  flags : Nat
deriving DecidableEq, Repr

/-- A call issued to the virtual-memory backend. -/
inductive Event where
  | reserve (size result : Nat)
  | commit (addr size : Nat)
  | decommit (addr size : Nat)
  | munmap (addr size : Nat)
deriving DecidableEq, Repr

/-- The live mappings with the header stored at the start of each. -/
abbrev Heap := List (Nat × Arena)

/-- Header stored at address `p`, if `p` is the address of a live mapping. -/
def Heap.rd : Heap → Nat → Option Arena
  | [], _ => none
  | (q, a) :: h, p => if q = p then some a else Heap.rd h p

/-- Overwrite the header stored at address `p`. -/
def Heap.wr : Heap → Nat → Arena → Heap
  | [], _, _ => []
  | (q, a) :: h, p, b => if q = p then (q, b) :: h else (q, a) :: Heap.wr h p b

/-- Remove the mapping at address `p`. -/
def Heap.unmap : Heap → Nat → Heap
  | [], _ => []
  | (q, a) :: h, p => if q = p then Heap.unmap h p else (q, a) :: Heap.unmap h p

/-- Addresses of the live mappings. -/
def Heap.keys (h : Heap) : List Nat := h.map Prod.fst

/-- State of the process: live mappings, the backend calls made so far, and
`dark`, the addresses of the live mappings whose header page is `PROT_NONE`. -/
structure Machine where
  heap : Heap
  trace : List Event
  dark : List Nat
deriving DecidableEq, Repr

/-- Ways in which a call does not return. -/
inductive Err where
  | fault
  | diverge
deriving DecidableEq, Repr

/-- Read the header behind pointer `p`: a fault unless `p` is the address of
a live mapping whose header page is accessible. -/
def load (m : Machine) (p : Nat) : Except Err Arena :=
  match m.heap.rd p with
  | some a => if p ∈ m.dark then .error .fault else .ok a
  | none => .error .fault

/-- Write the header behind pointer `p`. -/
def store (m : Machine) (p : Nat) (a : Arena) : Except Err Machine :=
  match m.heap.rd p with
  | some _ => if p ∈ m.dark then .error .fault else .ok { m with heap := m.heap.wr p a }
  | none => .error .fault

/-- Assignment to fields of `*p`: read the header, change it, write it back. -/
def modify (m : Machine) (p : Nat) (f : Arena → Arena) : Except Err Machine :=
  match m.heap.rd p with
  | some a => if p ∈ m.dark then .error .fault else .ok { m with heap := m.heap.wr p (f a) }
  | none => .error .fault

/-- Record a backend call. -/
def emit (m : Machine) (e : Event) : Machine :=
  { m with trace := m.trace ++ [e] }

/-- The call `munmap(p, size)`: the mapping at `p` is gone afterwards. -/
def munmap (m : Machine) (p size : Nat) : Machine :=
  { heap := m.heap.unmap p, trace := m.trace ++ [Event.munmap p size],
    dark := m.dark.filter (fun q => q ≠ p) }

/-- How far a call of `mprotect` gets that starts at address `t` and asks for
the range up to `stop`: the end of the run of contiguous mappings that holds
`t`, or `stop` if the run reaches it.  The mapping at `q` is as long as the
`capacity` stored in its header, the length it was reserved with (lines 32
and 40; nothing changes that field). -/
def reach : Nat → Heap → Nat → Nat → Nat
  | 0, _, t, _ => t
  | fuel + 1, h, t, stop =>
    if stop ≤ t then stop
    else
      match h.find? (fun e => decide (e.1 ≤ t ∧ t < e.1 + e.2.capacity)) with
      | some e => reach fuel h (e.1 + e.2.capacity) stop
      | none => t

/-- The call `mprotect(addr, len, prot)`, `access` telling whether `prot` is
`PROT_READ | PROT_WRITE` or `PROT_NONE`.  No change when `addr` is not on a
page boundary (`EINVAL`), when `len` is 0, or when the range, `len` rounded up
to whole pages, wraps around (`ENOMEM`).  Otherwise the pages from `addr` as
far as `reach` get the protection, and with them the header of every live
mapping that starts there. -/
def mprotect (pg : Nat) (m : Machine) (addr len : Nat) (access : Bool) : Machine :=
  if addr % pg ≠ 0 ∨ len = 0 ∨ u64add addr (ALIGN len pg) ≤ addr then m
  else
    let stop := reach (m.heap.length + 1) m.heap addr (u64add addr (ALIGN len pg))
    if access then
      { m with dark := m.dark.filter (fun q => ¬ (addr ≤ q ∧ q < stop)) }
    else
      { m with dark := m.heap.keys.filter (fun q => addr ≤ q ∧ q < stop) ++ m.dark }

/-- The function `commit` (lines 22-24). -/
def commit (pg : Nat) (m : Machine) (addr size : Nat) : Machine :=
  emit (mprotect pg m addr size true) (Event.commit addr size)

/-- The function `decommit` (lines 26-28). -/
def decommit (pg : Nat) (m : Machine) (addr size : Nat) : Machine :=
  emit (mprotect pg m addr size false) (Event.decommit addr size)

/-- Test `flags & bit`. -/
def hasFlag (flags bit : Nat) : Bool := (flags &&& bit) != 0

/-! ## Operations -/

/-- The function `reserve` (lines 18-20) with `r` the value `mmap` returns:
unless `mmap` failed there is a new mapping of `size` bytes at `r`, all of it
`PROT_NONE`.  The new mapping is entered with the header `hdr` that the
caller is about to store in it. -/
def reserve (m : Machine) (size r : Nat) (hdr : Arena) : Machine :=
  let m := emit m (Event.reserve size r)
  if r = MAP_FAILED then m
  else { m with heap := (r, hdr) :: m.heap, dark := r :: m.dark }

/-- Header that `_arena_alloc` writes into a new block at address `r` (lines 38-49). -/
def blockHdr (pg reserve_size commit_size flags r : Nat) : Arena :=
  { pos := 0, base_pos := 0,
    capacity := ALIGN reserve_size pg,
    committed := ALIGN commit_size pg,
    prev := NULL, next := NULL,
    base := u64add r ARENA_HEADER_SIZE,
    top := u64add r ARENA_HEADER_SIZE,
    curr := r, free_list := NULL, flags := flags % 256 }

/-- The function `_arena_alloc` (lines 30-51); `r` is what `mmap` returns.
The stores of lines 38-49 fault when the commit of line 37 did not make the
header page accessible. -/
def _arena_alloc (pg : Nat) (m : Machine) (reserve_size commit_size flags r : Nat) :
    Except Err (Nat × Machine) :=
  let m := reserve m (ALIGN reserve_size pg) r (blockHdr pg reserve_size commit_size flags r)
  if r = MAP_FAILED then .ok (NULL, m)
  else
    let m := commit pg m r (ALIGN commit_size pg)
    if r ∈ m.dark then .error .fault else .ok (r, m)

/-- The machine after lines 32-37 of `_arena_alloc` when `mmap` returned the
address `r`: the mapping reserved at `r` and the commit of its first bytes. -/
def allocated (pg : Nat) (m : Machine) (reserve_size commit_size flags r : Nat) : Machine :=
  commit pg (reserve m (ALIGN reserve_size pg) r (blockHdr pg reserve_size commit_size flags r))
    r (ALIGN commit_size pg)

/-- The function `arena_alloc` (lines 53-56). -/
def arena_alloc (pg : Nat) (m : Machine) (r : Nat) : Except Err (Nat × Machine) :=
  _arena_alloc pg m ARENA_DEFAULT_RESERVE_SIZE ARENA_DEFAULT_COMMIT_SIZE
    (ARENA_USE_CHAINING ||| ARENA_USE_FREE_LIST) r

/-- First loop of `arena_release` (lines 61-63): walk the free list. -/
def release_free_list : Nat → Machine → Nat → Except Err Machine
  | 0, _, _ => .error .diverge
  | fuel + 1, m, curr =>
    if curr = NULL then .ok m
    else do
      let c ← load m curr
      let m := munmap m curr c.capacity
      let c ← load m curr
      release_free_list fuel m c.next

/-- Second loop of `arena_release` (lines 71-74): walk the chain. -/
def release_chain : Nat → Machine → Nat → Except Err Machine
  | 0, _, _ => .error .diverge
  | fuel + 1, m, curr =>
    if curr = NULL then .ok m
    else do
      let c ← load m curr
      let prev := c.prev
      let c ← load m curr
      let m := munmap m curr c.capacity
      release_chain fuel m prev

/-- The function `arena_release` (lines 58-75). -/
def arena_release (m : Machine) (arena : Nat) : Except Err Machine := do
  let a ← load m arena
  let m ←
    if hasFlag a.flags ARENA_USE_FREE_LIST then
      release_free_list (m.heap.length + 1) m a.free_list
    else pure m
  let a ← load m arena
  if !hasFlag a.flags ARENA_USE_CHAINING then
    let c ← load m a.curr
    pure (munmap m a.curr c.capacity)
  else
    release_chain (m.heap.length + 1) m a.curr

/-- Free-list search of `arena_push` (lines 91-104): first block that fits.
Returns `new_block` (or `NULL`) and the machine with that block unchained. -/
def find_fit : Nat → Machine → Nat → Nat → Nat → Nat → Except Err (Nat × Machine)
  | 0, _, _, _, _, _ => .error .diverge
  | fuel + 1, m, arena, needed_space, curr, prev =>
    if curr = NULL then .ok (NULL, m)
    else do
      let c ← load m curr
      if c.capacity ≥ needed_space then
        if prev ≠ NULL then
          let c ← load m curr
          let m ← modify m prev (fun b => { b with next := c.next })
          pure (curr, m)
        else
          let c ← load m curr
          let m ← modify m arena (fun b => { b with free_list := c.next })
          pure (curr, m)
      else do
        let c ← load m curr
        find_fit fuel m arena needed_space c.next curr

/-- The expression `arena->curr->top - arena->curr->base + ARENA_HEADER_SIZE + size`. -/
def needed (c : Arena) (size : Nat) : Nat :=
  u64add (u64add (u64sub c.top c.base) ARENA_HEADER_SIZE) size

/-- First half of the chaining branch of `arena_push` (lines 88-110): the
first block of the free list that fits, else a fresh block from
`_arena_alloc`.  Returns `new_block`. -/
def push_new_block (pg : Nat) (m : Machine) (arena r needed_space : Nat) :
    Except Err (Nat × Machine) := do
  let a ← load m arena
  let (new_block, m) ←
    if hasFlag a.flags ARENA_USE_FREE_LIST then
      find_fit (m.heap.length + 1) m arena needed_space a.free_list NULL
    else pure (NULL, m)
  if new_block = NULL then
    _arena_alloc pg m needed_space needed_space
      (ARENA_USE_CHAINING ||| ARENA_USE_FREE_LIST) r
  else pure (new_block, m)

/-- Second half of the chaining branch of `arena_push` (lines 112-120): chain
`new_block` after the current block.  Returns the recomputed `needed_space`. -/
def push_link (m : Machine) (arena size align new_block : Nat) :
    Except Err (Nat × Machine) := do
  let a ← load m arena
  let prev := a.curr
  let m ← modify m a.curr (fun b => { b with next := new_block })
  let a ← load m arena
  let m ← modify m new_block (fun b => { b with prev := a.curr })
  let m ← modify m arena (fun b => { b with curr := new_block })
  let a ← load m arena
  let m ← modify m a.curr (fun b => { b with top := ALIGN b.top align })
  let a ← load m arena
  let p ← load m prev
  let m ← modify m a.curr (fun b => { b with base_pos := u64add p.base_pos p.pos })
  let a ← load m arena
  let c ← load m a.curr
  pure (needed c size, m)

/-- Chaining branch of `arena_push` (lines 88-120), entered when the current
block is too small and chaining is enabled.  Returns the recomputed
`needed_space`. -/
def push_chain (pg : Nat) (m : Machine) (arena size align r needed_space : Nat) :
    Except Err (Nat × Machine) := do
  let (new_block, m) ← push_new_block pg m arena r needed_space
  push_link m arena size align new_block

/-- Commit step of `arena_push` (lines 124-131). -/
def push_commit (pg : Nat) (m : Machine) (arena needed_space : Nat) : Except Err Machine := do
  let a ← load m arena
  let c ← load m a.curr
  if needed_space > c.committed then
    let commit_addr := u64sub c.base ARENA_HEADER_SIZE
    let commit_size := u64sub needed_space c.committed
    let m := commit pg m (u64add commit_addr c.committed) commit_size
    modify m a.curr (fun b => { b with committed := u64add b.committed (ALIGN commit_size pg) })
  else pure m

/-- Tail of `arena_push` (lines 123-136): commit, then bump `top` and `pos`. -/
def push_finish (pg : Nat) (m : Machine) (arena size needed_space : Nat) :
    Except Err (Nat × Machine) := do
  let m ← push_commit pg m arena needed_space
  let a ← load m arena
  let c ← load m a.curr
  let result := c.top
  let m ← modify m a.curr (fun b => { b with top := u64add b.top size })
  let a ← load m arena
  let m ← modify m a.curr (fun b => { b with pos := u64sub b.top b.base })
  pure (result, m)

/-- The function `arena_push` (lines 77-137); `r` is what `mmap` returns if
the call reserves a fresh block.  The result `NULL` reports failure. -/
def arena_push (pg : Nat) (m : Machine) (arena size align r : Nat) :
    Except Err (Nat × Machine) := do
  let a ← load m arena
  let m ← modify m a.curr (fun b => { b with top := ALIGN b.top align })
  let a ← load m arena
  let c ← load m a.curr
  let needed_space := needed c size
  if needed_space > c.capacity then
    if !hasFlag a.flags ARENA_USE_CHAINING then
      pure (NULL, m)
    else do
      let (needed_space, m) ← push_chain pg m arena size align r needed_space
      push_finish pg m arena size needed_space
  else push_finish pg m arena size needed_space

/-- Retirement of block `curr` inside the loop of `arena_pop_to` (lines 155-174). -/
def retire (pg : Nat) (m : Machine) (arena curr : Nat) : Except Err Machine := do
  let a ← load m arena
  if hasFlag a.flags ARENA_USE_FREE_LIST then
    let m ← modify m curr (fun b => { b with next := NULL })
    let m ← modify m curr (fun b => { b with prev := NULL })
    let a ← load m arena
    let m ←
      if a.free_list ≠ NULL then do
        let m ← modify m curr (fun b => { b with next := a.free_list })
        modify m arena (fun b => { b with free_list := curr })
      else
        modify m arena (fun b => { b with free_list := curr })
    let m ← modify m curr (fun b => { b with pos := 0 })
    let m ← modify m curr (fun b => { b with top := b.base })
    let c ← load m curr
    let m := decommit pg m
      (u64add curr (u64mul (ALIGN ARENA_HEADER_SIZE pg) ARENA_HEADER_SIZE))
      (u64sub c.capacity ARENA_HEADER_SIZE)
    modify m curr (fun b => { b with committed := ALIGN ARENA_HEADER_SIZE pg })
  else
    let c ← load m curr
    pure (munmap m curr c.capacity)

/-- The loop of `arena_pop_to` (lines 153-176); returns the final `curr`. -/
def pop_loop (pg : Nat) : Nat → Machine → Nat → Nat → Nat → Except Err (Nat × Machine)
  | 0, _, _, _, _ => .error .diverge
  | fuel + 1, m, arena, pos, curr => do
    let c ← load m curr
    if pos < c.base_pos then
      let prev := c.prev
      let m ← retire pg m arena curr
      pop_loop pg fuel m arena pos prev
    else pure (curr, m)

/-- The function `arena_pop_to` (lines 139-181). -/
def arena_pop_to (pg : Nat) (m : Machine) (arena pos : Nat) : Except Err Machine := do
  let a ← load m arena
  let curr := a.curr
  let c ← load m curr
  if pos > u64add c.base_pos c.pos then pure m
  else
    let a ← load m arena
    if !hasFlag a.flags ARENA_USE_CHAINING then
      let m ← modify m arena (fun b => { b with pos := pos })
      modify m arena (fun b => { b with top := u64add b.base pos })
    else
      let (curr, m) ← pop_loop pg (m.heap.length + 1) m arena pos curr
      let m ← modify m curr (fun b => { b with pos := u64sub pos b.base_pos })
      let m ← modify m curr (fun b => { b with top := u64add b.base b.pos })
      modify m arena (fun b => { b with curr := curr })

/-- The function `arena_pop` (lines 183-186). -/
def arena_pop (pg : Nat) (m : Machine) (arena size : Nat) : Except Err Machine := do
  let a ← load m arena
  let c ← load m a.curr
  let pop_pos := u64sub (u64add c.base_pos c.pos) size
  arena_pop_to pg m arena pop_pos

/-- The function `arena_clear` (lines 188-190). -/
def arena_clear (pg : Nat) (m : Machine) (arena : Nat) : Except Err Machine :=
  arena_pop_to pg m arena 0

/-! ## Reachable states -/

/-- An operation of the interface, each push with the value `mmap` would return. -/
inductive Op where
  | push (size align r : Nat)
  | pop_to (pos : Nat)
  | pop (size : Nat)
  | clear
deriving DecidableEq, Repr

/-- Run one operation on the arena at address `arena`. -/
def step (pg : Nat) (m : Machine) (arena : Nat) : Op → Except Err Machine
  | Op.push size align r => (arena_push pg m arena size align r).map Prod.snd
  | Op.pop_to pos => arena_pop_to pg m arena pos
  | Op.pop size => arena_pop pg m arena size
  | Op.clear => arena_clear pg m arena

/-- What `mmap` may return when it succeeds: the address of a new mapping,
not null, not the failure value and not the address of a live mapping. -/
def mmapFresh (m : Machine) (r : Nat) : Prop :=
  r ≠ NULL ∧ r ≠ MAP_FAILED ∧ r ∉ m.heap.keys

/-- What `mmap` may return for a request of `size` bytes: failure, or a new
mapping of positive length that ends below `2 ^ 63` (user space). -/
def mmapOk (m : Machine) (size r : Nat) : Prop :=
  r = MAP_FAILED ∨ (mmapFresh m r ∧ 0 < size ∧ r + size ≤ 2 ^ 63)

/-- Arguments an operation can receive: 64-bit values, and for a push a
value `r` that `mmap` can return in the current state. -/
def Op.ok (m : Machine) : Op → Prop
  | Op.push size align r =>
      size < WORD ∧ align < WORD ∧ (r = MAP_FAILED ∨ mmapFresh m r)
  | Op.pop_to pos => pos < WORD
  | Op.pop size => size < WORD
  | Op.clear => True

/-- The empty process: nothing mapped, no backend call made. -/
def Machine.init : Machine := { heap := [], trace := [], dark := [] }

/-- How an arena was created: the page size of the system, the arguments of
`_arena_alloc` and the address `mmap` returned for it. -/
structure Setup where
  pg : Nat
  reserve_size : Nat
  commit_size : Nat
  flags : Nat
  arena : Nat
deriving DecidableEq, Repr

/-- The machine right after the creating call of `_arena_alloc`, or the empty
machine if that call does not return. -/
def Setup.created (s : Setup) : Machine :=
  match _arena_alloc s.pg Machine.init s.reserve_size s.commit_size s.flags s.arena with
  | .ok r => r.2
  | .error _ => Machine.init

/-- The creating call receives 64-bit sizes, eight flag bits, `mmap`
succeeds for it, and the call returns. -/
def Setup.ok (s : Setup) : Prop :=
  s.reserve_size < WORD ∧ s.commit_size < WORD ∧ s.flags < 256 ∧
  s.arena ≠ MAP_FAILED ∧ mmapOk Machine.init (ALIGN s.reserve_size s.pg) s.arena ∧
  _arena_alloc s.pg Machine.init s.reserve_size s.commit_size s.flags s.arena =
    .ok (s.arena, s.created)

/-- States of the arena of setup `s` reached from its creation by calls of
`arena_push`, `arena_pop_to`, `arena_pop` and `arena_clear` that return. -/
inductive Reachable (s : Setup) : Machine → Prop where
  | create (hs : s.ok) : Reachable s s.created
  | after (m m1 : Machine) (op : Op)
      (hm : Reachable s m) (hop : Op.ok m op)
      (h : step s.pg m s.arena op = .ok m1) :
      Reachable s m1

/-- Run a list of operations, stopping at the first that does not return. -/
def run (pg : Nat) (arena : Nat) : Machine → List Op → Except Err Machine
  | m, [] => .ok m
  | m, op :: ops => do
    let m1 ← step pg m arena op
    run pg arena m1 ops

/-- The arena's logical size `curr->base_pos + curr->pos`, when the arena
and its current block are mapped. -/
def logical (m : Machine) (arena : Nat) : Option Nat :=
  match m.heap.rd arena with
  | none => none
  | some a =>
    match m.heap.rd a.curr with
    | none => none
    | some c => some (u64add c.base_pos c.pos)

/-- The arena's current block, when the arena and that block are mapped. -/
def current (m : Machine) (arena : Nat) : Option Arena :=
  match m.heap.rd arena with
  | none => none
  | some a => m.heap.rd a.curr

/-! ## Well-formed states -/

/-- A null-terminated linked list: starting at `p` and following the link
`nxt` visits exactly the blocks `l`, all of them mapped. -/
def LL (nxt : Arena → Nat) (h : Heap) : Nat → List Nat → Prop
  | p, [] => p = NULL
  | p, x :: l => p = x ∧ x ≠ NULL ∧ ∃ b, h.rd x = some b ∧ LL nxt h (nxt b) l

/-- Shape of the arena at `arena`: `chain` is the chain from `curr` back to
the head through `prev`, `free` is the free list through `next`. -/
structure WF (m : Machine) (arena : Nat) (a : Arena) (chain free : List Nat) : Prop where
  head : m.heap.rd arena = some a
  head_base_pos : a.base_pos = 0
  chain_ll : LL Arena.prev m.heap a.curr chain
  chain_last : chain.getLast? = some arena
  free_ll : LL Arena.next m.heap a.free_list free
  nodup : (chain ++ free).Nodup
  keys_perm : m.heap.keys.Perm (chain ++ free)
  nochain : hasFlag a.flags ARENA_USE_CHAINING = false → chain = [arena] ∧ free = []
  nofree : hasFlag a.flags ARENA_USE_FREE_LIST = false → free = []
  free_reset : ∀ x ∈ free, ∀ b, m.heap.rd x = some b → b.pos = 0 ∧ b.top = b.base

/-- Header of a block after `arena_pop_to` moved it to the free list. -/
def retired (pg : Nat) (b : Arena) (fl : Nat) : Arena :=
  { b with next := fl, prev := NULL, pos := 0, top := b.base,
           committed := ALIGN ARENA_HEADER_SIZE pg }

/-- The `decommit` call issued when block `x` with header `b` is retired. -/
def decommitOf (pg : Nat) (x : Nat) (b : Arena) : Event :=
  Event.decommit (u64add x (u64mul (ALIGN ARENA_HEADER_SIZE pg) ARENA_HEADER_SIZE))
    (u64sub b.capacity ARENA_HEADER_SIZE)

/-- The `decommit` calls issued when the blocks `l` are retired in that order. -/
def decommits (pg : Nat) (h : Heap) (l : List Nat) : List Event :=
  l.filterMap (fun q => (h.rd q).map (decommitOf pg q))

/-- The `munmap` calls issued when the blocks `l` are unmapped in that order. -/
def munmaps (h : Heap) (l : List Nat) : List Event :=
  l.filterMap (fun q => (h.rd q).map (fun b => Event.munmap q b.capacity))

/-- Header of the block that `arena_pop_to` ends on (lines 178-179). -/
def popTarget (b : Arena) (pos : Nat) : Arena :=
  { b with pos := u64sub pos b.base_pos, top := u64add b.base (u64sub pos b.base_pos) }

/-- Header after line 78 aligned `top`. -/
def aligned (c : Arena) (align : Nat) : Arena :=
  { c with top := ALIGN c.top align }

/-- Header after the commit step (lines 124-131) for `needed_space = n`. -/
def committedTo (pg : Nat) (c : Arena) (n : Nat) : Arena :=
  if n > c.committed then
    { c with committed := u64add c.committed (ALIGN (u64sub n c.committed) pg) }
  else c

/-- Headers without access after the commit step (lines 124-131) for
`needed_space = n` on the current block with header `c`. -/
def commitDark (pg : Nat) (m : Machine) (c : Arena) (n : Nat) : List Nat :=
  if n > c.committed then
    (commit pg m (u64add (u64sub c.base ARENA_HEADER_SIZE) c.committed)
      (u64sub n c.committed)).dark
  else m.dark

/-- The `commit` call of the commit step, if one is issued. -/
def commitEvent (c : Arena) (n : Nat) : List Event :=
  if n > c.committed then
    [Event.commit (u64add (u64sub c.base ARENA_HEADER_SIZE) c.committed) (u64sub n c.committed)]
  else []

/-- Header after lines 134-135 advanced `top` and recomputed `pos`. -/
def bumped (c : Arena) (size : Nat) : Arena :=
  { c with top := u64add c.top size, pos := u64sub (u64add c.top size) c.base }

/-- Two headers agree on every field that links blocks or identifies the arena. -/
def sameLinks (b b1 : Arena) : Prop :=
  b1.prev = b.prev ∧ b1.next = b.next ∧ b1.curr = b.curr ∧ b1.free_list = b.free_list ∧
  b1.flags = b.flags ∧ b1.base_pos = b.base_pos

/-- Header of the block `arena_push` chains after the block `prev` whose
header is `c` (lines 114-117). -/
def linked (nb0 : Arena) (prev : Nat) (c : Arena) (align : Nat) : Arena :=
  { nb0 with prev := prev, top := ALIGN nb0.top align,
             base_pos := u64add c.base_pos c.pos }

/-- Header of the block that received a chained allocation: linked after the
block `prev` with header `c`, committed for the recomputed need, and bumped. -/
def chainedHdr (pg : Nat) (nb0 : Arena) (prev : Nat) (c : Arena) (size align : Nat) : Arena :=
  bumped (committedTo pg (linked nb0 prev c align) (needed (linked nb0 prev c align) size)) size

/-- Header of the arena after a block `nb` was chained behind the current
block, whose header was `c`. -/
def headAfterLink (arena : Nat) (a c : Arena) (nb : Nat) : Arena :=
  { (if arena = a.curr then { c with next := nb } else a) with curr := nb }

/-- Header of the arena after line 78 aligned `top` of its current block. -/
def headAfterAlign (arena : Nat) (a c : Arena) (align : Nat) : Arena :=
  if a.curr = arena then aligned c align else a

/-- Two headers agree on every field except `top`, `next`, `curr` and `free_list`. -/
def sameGeom (b b1 : Arena) : Prop :=
  b1.pos = b.pos ∧ b1.base_pos = b.base_pos ∧ b1.capacity = b.capacity ∧
  b1.committed = b.committed ∧ b1.prev = b.prev ∧ b1.base = b.base ∧ b1.flags = b.flags

/-- A power of two that fits an `uint64_t`. -/
def isPow2 (b : Nat) : Prop := ∃ k, k < 64 ∧ b = 2 ^ k

/-- The arena of the spec's free-list scenario: 64 KiB reserved, 4 KiB
committed, chaining and recycling enabled, pages of 4 KiB, mapped at 65536. -/
def demo : Setup :=
  { pg := 4096, reserve_size := 65536, commit_size := 4096, flags := 3, arena := 65536 }

/-- A single-block arena: 4 KiB reserved and committed, no chaining, no
recycling, pages of 4 KiB, mapped at 65536. -/
def demoFixed : Setup :=
  { pg := 4096, reserve_size := 4096, commit_size := 4096, flags := 0, arena := 65536 }

/-- The machine after the operations `ops` on the arena of `s`, or the empty
machine if one of them does not return. -/
def Setup.after (s : Setup) (ops : List Op) : Machine :=
  match run s.pg s.arena s.created ops with
  | .ok m => m
  | .error _ => Machine.init

/-- Where a header `b1` found at address `q` after a step comes from: from
the header `b` that was there before, with the same `base` and `capacity`,
or from `_arena_alloc` for a block reserved by the step. -/
def Origin (pg : Nat) (m : Machine) (q : Nat) (b1 : Arena) : Prop :=
  (∃ b, m.heap.rd q = some b ∧ b1.base = b.base ∧ b1.capacity = b.capacity) ∨
  (m.heap.rd q = none ∧ b1.base = u64add q ARENA_HEADER_SIZE ∧
    ∃ n, b1.capacity = ALIGN n pg)

/-- The capacity test of `arena_push` that leads to its failure exit (lines
82-87): the space needed exceeds the capacity of the current block and
chaining is disabled. -/
def exceeded (m : Machine) (arena size align : Nat) : Bool :=
  match m.heap.rd arena with
  | none => false
  | some a =>
    match m.heap.rd a.curr with
    | none => false
    | some c =>
      decide (needed (aligned c align) size > c.capacity) &&
        !(hasFlag a.flags ARENA_USE_CHAINING)

/-- The `top` of block `q` in state `m`; a block that is not mapped yet
starts with `top = base`, right after its header (lines 45-46). -/
def priorTop (m : Machine) (q : Nat) : Nat :=
  match m.heap.rd q with
  | some b => b.top
  | none => u64add q ARENA_HEADER_SIZE

/-- Run a sequence of pushes `(size, align, r)` and collect the returned addresses. -/
def pushAll (pg arena : Nat) : Machine → List (Nat × Nat × Nat) → Except Err (List Nat × Machine)
  | m, [] => .ok ([], m)
  | m, p :: ps =>
    match arena_push pg m arena p.1 p.2.1 p.2.2 with
    | .error e => .error e
    | .ok (res, m1) =>
      match pushAll pg arena m1 ps with
      | .error e => .error e
      | .ok (rs, m2) => .ok (res :: rs, m2)

/-- An arena of one page mapped at an odd page (17 * 4096), chaining and
recycling enabled: its base is 4008 bytes below a multiple of 8192. -/
def demoOddPage : Setup :=
  { pg := 4096, reserve_size := 4096, commit_size := 4096, flags := 3, arena := 69632 }

/-- The 64 KiB arena mapped at 2 MiB: chaining and recycling enabled, 4 KiB
committed, pages of 4 KiB. -/
def demoHigh : Setup :=
  { pg := 4096, reserve_size := 65536, commit_size := 4096, flags := 3, arena := 2097152 }

/-! ## States used as examples -/

/-- The 64 KiB arena mapped at 2 MiB after `push(100, 8)` and
`push(400000, 8)`, for which `mmap` placed the new block of 401408 bytes at
1695744, directly below the head. -/
def demoHighFull : Machine :=
  demoHigh.after [Op.push 100 8 262144, Op.push 400000 8 1695744]

/-- The 64 KiB arena after `push(40, 8)`, then `push(8, 8)`,
`push(70000, 8)` (new block at 262144) and `push(70000, 8)` (new block at
622592). -/
def demoGrown : Machine :=
  demo.after [Op.push 40 8 262144, Op.push 8 8 262144, Op.push 70000 8 262144,
    Op.push 70000 8 622592]

/-- The arena `demoGrown` rolled back by `pop_to(40)`. -/
def demoRolled : Machine :=
  demo.after [Op.push 40 8 262144, Op.push 8 8 262144, Op.push 70000 8 262144,
    Op.push 70000 8 622592, Op.pop_to 40]

/-- The arena `demoRolled` after the replay of `push(8, 8)` and
`push(70000, 8)`. -/
def demoReplayed : Machine :=
  demo.after [Op.push 40 8 262144, Op.push 8 8 262144, Op.push 70000 8 262144,
    Op.push 70000 8 622592, Op.pop_to 40, Op.push 8 8 MAP_FAILED, Op.push 70000 8 MAP_FAILED]

/-! # Properties -/

/-! ## The heap -/

section HeapLemmas

theorem rd_cons (h : Heap) (q p : Nat) (a : Arena) :
    Heap.rd ((q, a) :: h) p = if q = p then some a else Heap.rd h p := rfl

theorem rd_wr (h : Heap) (p q : Nat) (b : Arena) :
    (h.wr p b).rd q = if q = p then (h.rd p).map (fun _ => b) else h.rd q := by
  induction h with
  | nil => simp [Heap.wr, Heap.rd]
  | cons e h ih =>
    obtain ⟨k, a⟩ := e
    by_cases hk : k = p
    · subst hk
      by_cases hq : q = k
      · subst hq; simp [Heap.wr, Heap.rd]
      · have hq2 : ¬ k = q := fun e => hq e.symm
        simp [Heap.wr, Heap.rd, hq, hq2]
    · by_cases hq : q = p
      · subst hq; simp [Heap.wr, Heap.rd, hk, ih]
      · simp [Heap.wr, Heap.rd, hk, hq, ih]

theorem rd_unmap (h : Heap) (p q : Nat) :
    (h.unmap p).rd q = if q = p then none else h.rd q := by
  induction h with
  | nil => simp [Heap.unmap, Heap.rd]
  | cons e h ih =>
    obtain ⟨k, a⟩ := e
    by_cases hk : k = p
    · subst hk
      by_cases hq : q = k
      · subst hq; simp [Heap.unmap, Heap.rd, ih]
      · have hq2 : ¬ k = q := fun e => hq e.symm
        simp [Heap.unmap, Heap.rd, hq, hq2, ih]
    · by_cases hq : q = p
      · subst hq; simp [Heap.unmap, Heap.rd, hk, ih]
      · simp [Heap.unmap, Heap.rd, hk, hq, ih]

theorem keys_wr (h : Heap) (p : Nat) (b : Arena) : (h.wr p b).keys = h.keys := by
  induction h with
  | nil => rfl
  | cons e h ih =>
    obtain ⟨k, a⟩ := e
    by_cases hk : k = p
    · simp [Heap.wr, Heap.keys, hk]
    · simpa [Heap.wr, Heap.keys, hk] using ih

theorem keys_unmap (h : Heap) (p : Nat) :
    (h.unmap p).keys = h.keys.filter (fun k => decide (k ≠ p)) := by
  induction h with
  | nil => rfl
  | cons e h ih =>
    obtain ⟨k, a⟩ := e
    by_cases hk : k = p
    · simpa [Heap.unmap, Heap.keys, hk] using ih
    · simpa [Heap.unmap, Heap.keys, hk] using ih

theorem rd_isSome_iff (h : Heap) (p : Nat) : (h.rd p).isSome ↔ p ∈ h.keys := by
  induction h with
  | nil => simp [Heap.rd, Heap.keys]
  | cons e h ih =>
    obtain ⟨k, a⟩ := e
    by_cases hk : k = p
    · simp [Heap.rd, Heap.keys, hk]
    · have hk2 : ¬ p = k := fun e => hk e.symm
      simpa [Heap.rd, Heap.keys, hk, hk2] using ih

theorem rd_eq_none_iff (h : Heap) (p : Nat) : h.rd p = none ↔ p ∉ h.keys := by
  rw [← rd_isSome_iff]; cases h.rd p <;> simp

theorem mem_keys_of_rd {h : Heap} {p : Nat} {a : Arena} (e : h.rd p = some a) :
    p ∈ h.keys := by
  rw [← rd_isSome_iff, e]; rfl

theorem wr_wr (h : Heap) (p : Nat) (a b : Arena) : (h.wr p a).wr p b = h.wr p b := by
  induction h with
  | nil => rfl
  | cons e h ih =>
    obtain ⟨k, x⟩ := e
    by_cases hk : k = p
    · simp [Heap.wr, hk]
    · simp [Heap.wr, hk, ih]

theorem wr_self (h : Heap) (p : Nat) (a : Arena) (e : h.rd p = some a) : h.wr p a = h := by
  induction h with
  | nil => rfl
  | cons x h ih =>
    obtain ⟨k, x⟩ := x
    by_cases hk : k = p
    · simp [Heap.rd, hk] at e
      simp [Heap.wr, hk, e]
    · simp [Heap.rd, hk] at e
      simp [Heap.wr, hk, ih e]

end HeapLemmas

/-! ## Loads and stores -/

theorem load_ok {m : Machine} {p : Nat} {a : Arena} (h : m.heap.rd p = some a)
    (hd : p ∉ m.dark) : load m p = .ok a := by
  simp [load, h, hd]

theorem load_dark {m : Machine} {p : Nat} (hd : p ∈ m.dark) :
    load m p = .error .fault := by
  unfold load
  cases m.heap.rd p <;> simp [hd]

theorem modify_ok {m : Machine} {p : Nat} {a : Arena} (f : Arena → Arena)
    (h : m.heap.rd p = some a) (hd : p ∉ m.dark) :
    modify m p f = .ok { m with heap := m.heap.wr p (f a) } := by
  simp [modify, h, hd]

/-! ## Page protection -/

@[simp] theorem mprotect_heap (pg : Nat) (m : Machine) (addr len : Nat) (access : Bool) :
    (mprotect pg m addr len access).heap = m.heap := by
  unfold mprotect
  split
  · rfl
  · cases access <;> rfl

@[simp] theorem mprotect_trace (pg : Nat) (m : Machine) (addr len : Nat) (access : Bool) :
    (mprotect pg m addr len access).trace = m.trace := by
  unfold mprotect
  split
  · rfl
  · cases access <;> rfl

@[simp] theorem commit_heap (pg : Nat) (m : Machine) (addr len : Nat) :
    (commit pg m addr len).heap = m.heap := by
  simp [commit, emit]

@[simp] theorem commit_trace (pg : Nat) (m : Machine) (addr len : Nat) :
    (commit pg m addr len).trace = m.trace ++ [Event.commit addr len] := by
  simp [commit, emit]

@[simp] theorem decommit_heap (pg : Nat) (m : Machine) (addr len : Nat) :
    (decommit pg m addr len).heap = m.heap := by
  simp [decommit, emit]

@[simp] theorem decommit_trace (pg : Nat) (m : Machine) (addr len : Nat) :
    (decommit pg m addr len).trace = m.trace ++ [Event.decommit addr len] := by
  simp [decommit, emit]

theorem commit_dark {pg : Nat} {m : Machine} {addr len q : Nat}
    (h : q ∈ (commit pg m addr len).dark) : q ∈ m.dark := by
  simp only [commit, emit, mprotect] at h
  split at h
  · exact h
  · simp at h; exact h.1

theorem commit_light {pg : Nat} {m : Machine} {addr len q : Nat}
    (h : q ∉ m.dark) : q ∉ (commit pg m addr len).dark :=
  fun h1 => h (commit_dark h1)

theorem decommit_dark {pg : Nat} {m : Machine} {addr len q : Nat}
    (h : q ∈ m.dark) : q ∈ (decommit pg m addr len).dark := by
  simp only [decommit, emit, mprotect]
  split
  · exact h
  · simp [h]

theorem LL_congr {nxt : Arena → Nat} {h h1 : Heap} :
    ∀ (l : List Nat) (p : Nat),
      (∀ x ∈ l, ∀ b, h.rd x = some b → ∃ b1, h1.rd x = some b1 ∧ nxt b1 = nxt b) →
      LL nxt h p l → LL nxt h1 p l
  | [], _, _, hl => hl
  | x :: l, p, hfr, hl => by
    obtain ⟨hp, hx, b, hb, hrest⟩ := hl
    obtain ⟨b1, hb1, hn⟩ := hfr x (List.mem_cons_self _ _) b hb
    refine ⟨hp, hx, b1, hb1, ?_⟩
    rw [hn]
    exact LL_congr l _ (fun y hy => hfr y (List.mem_cons_of_mem _ hy)) hrest

theorem LL_frame {nxt : Arena → Nat} {h h1 : Heap} {l : List Nat} {p : Nat}
    (hfr : ∀ x ∈ l, h1.rd x = h.rd x) (hl : LL nxt h p l) : LL nxt h1 p l :=
  LL_congr l p (fun x hx b hb => ⟨b, by rw [hfr x hx, hb], rfl⟩) hl

theorem LL_mapped {nxt : Arena → Nat} {h : Heap} :
    ∀ (l : List Nat) (p : Nat), LL nxt h p l → ∀ x ∈ l, x ≠ NULL ∧ ∃ b, h.rd x = some b
  | [], _, _, x, hx => by cases hx
  | y :: l, p, hl, x, hx => by
    obtain ⟨_, hy, b, hb, hrest⟩ := hl
    rcases List.mem_cons.1 hx with e | e
    · subst e; exact ⟨hy, b, hb⟩
    · exact LL_mapped l _ hrest x e

theorem LL_unique {nxt : Arena → Nat} {h : Heap} :
    ∀ (l l1 : List Nat) (p : Nat), LL nxt h p l → LL nxt h p l1 → l = l1
  | [], [], _, _, _ => rfl
  | [], y :: l1, p, h0, h1 => by
    obtain ⟨e, hy, _⟩ := h1
    have : p = NULL := h0
    exact absurd (e ▸ this) hy
  | x :: l, [], p, h0, h1 => by
    obtain ⟨e, hx, _⟩ := h0
    have : p = NULL := h1
    exact absurd (e ▸ this) hx
  | x :: l, y :: l1, p, h0, h1 => by
    obtain ⟨e0, _, b0, hb0, r0⟩ := h0
    obtain ⟨e1, _, b1, hb1, r1⟩ := h1
    have exy : x = y := e0.symm.trans e1
    subst exy
    have : b0 = b1 := by rw [hb0] at hb1; exact Option.some.inj hb1
    subst this
    rw [LL_unique l l1 _ r0 r1]

/-! ## Retiring blocks -/

theorem retire_free_spec (pg : Nat) {m : Machine} {arena curr : Nat} {a c : Arena}
    (ha : m.heap.rd arena = some a) (hc : m.heap.rd curr = some c)
    (hne : curr ≠ arena)
    (hf : hasFlag a.flags ARENA_USE_FREE_LIST = true) :
    retire pg m arena curr = .error .fault ∨
    ∃ m1, retire pg m arena curr = .ok m1 ∧
      m1.trace = m.trace ++ [decommitOf pg curr c] ∧
      m1.heap.keys = m.heap.keys ∧
      (∀ q, m1.heap.rd q =
        if q = curr then some (retired pg c a.free_list)
        else if q = arena then some { a with free_list := curr }
        else m.heap.rd q) ∧
      arena ∉ m.dark ∧ curr ∉ m.dark ∧ curr ∉ m1.dark ∧ (∀ q, q ∈ m.dark → q ∈ m1.dark) := by
  have hne2 : arena ≠ curr := fun e => hne e.symm
  by_cases hda : arena ∈ m.dark
  · left
    simp [retire, load, ha, hda, bind, Except.bind]
  by_cases hdc : curr ∈ m.dark
  · left
    simp [retire, load, modify, ha, hc, hf, hda, hdc, bind, Except.bind]
  by_cases hfl : a.free_list = NULL
  · simp [retire, load, modify, ha, hc, hf, hfl, bind, Except.bind, pure, Except.pure, rd_wr,
      hne, hne2, hda, hdc, keys_wr, retired, decommitOf]
    split
    · left; assumption
    · rename_i hD
      right
      refine ⟨_, rfl, ?_⟩
      simp only [true_and, and_true, not_false_eq_true]
      refine ⟨?_, ?_, hD, fun q hq => decommit_dark hq⟩
      · simp [keys_wr]
      · intro q
        by_cases h1 : q = curr
        · simp [h1, hne, hne2, rd_wr, ha, hc, retired, hfl]
        · by_cases h2 : q = arena
          · simp [h2, hne, hne2, rd_wr, ha, hc, retired, hfl]
          · simp [h1, h2, hne, hne2, rd_wr, ha, hc, retired, hfl]
  · simp [retire, load, modify, ha, hc, hf, hfl, bind, Except.bind, pure, Except.pure, rd_wr,
      hne, hne2, hda, hdc, keys_wr, retired, decommitOf]
    split
    · left; assumption
    · rename_i hD
      right
      refine ⟨_, rfl, ?_⟩
      simp only [true_and, and_true, not_false_eq_true]
      refine ⟨?_, ?_, hD, fun q hq => decommit_dark hq⟩
      · simp [keys_wr]
      · intro q
        by_cases h1 : q = curr
        · simp [h1, hne, hne2, rd_wr, ha, hc, retired, hfl]
        · by_cases h2 : q = arena
          · simp [h2, hne, hne2, rd_wr, ha, hc, retired, hfl]
          · simp [h1, h2, hne, hne2, rd_wr, ha, hc, retired, hfl]

theorem retire_unmap_spec (pg : Nat) {m : Machine} {arena curr : Nat} {a c : Arena}
    (ha : m.heap.rd arena = some a) (hc : m.heap.rd curr = some c)
    (hf : hasFlag a.flags ARENA_USE_FREE_LIST = false) :
    retire pg m arena curr = .error .fault ∨
    (retire pg m arena curr = .ok (munmap m curr c.capacity) ∧
      arena ∉ m.dark ∧ curr ∉ m.dark) := by
  by_cases hda : arena ∈ m.dark
  · left
    simp [retire, load, ha, hda, bind, Except.bind]
  by_cases hdc : curr ∈ m.dark
  · left
    simp [retire, load, ha, hc, hf, hda, hdc, bind, Except.bind]
  right
  simp [retire, load, ha, hc, hf, hda, hdc, bind, Except.bind, pure, Except.pure]

theorem getLast?_cons_ne {x arena : Nat} {rest : List Nat}
    (h : (x :: rest).getLast? = some arena) (hne : x ≠ arena) :
    rest ≠ [] ∧ rest.getLast? = some arena := by
  cases rest with
  | nil => simp at h; exact absurd h hne
  | cons y l => simpa [List.getLast?_cons_cons] using h

theorem mem_of_getLast? {l : List Nat} {a : Nat} (h : l.getLast? = some a) : a ∈ l :=
  List.mem_of_getLast?_eq_some h

theorem pop_loop_free_spec (pg pos : Nat) {arena : Nat} :
    ∀ (chain : List Nat) (fuel : Nat) (m : Machine) (a : Arena) (free : List Nat) (x : Nat),
      m.heap.rd arena = some a → a.base_pos = 0 →
      hasFlag a.flags ARENA_USE_FREE_LIST = true →
      LL Arena.prev m.heap x chain → chain.getLast? = some arena →
      LL Arena.next m.heap a.free_list free →
      (chain ++ free).Nodup → chain.length ≤ fuel →
      pop_loop pg fuel m arena pos x = .error .fault ∨
      ∃ l1 y l2 m1 fl,
        chain = l1 ++ y :: l2 ∧
        pop_loop pg fuel m arena pos x = .ok (y, m1) ∧
        y ∉ m1.dark ∧
        m1.heap.rd arena = some { a with free_list := fl } ∧
        LL Arena.next m1.heap fl (l1.reverse ++ free) ∧
        LL Arena.prev m1.heap y (y :: l2) ∧
        m1.heap.keys = m.heap.keys ∧
        m1.trace = m.trace ++ decommits pg m.heap l1 ∧
        (∀ q, q ∉ l1 → q ≠ arena → m1.heap.rd q = m.heap.rd q) ∧
        (∀ q ∈ l1, ∃ b nx, m.heap.rd q = some b ∧ pos < b.base_pos ∧
            m1.heap.rd q = some (retired pg b nx)) ∧
        (∃ b, m.heap.rd y = some b ∧ ¬ pos < b.base_pos)
  | [], _, _, _, _, _, _, _, _, _, hlast, _, _, _ => by simp at hlast
  | x1 :: rest, 0, _, _, _, _, _, _, _, _, _, _, _, hfuel => by simp at hfuel
  | x1 :: rest, fuel + 1, m, a, free, x, ha, hbp, hf, hll, hlast, hfree, hnd, hfuel => by
    obtain ⟨hx, hx0, b1, hb1, hrest⟩ := hll
    subst hx
    by_cases hdx : x ∈ m.dark
    · left
      simp [pop_loop, load_dark hdx, bind, Except.bind]
    by_cases hlt : pos < b1.base_pos
    · -- the block is retired
      have hne : x ≠ arena := by
        intro e
        rw [e, ha] at hb1
        have : a = b1 := Option.some.inj hb1
        rw [← this, hbp] at hlt
        exact Nat.not_lt_zero _ hlt
      obtain ⟨hrne, hrlast⟩ := getLast?_cons_ne hlast hne
      rcases retire_free_spec pg ha hb1 hne hf with hret | ⟨m1, hret, htr, hkeys, hrd, -, -, -, -⟩
      · left
        simp [pop_loop, load_ok hb1 hdx, hlt, hret, bind, Except.bind]
      have hnd1 : x ∉ rest ∧ x ∉ free ∧ (rest ++ free).Nodup := by
        simp [List.nodup_cons] at hnd
        tauto
      have harena_rest : arena ∈ rest := mem_of_getLast? hrlast
      have harena_free : arena ∉ free := by
        intro hmem
        have := hnd1.2.2
        rw [List.nodup_append] at this
        exact this.2.2 harena_rest hmem
      have ha1 : m1.heap.rd arena = some { a with free_list := x } := by
        rw [hrd]; simp [hne, Ne.symm hne]
      have hll1 : LL Arena.prev m1.heap b1.prev rest := by
        refine LL_congr rest _ ?_ hrest
        intro q hq b hb
        have hqx : q ≠ x := fun e => hnd1.1 (e ▸ hq)
        by_cases hqa : q = arena
        · subst hqa
          rw [ha] at hb
          refine ⟨_, ha1, ?_⟩
          rw [← Option.some.inj hb]
        · refine ⟨b, ?_, rfl⟩
          rw [hrd]; simp [hqx, hqa, hb]
      have hfree1 : LL Arena.next m1.heap x (x :: free) := by
        refine ⟨rfl, hx0, retired pg b1 a.free_list, ?_, ?_⟩
        · rw [hrd]; simp
        · refine LL_frame ?_ hfree
          intro q hq
          have hqx : q ≠ x := fun e => hnd1.2.1 (e ▸ hq)
          have hqa : q ≠ arena := fun e => harena_free (e ▸ hq)
          rw [hrd]; simp [hqx, hqa]
      have hnd2 : (rest ++ x :: free).Nodup := by
        have := hnd1.2.2
        rw [List.nodup_append] at this ⊢
        refine ⟨this.1, ?_, ?_⟩
        · simp [List.nodup_cons, hnd1.2.1, this.2.1]
        · intro q hq hq2
          rcases List.mem_cons.1 hq2 with e | e
          · exact hnd1.1 (e ▸ hq)
          · exact this.2.2 hq e
      rcases pop_loop_free_spec pg pos rest fuel m1 { a with free_list := x }
          (x :: free) b1.prev ha1 hbp hf hll1 hrlast hfree1 hnd2
          (by simpa using hfuel) with
        hrun | ⟨l1, y, l2, m2, fl, hch, hrun, hyd, ha2, hfl2, hpl2, hk2, htr2, hfr2, hret2, hy2⟩
      · left
        simp [pop_loop, load_ok hb1 hdx, hlt, hret, bind, Except.bind, hrun]
      right
      have hxl1 : x ∉ l1 := by
        intro hmem
        apply hnd1.1
        rw [hch]; simp [hmem]
      have hal1 : arena ∉ l1 := by
        intro hmem
        obtain ⟨b, _, hb, hlt2, _⟩ := hret2 arena hmem
        rw [ha1] at hb
        have := Option.some.inj hb
        rw [← this] at hlt2
        simp [hbp] at hlt2
      have hrd1 : ∀ q ∈ l1, m1.heap.rd q = m.heap.rd q := by
        intro q hq
        have hqx : q ≠ x := fun e => hxl1 (e ▸ hq)
        have hqa : q ≠ arena := fun e => hal1 (e ▸ hq)
        rw [hrd]; simp [hqx, hqa]
      refine ⟨x :: l1, y, l2, m2, fl, ?_, ?_, hyd, ?_, ?_, hpl2, ?_, ?_, ?_, ?_, ?_⟩
      · simp [hch]
      · simp [pop_loop, load_ok hb1 hdx, hlt, hret, bind, Except.bind, hrun]
      · simpa using ha2
      · simpa [List.reverse_cons, List.append_assoc] using hfl2
      · rw [hk2, hkeys]
      · rw [htr2, htr]
        have : decommits pg m1.heap l1 = decommits pg m.heap l1 := by
          unfold decommits
          apply List.filterMap_congr
          intro q hq
          rw [hrd1 q hq]
        rw [this]
        simp [decommits, hb1]
      · intro q hq hqa
        have hq1 : q ≠ x := fun e => hq (e ▸ List.mem_cons_self _ _)
        have hq2 : q ∉ l1 := fun e => hq (List.mem_cons_of_mem _ e)
        rw [hfr2 q hq2 hqa, hrd]; simp [hq1, hqa]
      · intro q hq
        rcases List.mem_cons.1 hq with e | e
        · subst e
          refine ⟨b1, a.free_list, hb1, hlt, ?_⟩
          rw [hfr2 q hxl1 hne, hrd]; simp
        · obtain ⟨b, nx, hb, hlt2, hq2⟩ := hret2 q e
          exact ⟨b, nx, by rw [← hrd1 q e]; exact hb, hlt2, hq2⟩
      · obtain ⟨b, hb, hnlt⟩ := hy2
        have hyx : y ≠ x := by
          intro e
          apply hnd1.1
          rw [hch, ← e]; simp
        by_cases hya : y = arena
        · refine ⟨a, by rw [hya]; exact ha, ?_⟩
          simp [hbp]
        · refine ⟨b, ?_, hnlt⟩
          rw [← hb, hrd]; simp [hyx, hya]
    · -- the loop stops here
      right
      refine ⟨[], x, rest, m, a.free_list, rfl, ?_, hdx, ?_, ?_, ?_, rfl, ?_, ?_, ?_, ?_⟩
      · simp [pop_loop, load_ok hb1 hdx, hlt, bind, Except.bind, pure, Except.pure]
      · exact ha
      · simpa using hfree
      · exact ⟨rfl, hx0, b1, hb1, hrest⟩
      · simp [decommits]
      · intro q _ _; rfl
      · intro q hq; cases hq
      · exact ⟨b1, hb1, hlt⟩

theorem pop_loop_unmap_spec (pg pos : Nat) {arena : Nat} :
    ∀ (chain : List Nat) (fuel : Nat) (m : Machine) (a : Arena) (x : Nat),
      m.heap.rd arena = some a → a.base_pos = 0 →
      hasFlag a.flags ARENA_USE_FREE_LIST = false →
      LL Arena.prev m.heap x chain → chain.getLast? = some arena →
      chain.Nodup → chain.length ≤ fuel →
      pop_loop pg fuel m arena pos x = .error .fault ∨
      ∃ l1 y l2 m1,
        chain = l1 ++ y :: l2 ∧
        pop_loop pg fuel m arena pos x = .ok (y, m1) ∧
        y ∉ m1.dark ∧ (∀ q, q ∈ m1.dark → q ∈ m.dark) ∧
        (∀ q, m1.heap.rd q = if q ∈ l1 then none else m.heap.rd q) ∧
        m1.heap.keys = m.heap.keys.filter (fun k => decide (k ∉ l1)) ∧
        m1.trace = m.trace ++ munmaps m.heap l1 ∧
        (∀ q ∈ l1, ∃ b, m.heap.rd q = some b ∧ pos < b.base_pos) ∧
        (∃ b, m.heap.rd y = some b ∧ ¬ pos < b.base_pos)
  | [], _, _, _, _, _, _, _, _, hlast, _, _ => by simp at hlast
  | x1 :: rest, 0, _, _, _, _, _, _, _, _, _, hfuel => by simp at hfuel
  | x1 :: rest, fuel + 1, m, a, x, ha, hbp, hf, hll, hlast, hnd, hfuel => by
    obtain ⟨hx, hx0, b1, hb1, hrest⟩ := hll
    subst hx
    by_cases hdx : x ∈ m.dark
    · left
      simp [pop_loop, load_dark hdx, bind, Except.bind]
    by_cases hlt : pos < b1.base_pos
    · have hne : x ≠ arena := by
        intro e
        rw [e, ha] at hb1
        have : a = b1 := Option.some.inj hb1
        rw [← this, hbp] at hlt
        exact Nat.not_lt_zero _ hlt
      obtain ⟨hrne, hrlast⟩ := getLast?_cons_ne hlast hne
      rcases retire_unmap_spec pg ha hb1 hf with hret | ⟨hret, -, -⟩
      · left
        simp [pop_loop, load_ok hb1 hdx, hlt, hret, bind, Except.bind]
      have hnd1 : x ∉ rest ∧ rest.Nodup := by simpa [List.nodup_cons] using hnd
      have hrd : ∀ q, (munmap m x b1.capacity).heap.rd q = if q = x then none else m.heap.rd q := by
        intro q; simp [munmap, rd_unmap]
      have ha1 : (munmap m x b1.capacity).heap.rd arena = some a := by
        rw [hrd]; simp [Ne.symm hne, ha]
      have hll1 : LL Arena.prev (munmap m x b1.capacity).heap b1.prev rest := by
        refine LL_frame ?_ hrest
        intro q hq
        have hqx : q ≠ x := fun e => hnd1.1 (e ▸ hq)
        rw [hrd]; simp [hqx]
      rcases pop_loop_unmap_spec pg pos rest fuel (munmap m x b1.capacity) a
          b1.prev ha1 hbp hf hll1 hrlast hnd1.2 (by simpa using hfuel) with
        hrun | ⟨l1, y, l2, m2, hch, hrun, hyd, hmono, hrd2, hk2, htr2, hret2, hy2⟩
      · left
        simp [pop_loop, load_ok hb1 hdx, hlt, hret, bind, Except.bind, hrun]
      right
      have hxl1 : x ∉ l1 := by
        intro hmem
        apply hnd1.1
        rw [hch]; simp [hmem]
      have hrd1 : ∀ q ∈ l1, (munmap m x b1.capacity).heap.rd q = m.heap.rd q := by
        intro q hq
        have hqx : q ≠ x := fun e => hxl1 (e ▸ hq)
        rw [hrd]; simp [hqx]
      refine ⟨x :: l1, y, l2, m2, ?_, ?_, hyd, ?_, ?_, ?_, ?_, ?_, ?_⟩
      · simp [hch]
      · simp [pop_loop, load_ok hb1 hdx, hlt, hret, bind, Except.bind, hrun]
      · intro q hq
        have := hmono q hq
        simp only [munmap, List.mem_filter] at this
        exact this.1
      · intro q
        rw [hrd2, hrd]
        by_cases h1 : q = x
        · simp [h1]
        · simp [h1]
      · rw [hk2]
        simp only [munmap, keys_unmap, List.filter_filter]
        apply List.filter_congr
        intro k _
        simp [Bool.and_comm]
      · rw [htr2]
        have : munmaps (munmap m x b1.capacity).heap l1 = munmaps m.heap l1 := by
          unfold munmaps
          apply List.filterMap_congr
          intro q hq
          rw [hrd1 q hq]
        rw [this]
        simp [munmaps, hb1, munmap]
      · intro q hq
        rcases List.mem_cons.1 hq with e | e
        · subst e; exact ⟨b1, hb1, hlt⟩
        · obtain ⟨b, hb, hlt2⟩ := hret2 q e
          exact ⟨b, by rw [← hrd1 q e]; exact hb, hlt2⟩
      · obtain ⟨b, hb, hnlt⟩ := hy2
        have hyx : y ≠ x := by
          intro e
          apply hnd1.1
          rw [hch, ← e]; simp
        refine ⟨b, ?_, hnlt⟩
        rw [← hb, hrd]; simp [hyx]
    · right
      refine ⟨[], x, rest, m, rfl, ?_, hdx, fun q hq => hq, ?_, ?_, ?_, ?_, ?_⟩
      · simp [pop_loop, load_ok hb1 hdx, hlt, bind, Except.bind, pure, Except.pure]
      · intro q; simp
      · simp
      · simp [munmaps]
      · intro q hq; cases hq
      · exact ⟨b1, hb1, hlt⟩

theorem pop_finish_spec (pos : Nat) {m : Machine} {arena y : Nat} {a b : Arena}
    (ha : m.heap.rd arena = some a) (hb : m.heap.rd y = some b) (hdy : y ∉ m.dark) :
    (do
        let m ← modify m y (fun b => { b with pos := u64sub pos b.base_pos })
        let m ← modify m y (fun b => { b with top := u64add b.base b.pos })
        modify m arena (fun b => { b with curr := y })) = Except.error Err.fault ∨
    ∃ m1,
      (do
        let m ← modify m y (fun b => { b with pos := u64sub pos b.base_pos })
        let m ← modify m y (fun b => { b with top := u64add b.base b.pos })
        modify m arena (fun b => { b with curr := y })) = Except.ok m1 ∧
      m1.trace = m.trace ∧ m1.heap.keys = m.heap.keys ∧ m1.dark = m.dark ∧ arena ∉ m.dark ∧
      ∀ q, m1.heap.rd q =
        if q = arena then some { (if y = arena then popTarget a pos else a) with curr := y }
        else if q = y then some (popTarget b pos)
        else m.heap.rd q := by
  by_cases hya : y = arena
  · subst hya
    rw [ha] at hb
    have hab : a = b := Option.some.inj hb
    subst hab
    right
    simp [modify, ha, hdy, bind, Except.bind, rd_wr, keys_wr, popTarget]
    intro q
    by_cases hq : q = y
    · simp [hq]
    · simp [hq]
  · have hay : arena ≠ y := fun e => hya e.symm
    by_cases hda : arena ∈ m.dark
    · left
      simp [modify, ha, hb, hda, hdy, bind, Except.bind, rd_wr, keys_wr, popTarget, hya, hay]
    right
    simp [modify, ha, hb, hda, hdy, bind, Except.bind, rd_wr, keys_wr, popTarget, hya, hay]
    intro q
    by_cases hq : q = arena
    · simp [hq]
    · by_cases hq2 : q = y
      · simp [hq2, hya]
      · simp [hq, hq2]

theorem WF.chain_cons {m : Machine} {arena : Nat} {a : Arena} {chain free : List Nat}
    (hwf : WF m arena a chain free) :
    ∃ rest c, chain = a.curr :: rest ∧ m.heap.rd a.curr = some c ∧ a.curr ≠ NULL ∧
      LL Arena.prev m.heap c.prev rest := by
  have hlast := hwf.chain_last
  have hll := hwf.chain_ll
  cases chain with
  | nil => simp at hlast
  | cons x rest =>
    obtain ⟨hx, hx0, b, hb, hrest⟩ := hll
    subst hx
    exact ⟨rest, b, rfl, hb, hx0, hrest⟩

theorem WF.arena_mem {m : Machine} {arena : Nat} {a : Arena} {chain free : List Nat}
    (hwf : WF m arena a chain free) : arena ∈ chain :=
  mem_of_getLast? hwf.chain_last

theorem WF.not_mem_free {m : Machine} {arena : Nat} {a : Arena} {chain free : List Nat}
    (hwf : WF m arena a chain free) {x : Nat} (hx : x ∈ chain) : x ∉ free := by
  intro hmem
  have := hwf.nodup
  rw [List.nodup_append] at this
  exact this.2.2 hx hmem

theorem WF.length_le {m : Machine} {arena : Nat} {a : Arena} {chain free : List Nat}
    (hwf : WF m arena a chain free) : chain.length ≤ m.heap.length := by
  have := hwf.keys_perm.length_eq
  simp [Heap.keys] at this
  omega

theorem pop_to_recycle_spec (pg : Nat) {m : Machine} {arena pos : Nat} {a c : Arena}
    {chain free : List Nat}
    (hwf : WF m arena a chain free)
    (hch : hasFlag a.flags ARENA_USE_CHAINING = true)
    (hfl : hasFlag a.flags ARENA_USE_FREE_LIST = true)
    (hc : m.heap.rd a.curr = some c) (hp : pos ≤ u64add c.base_pos c.pos) :
    arena_pop_to pg m arena pos = .error .fault ∨
    ∃ l1 y l2 b m1 fl,
      chain = l1 ++ y :: l2 ∧ m.heap.rd y = some b ∧ b.base_pos ≤ pos ∧
      (∀ q ∈ l1, ∃ bq nx, m.heap.rd q = some bq ∧ pos < bq.base_pos ∧
          m1.heap.rd q = some (retired pg bq nx)) ∧
      arena_pop_to pg m arena pos = .ok m1 ∧
      arena ∉ m1.dark ∧ y ∉ m1.dark ∧
      m1.heap.rd y = some (if y = arena
          then { popTarget a pos with free_list := fl, curr := y } else popTarget b pos) ∧
      (∀ q, q ∉ l1 → q ≠ arena → q ≠ y → m1.heap.rd q = m.heap.rd q) ∧
      m1.heap.keys = m.heap.keys ∧
      m1.trace = m.trace ++ decommits pg m.heap l1 ∧
      WF m1 arena
        { (if y = arena then popTarget a pos else a) with free_list := fl, curr := y }
        (y :: l2) (l1.reverse ++ free) := by
  have ha := hwf.head
  have hp2 : ¬ pos > u64add c.base_pos c.pos := by omega
  by_cases hda : arena ∈ m.dark
  · left
    simp [arena_pop_to, load_dark hda, bind, Except.bind]
  by_cases hdc : a.curr ∈ m.dark
  · left
    simp [arena_pop_to, load_ok ha hda, load_dark hdc, bind, Except.bind]
  rcases pop_loop_free_spec pg pos chain (m.heap.length + 1) m a free a.curr
      ha hwf.head_base_pos hfl hwf.chain_ll hwf.chain_last hwf.free_ll hwf.nodup
      (by have := hwf.length_le; omega) with
    hrun | ⟨l1, y, l2, m1, fl, hchain, hrun, hyd, ha1, hfl1, hpl1, hk1, htr1, hfr1, hret1, hy1⟩
  · left
    simp [arena_pop_to, load_ok ha hda, load_ok hc hdc, bind, Except.bind, hp2, hch, hrun]
  obtain ⟨b, hb, hnlt⟩ := hy1
  have hnd := hwf.nodup
  have hy_chain : y ∈ chain := by rw [hchain]; simp
  have hyl1 : y ∉ l1 := by
    intro hmem
    rw [hchain, List.append_assoc] at hnd
    have := (List.nodup_append.1 hnd).2.2 hmem
    simp at this
  have hal1 : arena ∉ l1 := by
    intro hmem
    obtain ⟨bq, _, hbq, hlt, _⟩ := hret1 arena hmem
    rw [ha] at hbq
    rw [← Option.some.inj hbq, hwf.head_base_pos] at hlt
    exact Nat.not_lt_zero _ hlt
  have hyfree : y ∉ free := hwf.not_mem_free hy_chain
  have hafree : arena ∉ free := hwf.not_mem_free hwf.arena_mem
  -- header of `y` after the loop
  have hb1 : m1.heap.rd y = some (if y = arena then { a with free_list := fl } else b) := by
    by_cases hya : y = arena
    · simp [hya, ha1]
    · simp [hya, hfr1 y hyl1 hya, hb]
  rcases pop_finish_spec pos ha1 hb1 hyd with hfin | ⟨m2, hfin, htr2, hk2, hdk2, hda2, hrd2⟩
  · left
    simp only [arena_pop_to, load_ok ha hda, load_ok hc hdc, bind, Except.bind, hp2, if_false, hch,
      Bool.not_true, hrun]
    exact hfin
  right
  have hm2a : m2.heap.rd arena = some
      { (if y = arena then popTarget a pos else a) with free_list := fl, curr := y } := by
    rw [hrd2]
    by_cases hya : y = arena
    · simp [hya, popTarget]
    · simp [hya]
  have hm2y : m2.heap.rd y = some (if y = arena
      then { popTarget a pos with free_list := fl, curr := y } else popTarget b pos) := by
    by_cases hya : y = arena
    · rw [hrd2]; simp [hya, popTarget]
    · rw [hrd2]; simp [hya]
  have hm2frame : ∀ q, q ≠ arena → q ≠ y → m2.heap.rd q = m1.heap.rd q := by
    intro q h1 h2
    rw [hrd2]; simp [h1, h2]
  refine ⟨l1, y, l2, b, m2, fl, hchain, hb, Nat.not_lt.1 hnlt, ?_, ?_,
    by rw [hdk2]; exact hda2, by rw [hdk2]; exact hyd, hm2y, ?_, ?_, ?_, ?_⟩
  · intro q hq
    obtain ⟨bq, nx, hbq, hlt, hq1⟩ := hret1 q hq
    refine ⟨bq, nx, hbq, hlt, ?_⟩
    have hqa : q ≠ arena := fun e => hal1 (e ▸ hq)
    have hqy : q ≠ y := fun e => hyl1 (e ▸ hq)
    rw [hm2frame q hqa hqy, hq1]
  · simp only [arena_pop_to, load_ok ha hda, load_ok hc hdc, bind, Except.bind, hp2, if_false, hch,
      Bool.not_true, hrun]
    exact hfin
  · intro q h1 h2 h3
    rw [hm2frame q h2 h3, hfr1 q h1 h2]
  · rw [hk2, hk1]
  · rw [htr2, htr1]
  · refine
      { head := hm2a
        head_base_pos := ?_
        chain_ll := ?_
        chain_last := ?_
        free_ll := ?_
        nodup := ?_
        keys_perm := ?_
        nochain := ?_
        nofree := ?_
        free_reset := ?_ }
    · by_cases hya : y = arena
      · simp [hya, popTarget, hwf.head_base_pos]
      · simp [hya, hwf.head_base_pos]
    · refine LL_congr _ _ ?_ hpl1
      intro q hq bq hbq
      by_cases hqa : q = arena
      · subst hqa
        rw [ha1] at hbq
        refine ⟨_, hm2a, ?_⟩
        rw [← Option.some.inj hbq]
        by_cases hya : y = q
        · simp [hya, popTarget]
        · simp [hya]
      · by_cases hqy : q = y
        · subst hqy
          rw [hb1] at hbq
          refine ⟨_, hm2y, ?_⟩
          rw [← Option.some.inj hbq]
          simp [hqa, popTarget]
        · exact ⟨bq, by rw [hm2frame q hqa hqy]; exact hbq, rfl⟩
    · have := hwf.chain_last
      rw [hchain, List.getLast?_append_cons] at this
      exact this
    · refine LL_frame ?_ hfl1
      intro q hq
      have hqa : q ≠ arena := by
        intro e
        rcases List.mem_append.1 hq with h | h
        · exact hal1 (e ▸ List.mem_reverse.1 h)
        · exact hafree (e ▸ h)
      have hqy : q ≠ y := by
        intro e
        rcases List.mem_append.1 hq with h | h
        · exact hyl1 (e ▸ List.mem_reverse.1 h)
        · exact hyfree (e ▸ h)
      exact hm2frame q hqa hqy
    · have hperm : (y :: l2 ++ (l1.reverse ++ free)).Perm (chain ++ free) := by
        rw [hchain]
        have h1 : (l1.reverse).Perm l1 := List.reverse_perm l1
        calc (y :: l2 ++ (l1.reverse ++ free)).Perm ((l1.reverse ++ (y :: l2)) ++ free) := by
              rw [← List.append_assoc]
              exact List.Perm.append_right _ List.perm_append_comm
          _ |>.Perm ((l1 ++ y :: l2) ++ free) :=
              List.Perm.append_right _ (List.Perm.append_right _ h1)
      exact hperm.nodup_iff.2 hnd
    · rw [hk2, hk1]
      refine hwf.keys_perm.trans ?_
      rw [hchain]
      have h1 : (l1.reverse).Perm l1 := List.reverse_perm l1
      refine List.Perm.symm ?_
      calc (y :: l2 ++ (l1.reverse ++ free)).Perm ((l1.reverse ++ (y :: l2)) ++ free) := by
            rw [← List.append_assoc]
            exact List.Perm.append_right _ List.perm_append_comm
        _ |>.Perm ((l1 ++ y :: l2) ++ free) :=
            List.Perm.append_right _ (List.Perm.append_right _ h1)
    · intro h
      by_cases hya : y = arena
      · simp [hya, popTarget, hch] at h
      · simp [hya, hch] at h
    · intro h
      by_cases hya : y = arena
      · simp [hya, popTarget, hfl] at h
      · simp [hya, hfl] at h
    · intro x hx bx hbx
      have hxa : x ≠ arena := by
        intro e
        rcases List.mem_append.1 hx with h | h
        · exact hal1 (e ▸ List.mem_reverse.1 h)
        · exact hafree (e ▸ h)
      have hxy : x ≠ y := by
        intro e
        rcases List.mem_append.1 hx with h | h
        · exact hyl1 (e ▸ List.mem_reverse.1 h)
        · exact hyfree (e ▸ h)
      rw [hm2frame x hxa hxy] at hbx
      rcases List.mem_append.1 hx with h | h
      · obtain ⟨bq, nx, _, _, hq1⟩ := hret1 x (List.mem_reverse.1 h)
        rw [hq1] at hbx
        rw [← Option.some.inj hbx]
        simp [retired]
      · have hxl1 : x ∉ l1 := by
          intro hmem
          rw [hchain, List.append_assoc] at hnd
          have := (List.nodup_append.1 hnd).2.2 hmem
          simp [h] at this
        rw [hfr1 x hxl1 hxa] at hbx
        exact hwf.free_reset x h bx hbx

theorem LL_suffix {nxt : Arena → Nat} {h : Heap} {y : Nat} {l2 : List Nat} :
    ∀ (l1 : List Nat) (p : Nat), LL nxt h p (l1 ++ y :: l2) → LL nxt h y (y :: l2)
  | [], p, hl => by
    have hp : p = y := hl.1
    subst hp
    exact hl
  | z :: l, p, hl => by
    obtain ⟨_, _, bz, _, hr⟩ := hl
    exact LL_suffix l _ hr

theorem pop_to_unmap_spec (pg : Nat) {m : Machine} {arena pos : Nat} {a c : Arena}
    {chain free : List Nat}
    (hwf : WF m arena a chain free)
    (hch : hasFlag a.flags ARENA_USE_CHAINING = true)
    (hfl : hasFlag a.flags ARENA_USE_FREE_LIST = false)
    (hc : m.heap.rd a.curr = some c) (hp : pos ≤ u64add c.base_pos c.pos) :
    arena_pop_to pg m arena pos = .error .fault ∨
    ∃ l1 y l2 b m1,
      chain = l1 ++ y :: l2 ∧ m.heap.rd y = some b ∧ b.base_pos ≤ pos ∧
      (∀ q ∈ l1, ∃ bq, m.heap.rd q = some bq ∧ pos < bq.base_pos ∧ m1.heap.rd q = none) ∧
      arena_pop_to pg m arena pos = .ok m1 ∧
      arena ∉ m1.dark ∧ y ∉ m1.dark ∧ (∀ q, q ∈ m1.dark → q ∈ m.dark) ∧
      m1.heap.rd y = some (if y = arena
          then { popTarget a pos with curr := y } else popTarget b pos) ∧
      (∀ q, q ∉ l1 → q ≠ arena → q ≠ y → m1.heap.rd q = m.heap.rd q) ∧
      m1.heap.keys = m.heap.keys.filter (fun k => decide (k ∉ l1)) ∧
      m1.trace = m.trace ++ munmaps m.heap l1 ∧
      WF m1 arena
        { (if y = arena then popTarget a pos else a) with curr := y } (y :: l2) [] := by
  have ha := hwf.head
  have hfree : free = [] := hwf.nofree hfl
  subst hfree
  have hp2 : ¬ pos > u64add c.base_pos c.pos := by omega
  have hnd : chain.Nodup := by simpa using hwf.nodup
  by_cases hda : arena ∈ m.dark
  · left
    simp [arena_pop_to, load_dark hda, bind, Except.bind]
  by_cases hdc : a.curr ∈ m.dark
  · left
    simp [arena_pop_to, load_ok ha hda, load_dark hdc, bind, Except.bind]
  rcases pop_loop_unmap_spec pg pos chain (m.heap.length + 1) m a a.curr
      ha hwf.head_base_pos hfl hwf.chain_ll hwf.chain_last hnd
      (by have := hwf.length_le; omega) with
    hrun | ⟨l1, y, l2, m1, hchain, hrun, hyd, hmono, hrd1, hk1, htr1, hret1, hy1⟩
  · left
    simp [arena_pop_to, load_ok ha hda, load_ok hc hdc, bind, Except.bind, hp2, hch, hrun]
  obtain ⟨b, hb, hnlt⟩ := hy1
  have hyl1 : y ∉ l1 := by
    intro hmem
    rw [hchain] at hnd
    have := (List.nodup_append.1 hnd).2.2 hmem
    simp at this
  have hal1 : arena ∉ l1 := by
    intro hmem
    obtain ⟨bq, hbq, hlt⟩ := hret1 arena hmem
    rw [ha] at hbq
    rw [← Option.some.inj hbq, hwf.head_base_pos] at hlt
    exact Nat.not_lt_zero _ hlt
  have ha1 : m1.heap.rd arena = some a := by rw [hrd1]; simp [hal1, ha]
  have hb1 : m1.heap.rd y = some b := by rw [hrd1]; simp [hyl1, hb]
  rcases pop_finish_spec pos ha1 hb1 hyd with hfin | ⟨m2, hfin, htr2, hk2, hdk2, hda2, hrd2⟩
  · left
    simp only [arena_pop_to, load_ok ha hda, load_ok hc hdc, bind, Except.bind, hp2, if_false, hch,
      Bool.not_true, hrun]
    exact hfin
  right
  have hab : y = arena → b = a := by
    intro e
    rw [e, ha] at hb
    exact (Option.some.inj hb).symm
  have hm2a : m2.heap.rd arena = some
      { (if y = arena then popTarget a pos else a) with curr := y } := by
    rw [hrd2]; simp
  have hm2y : m2.heap.rd y = some (if y = arena
      then { popTarget a pos with curr := y } else popTarget b pos) := by
    by_cases hya : y = arena
    · rw [hrd2]; simp [hya]
    · rw [hrd2]; simp [hya]
  have hm2frame : ∀ q, q ≠ arena → q ≠ y → m2.heap.rd q = m1.heap.rd q := by
    intro q h1 h2
    rw [hrd2]; simp [h1, h2]
  refine ⟨l1, y, l2, b, m2, hchain, hb, Nat.not_lt.1 hnlt, ?_, ?_,
    by rw [hdk2]; exact hda2, by rw [hdk2]; exact hyd, by rw [hdk2]; exact hmono, hm2y,
    ?_, ?_, ?_, ?_⟩
  · intro q hq
    obtain ⟨bq, hbq, hlt⟩ := hret1 q hq
    refine ⟨bq, hbq, hlt, ?_⟩
    have hqa : q ≠ arena := fun e => hal1 (e ▸ hq)
    have hqy : q ≠ y := fun e => hyl1 (e ▸ hq)
    rw [hm2frame q hqa hqy, hrd1]; simp [hq]
  · simp only [arena_pop_to, load_ok ha hda, load_ok hc hdc, bind, Except.bind, hp2, if_false, hch,
      Bool.not_true, hrun]
    exact hfin
  · intro q h1 h2 h3
    rw [hm2frame q h2 h3, hrd1]; simp [h1]
  · rw [hk2, hk1]
  · rw [htr2, htr1]
  · have hpl1 : LL Arena.prev m.heap y (y :: l2) := by
      have := hwf.chain_ll
      rw [hchain] at this
      exact LL_suffix l1 _ this
    refine
      { head := hm2a
        head_base_pos := ?_
        chain_ll := ?_
        chain_last := ?_
        free_ll := ?_
        nodup := ?_
        keys_perm := ?_
        nochain := ?_
        nofree := ?_
        free_reset := ?_ }
    · by_cases hya : y = arena
      · simp [hya, popTarget, hwf.head_base_pos]
      · simp [hya, hwf.head_base_pos]
    · refine LL_congr _ _ ?_ hpl1
      intro q hq bq hbq
      have hql1 : q ∉ l1 := by
        intro hmem
        rw [hchain] at hnd
        exact (List.nodup_append.1 hnd).2.2 hmem hq
      by_cases hqa : q = arena
      · subst hqa
        rw [ha] at hbq
        refine ⟨_, hm2a, ?_⟩
        rw [← Option.some.inj hbq]
        by_cases hya : y = q
        · simp [hya, popTarget]
        · simp [hya]
      · by_cases hqy : q = y
        · subst hqy
          rw [hb] at hbq
          refine ⟨_, hm2y, ?_⟩
          rw [← Option.some.inj hbq]
          simp [hqa, popTarget]
        · exact ⟨bq, by rw [hm2frame q hqa hqy, hrd1]; simp [hql1, hbq], rfl⟩
    · have := hwf.chain_last
      rw [hchain, List.getLast?_append_cons] at this
      exact this
    · have := hwf.free_ll
      simpa [LL, popTarget, apply_ite] using this
    · rw [hchain] at hnd
      simpa using (List.nodup_append.1 hnd).2.1
    · rw [hk2, hk1]
      have hperm := hwf.keys_perm
      simp only [List.append_nil] at hperm ⊢
      have h2 := hperm.filter (fun k => decide (k ∉ l1))
      refine h2.trans ?_
      rw [hchain, List.filter_append]
      have e1 : l1.filter (fun k => decide (k ∉ l1)) = [] := by
        simp [List.filter_eq_nil_iff]
      have e2 : (y :: l2).filter (fun k => decide (k ∉ l1)) = y :: l2 := by
        rw [List.filter_eq_self]
        intro k hk
        have : k ∉ l1 := by
          intro hmem
          rw [hchain] at hnd
          exact (List.nodup_append.1 hnd).2.2 hmem hk
        simp [this]
      rw [e1, e2]; simp
    · intro h
      by_cases hya : y = arena
      · simp [hya, popTarget, hch] at h
      · simp [hya, hch] at h
    · intro _; rfl
    · intro x hx; cases hx

theorem mem_commitDark {pg : Nat} {m : Machine} {c : Arena} {n q : Nat}
    (h : q ∈ commitDark pg m c n) : q ∈ m.dark := by
  unfold commitDark at h
  split at h
  · exact commit_dark h
  · exact h

theorem not_mem_commitDark {pg : Nat} {m : Machine} {c : Arena} {n q : Nat}
    (h : q ∉ m.dark) : q ∉ commitDark pg m c n :=
  fun h1 => h (mem_commitDark h1)

theorem push_commit_spec {pg : Nat} {m : Machine} {arena n : Nat} {a c : Arena}
    (ha : m.heap.rd arena = some a) (hc : m.heap.rd a.curr = some c)
    (hda : arena ∉ m.dark) (hdc : a.curr ∉ m.dark) :
    push_commit pg m arena n =
      .ok { heap := m.heap.wr a.curr (committedTo pg c n),
            trace := m.trace ++ commitEvent c n,
            dark := commitDark pg m c n } := by
  by_cases h : n > c.committed
  · have hdc2 := @commit_light pg m (u64add (u64sub c.base ARENA_HEADER_SIZE) c.committed)
      (u64sub n c.committed) a.curr hdc
    simp [push_commit, load_ok ha hda, load_ok hc hdc, bind, Except.bind, h, modify, hc,
      committedTo, commitEvent, commitDark, hdc2]
  · simp [push_commit, load_ok ha hda, load_ok hc hdc, bind, Except.bind, h, pure, Except.pure,
      committedTo, commitEvent, commitDark, wr_self _ _ _ hc]

theorem push_finish_spec (pg size : Nat) {m : Machine} {arena n : Nat} {a c : Arena}
    (ha : m.heap.rd arena = some a) (hc : m.heap.rd a.curr = some c)
    (hda : arena ∉ m.dark) (hdc : a.curr ∉ m.dark) :
    push_finish pg m arena size n =
      .ok (c.top, { heap := m.heap.wr a.curr (bumped (committedTo pg c n) size),
                    trace := m.trace ++ commitEvent c n,
                    dark := commitDark pg m c n }) := by
  have hda2 : arena ∉ commitDark pg m c n := not_mem_commitDark hda
  have hdc2 : a.curr ∉ commitDark pg m c n := not_mem_commitDark hdc
  have hct : (committedTo pg c n).top = c.top := by
    unfold committedTo; split <;> rfl
  have hcc : (committedTo pg c n).curr = c.curr := by
    unfold committedTo; split <;> rfl
  by_cases hal : arena = a.curr
  · have hac : a = c := by
      rw [← hal, ha] at hc; exact Option.some.inj hc
    subst hac
    rw [← hal] at hdc2
    simp [push_finish, push_commit_spec ha hc hda hdc, bind, Except.bind, load, modify, rd_wr, ha,
      ← hal, pure, Except.pure, wr_wr, bumped, hct, hcc, hda2]
  · simp [push_finish, push_commit_spec ha hc hda hdc, bind, Except.bind, load, modify, rd_wr, ha,
      hc, hal, pure, Except.pure, wr_wr, bumped, hct, hda2, hdc2]

/-- Heap after line 78: only `top` of the current block changed. -/
theorem rd_after_align (align : Nat) {m : Machine} {arena : Nat} {a c : Arena}
    (ha : m.heap.rd arena = some a) (hc : m.heap.rd a.curr = some c) :
    (m.heap.wr a.curr (aligned c align)).rd arena =
        some (if arena = a.curr then aligned c align else a) ∧
    (m.heap.wr a.curr (aligned c align)).rd a.curr = some (aligned c align) := by
  constructor
  · by_cases hal : arena = a.curr
    · simp [rd_wr, hal, hc]
    · simp [rd_wr, hal, ha]
  · simp [rd_wr, hc]

theorem arena_push_unfold {pg : Nat} {m : Machine} {arena size align r : Nat} {a c : Arena}
    (ha : m.heap.rd arena = some a) (hc : m.heap.rd a.curr = some c)
    (hda : arena ∉ m.dark) (hdc : a.curr ∉ m.dark) :
    arena_push pg m arena size align r =
      if needed (aligned c align) size > c.capacity then
        if hasFlag a.flags ARENA_USE_CHAINING = false then
          .ok (NULL, { m with heap := m.heap.wr a.curr (aligned c align) })
        else
          (push_chain pg { m with heap := m.heap.wr a.curr (aligned c align) } arena size align r
              (needed (aligned c align) size)).bind
            (fun x => push_finish pg x.2 arena size x.1)
      else
        push_finish pg { m with heap := m.heap.wr a.curr (aligned c align) } arena size
          (needed (aligned c align) size) := by
  by_cases hal : arena = a.curr
  · subst hal
    have hac : a = c := by
      rw [ha] at hc; exact Option.some.inj hc
    subst hac
    simp only [arena_push, load, modify, ha, hda, bind, Except.bind, rd_wr, pure, Except.pure,
      if_true, if_false, Option.map_some']
    simp only [aligned]
    by_cases hn : a.capacity < needed { a with top := ALIGN a.top align } size
    · by_cases hch : hasFlag a.flags ARENA_USE_CHAINING = false
      · simp [hn, hch]
      · simp [hn, hch]
    · simp [hn]
  · simp only [arena_push, load, modify, ha, hc, hal, hda, hdc, bind, Except.bind, rd_wr, pure,
      Except.pure, if_true, if_false, Option.map_some']
    simp only [aligned]
    by_cases hn : c.capacity < needed { c with top := ALIGN c.top align } size
    · by_cases hch : hasFlag a.flags ARENA_USE_CHAINING = false
      · simp [hn, hch]
      · simp [hn, hch]
    · simp [hn]

theorem push_fail_spec {pg : Nat} {m : Machine} {arena size align r : Nat} {a c : Arena}
    (ha : m.heap.rd arena = some a) (hc : m.heap.rd a.curr = some c)
    (hda : arena ∉ m.dark) (hdc : a.curr ∉ m.dark)
    (hn : needed (aligned c align) size > c.capacity)
    (hch : hasFlag a.flags ARENA_USE_CHAINING = false) :
    arena_push pg m arena size align r =
      .ok (NULL, { m with heap := m.heap.wr a.curr (aligned c align) }) := by
  rw [arena_push_unfold ha hc hda hdc]
  simp [hn, hch]

theorem push_fit_spec {pg : Nat} {m : Machine} {arena size align r : Nat} {a c : Arena}
    (ha : m.heap.rd arena = some a) (hc : m.heap.rd a.curr = some c)
    (hda : arena ∉ m.dark) (hdc : a.curr ∉ m.dark)
    (hn : needed (aligned c align) size ≤ c.capacity) :
    arena_push pg m arena size align r =
      .ok (ALIGN c.top align,
        { heap := m.heap.wr a.curr
            (bumped (committedTo pg (aligned c align) (needed (aligned c align) size)) size),
          trace := m.trace ++ commitEvent (aligned c align) (needed (aligned c align) size),
          dark := commitDark pg { m with heap := m.heap.wr a.curr (aligned c align) }
            (aligned c align) (needed (aligned c align) size) }) := by
  obtain ⟨h1, h2⟩ := rd_after_align align ha hc
  have hcurr : (if arena = a.curr then aligned c align else a).curr = a.curr := by
    by_cases hal : arena = a.curr
    · have hac : a = c := by
        rw [← hal, ha] at hc; exact Option.some.inj hc
      subst hac
      simp [hal, aligned]
    · simp [hal]
  have hn2 : ¬ needed (aligned c align) size > c.capacity := by omega
  have h1' : ({ m with heap := m.heap.wr a.curr (aligned c align) } : Machine).heap.rd arena =
      some (if arena = a.curr then aligned c align else a) := h1
  have hfin := @push_finish_spec pg size { m with heap := m.heap.wr a.curr (aligned c align) }
    arena (needed (aligned c align) size) _ _ h1' (by rw [hcurr]; exact h2) hda
    (by rw [hcurr]; exact hdc)
  rw [hcurr] at hfin
  rw [arena_push_unfold ha hc hda hdc, if_neg hn2, hfin]
  simp [wr_wr, aligned]

theorem WF.update {m : Machine} {arena : Nat} {a : Arena} {chain free : List Nat}
    (hwf : WF m arena a chain free) (m1 : Machine) (p : Nat) (b1 : Arena) {b : Arena}
    (hp : p ∈ chain) (hb : m.heap.rd p = some b) (hs : sameLinks b b1)
    (hm1 : m1.heap = m.heap.wr p b1) :
    WF m1 arena (if p = arena then b1 else a) chain free := by
  obtain ⟨h1, h2, h3, h4, h5, h6⟩ := hs
  have hrd : ∀ q, m1.heap.rd q = if q = p then some b1 else m.heap.rd q := by
    intro q; rw [hm1, rd_wr, hb]; rfl
  have hpfree : p ∉ free := hwf.not_mem_free hp
  have hab : p = arena → b = a := by
    intro e
    rw [e, hwf.head] at hb
    exact (Option.some.inj hb).symm
  refine
    { head := ?_
      head_base_pos := ?_
      chain_ll := ?_
      chain_last := hwf.chain_last
      free_ll := ?_
      nodup := hwf.nodup
      keys_perm := ?_
      nochain := ?_
      nofree := ?_
      free_reset := ?_ }
  · rw [hrd]
    by_cases e : p = arena
    · simp [e]
    · simp [e, Ne.symm e, hwf.head]
  · by_cases e : p = arena
    · simp [e, h6, hab e, hwf.head_base_pos]
    · simp [e, hwf.head_base_pos]
  · have hcurr : (if p = arena then b1 else a).curr = a.curr := by
      by_cases e : p = arena
      · simp [e, h3, hab e]
      · simp [e]
    rw [hcurr]
    refine LL_congr _ _ ?_ hwf.chain_ll
    intro q _ bq hbq
    by_cases e : q = p
    · subst e
      rw [hb] at hbq
      exact ⟨b1, by rw [hrd]; simp, by rw [← Option.some.inj hbq, h1]⟩
    · exact ⟨bq, by rw [hrd]; simp [e, hbq], rfl⟩
  · have hfl : (if p = arena then b1 else a).free_list = a.free_list := by
      by_cases e : p = arena
      · simp [e, h4, hab e]
      · simp [e]
    rw [hfl]
    refine LL_frame ?_ hwf.free_ll
    intro q hq
    have : q ≠ p := fun e => hpfree (e ▸ hq)
    rw [hrd]; simp [this]
  · rw [hm1, keys_wr]; exact hwf.keys_perm
  · have hfl : (if p = arena then b1 else a).flags = a.flags := by
      by_cases e : p = arena
      · simp [e, h5, hab e]
      · simp [e]
    rw [hfl]; exact hwf.nochain
  · have hfl : (if p = arena then b1 else a).flags = a.flags := by
      by_cases e : p = arena
      · simp [e, h5, hab e]
      · simp [e]
    rw [hfl]; exact hwf.nofree
  · intro x hx bx hbx
    have : x ≠ p := fun e => hpfree (e ▸ hx)
    rw [hrd] at hbx
    simp [this] at hbx
    exact hwf.free_reset x hx bx hbx

theorem WF.curr_eq_of_nochain {m : Machine} {arena : Nat} {a : Arena} {chain free : List Nat}
    (hwf : WF m arena a chain free)
    (hch : hasFlag a.flags ARENA_USE_CHAINING = false) :
    a.curr = arena ∧ chain = [arena] ∧ free = [] := by
  obtain ⟨hc, hf⟩ := hwf.nochain hch
  obtain ⟨rest, c, hchain, _, _, _⟩ := hwf.chain_cons
  rw [hc] at hchain
  simp at hchain
  exact ⟨hchain.1.symm, hc, hf⟩

theorem pop_to_nochain_spec (pg : Nat) {m : Machine} {arena pos : Nat} {a : Arena}
    {chain free : List Nat}
    (hwf : WF m arena a chain free) (hda : arena ∉ m.dark)
    (hch : hasFlag a.flags ARENA_USE_CHAINING = false)
    (hp : pos ≤ u64add a.base_pos a.pos) :
    arena_pop_to pg m arena pos =
      .ok { m with heap := m.heap.wr arena { a with pos := pos, top := u64add a.base pos } } ∧
    WF { m with heap := m.heap.wr arena { a with pos := pos, top := u64add a.base pos } }
      arena { a with pos := pos, top := u64add a.base pos } chain free := by
  obtain ⟨hcurr, hchain, hfree⟩ := hwf.curr_eq_of_nochain hch
  have ha := hwf.head
  have hc : m.heap.rd a.curr = some a := by rw [hcurr]; exact ha
  have hdc : a.curr ∉ m.dark := by rw [hcurr]; exact hda
  have hp2 : ¬ pos > u64add a.base_pos a.pos := by omega
  constructor
  · simp [arena_pop_to, load_ok ha hda, load_ok hc hdc, bind, Except.bind, hp2, hch, modify, ha,
      hda, rd_wr, wr_wr]
  · have := hwf.update
      { m with heap := m.heap.wr arena { a with pos := pos, top := u64add a.base pos } }
      arena { a with pos := pos, top := u64add a.base pos }
      hwf.arena_mem ha ⟨rfl, rfl, rfl, rfl, rfl, rfl⟩ rfl
    simpa using this

theorem pop_to_reject_spec {pg : Nat} {m : Machine} {arena pos : Nat} {a c : Arena}
    (ha : m.heap.rd arena = some a) (hc : m.heap.rd a.curr = some c)
    (hda : arena ∉ m.dark) (hdc : a.curr ∉ m.dark)
    (hp : pos > u64add c.base_pos c.pos) :
    arena_pop_to pg m arena pos = .ok m := by
  simp [arena_pop_to, load_ok ha hda, load_ok hc hdc, bind, Except.bind, hp, pure, Except.pure]

theorem find_fit_miss (arena n : Nat) :
    ∀ (l : List Nat) (fuel : Nat) (m : Machine) (curr prev : Nat),
      LL Arena.next m.heap curr l →
      (∀ y ∈ l, ∀ b, m.heap.rd y = some b → b.capacity < n) →
      l.length < fuel →
      find_fit fuel m arena n curr prev =
        if ∀ y ∈ l, y ∉ m.dark then .ok (NULL, m) else .error .fault
  | _, 0, _, _, _, _, _, hfuel => by simp at hfuel
  | [], fuel + 1, m, curr, prev, hll, _, _ => by
    have : curr = NULL := hll
    simp [find_fit, this]
  | y :: l, fuel + 1, m, curr, prev, hll, hno, hfuel => by
    obtain ⟨hc, hy0, b, hb, hrest⟩ := hll
    subst hc
    have hcap : ¬ b.capacity ≥ n := by
      have := hno curr (List.mem_cons_self _ _) b hb
      omega
    have ih := find_fit_miss arena n l fuel m b.next curr hrest
      (fun z hz => hno z (List.mem_cons_of_mem _ hz)) (by simpa using hfuel)
    by_cases hd : curr ∈ m.dark
    · simp [find_fit, hy0, load_dark hd, bind, Except.bind, hd]
    · simp [find_fit, hy0, load_ok hb hd, bind, Except.bind, hcap, ih, hd]

theorem find_fit_hit (arena n x : Nat) (bx : Arena) (l2 : List Nat) :
    ∀ (l1 : List Nat) (fuel : Nat) (m : Machine) (curr prev : Nat),
      LL Arena.next m.heap curr (l1 ++ x :: l2) →
      (∀ y ∈ l1, ∀ b, m.heap.rd y = some b → b.capacity < n) →
      m.heap.rd x = some bx → n ≤ bx.capacity →
      l1.length < fuel →
      find_fit fuel m arena n curr prev =
        if (∀ y ∈ l1, y ∉ m.dark) ∧ x ∉ m.dark then
          if (l1.getLast?.getD prev) ≠ NULL then
            (modify m (l1.getLast?.getD prev) (fun b => { b with next := bx.next })).map
              (fun m1 => (x, m1))
          else
            (modify m arena (fun b => { b with free_list := bx.next })).map (fun m1 => (x, m1))
        else .error .fault
  | _, 0, _, _, _, _, _, _, _, hfuel => by simp at hfuel
  | [], fuel + 1, m, curr, prev, hll, _, hx, hcap, _ => by
    obtain ⟨hc, hx0, b, hb, _⟩ := hll
    subst hc
    rw [hx] at hb
    have hbb : bx = b := Option.some.inj hb
    subst hbb
    by_cases hd : curr ∈ m.dark
    · simp [find_fit, hx0, load_dark hd, bind, Except.bind, hd]
    by_cases hp : prev = NULL
    · simp [find_fit, hx0, load_ok hx hd, bind, Except.bind, hcap, hp, pure, Except.pure,
        Except.map, hd]
    · simp [find_fit, hx0, load_ok hx hd, bind, Except.bind, hcap, hp, pure, Except.pure,
        Except.map, hd]
  | y :: l, fuel + 1, m, curr, prev, hll, hno, hx, hcap, hfuel => by
    obtain ⟨hc, hy0, b, hb, hrest⟩ := hll
    subst hc
    have hcapy : ¬ b.capacity ≥ n := by
      have := hno curr (List.mem_cons_self _ _) b hb
      omega
    have ih := find_fit_hit arena n x bx l2
      l fuel m b.next curr hrest
      (fun z hz => hno z (List.mem_cons_of_mem _ hz)) hx hcap (by simpa using hfuel)
    have hlast : (curr :: l).getLast?.getD prev = l.getLast?.getD curr := by
      cases l with
      | nil => simp
      | cons z l' =>
        rw [List.getLast?_cons_cons]
        cases h : (z :: l').getLast? with
        | none => simp at h
        | some w => rfl
    rw [hlast]
    by_cases hd : curr ∈ m.dark
    · simp [find_fit, hy0, load_dark hd, bind, Except.bind, hd]
    · simp only [find_fit, hy0, if_false, load_ok hb hd, bind, Except.bind, hcapy]
      rw [ih]
      simp [hd]

theorem push_link_spec (size align : Nat) {m : Machine} {arena nb : Nat} {a c nb0 : Arena}
    (ha : m.heap.rd arena = some a) (hc : m.heap.rd a.curr = some c)
    (hnb : m.heap.rd nb = some nb0) (hna : nb ≠ arena) (hnc : nb ≠ a.curr)
    (hda : arena ∉ m.dark) (hdc : a.curr ∉ m.dark) (hdn : nb ∉ m.dark) :
    ∃ m2, push_link m arena size align nb =
        .ok (needed (linked nb0 a.curr c align) size, m2) ∧
      m2.trace = m.trace ∧ m2.heap.keys = m.heap.keys ∧ m2.dark = m.dark ∧
      ∀ q, m2.heap.rd q =
        if q = nb then some (linked nb0 a.curr c align)
        else if q = arena then
          some { (if arena = a.curr then { c with next := nb } else a) with curr := nb }
        else if q = a.curr then some { c with next := nb }
        else m.heap.rd q := by
  have han : arena ≠ nb := fun e => hna e.symm
  have hcn : a.curr ≠ nb := fun e => hnc e.symm
  by_cases hal : arena = a.curr
  · have hac : a = c := by
      rw [← hal, ha] at hc; exact Option.some.inj hc
    subst hac
    have hal2 : a.curr = arena := hal.symm
    simp [push_link, load, modify, ha, hnb, bind, Except.bind, rd_wr, hal2, hna, han,
      pure, Except.pure, keys_wr, linked, hda, hdn]
    intro q
    by_cases h1 : q = nb
    · simp [h1]
    · by_cases h2 : q = arena
      · simp [h2, han]
      · simp [h1, h2]
  · have hal2 : ¬ a.curr = arena := fun e => hal e.symm
    simp [push_link, load, modify, ha, hc, hnb, bind, Except.bind, rd_wr, hal, hal2, hna, han,
      hnc, hcn, pure, Except.pure, keys_wr, linked, hda, hdc, hdn]
    intro q
    by_cases h1 : q = nb
    · simp [h1]
    · by_cases h2 : q = arena
      · simp [h2, han, hal]
      · by_cases h3 : q = a.curr
        · simp [h3, hcn, hal2]
        · simp [h1, h2, h3]

theorem LL_unlink {h : Heap} {pr x : Nat} {bp bx : Arena} {l2 : List Nat}
    (hbp : h.rd pr = some bp) (hbx : h.rd x = some bx) :
    ∀ (l1 : List Nat) (p : Nat),
      LL Arena.next h p (l1 ++ pr :: x :: l2) → (l1 ++ pr :: x :: l2).Nodup →
      LL Arena.next (h.wr pr { bp with next := bx.next }) p (l1 ++ pr :: l2)
  | [], p, hll, hnd => by
    obtain ⟨hp, hp0, b, hb, hrest⟩ := hll
    rw [hbp] at hb
    have hbb : bp = b := Option.some.inj hb
    subst hbb
    obtain ⟨hx, hx0, b2, hb2, hrest2⟩ := hrest
    rw [hbx] at hb2
    have hbb2 : bx = b2 := Option.some.inj hb2
    subst hbb2
    refine ⟨hp, hp0, { bp with next := bx.next }, by simp [rd_wr, hbp], ?_⟩
    refine LL_frame ?_ hrest2
    intro q hq
    have : q ≠ pr := by
      intro e
      simp [List.nodup_cons] at hnd
      exact hnd.1.2 (e ▸ hq)
    simp [rd_wr, this]
  | z :: l1, p, hll, hnd => by
    obtain ⟨hp, hz0, b, hb, hrest⟩ := hll
    have hzp : z ≠ pr := by
      intro e
      simp [List.nodup_cons] at hnd
      exact hnd.1.2.1 e
    have hnd2 : (l1 ++ pr :: x :: l2).Nodup := by
      simp only [List.cons_append, List.nodup_cons] at hnd
      exact hnd.2
    exact ⟨hp, hz0, b, by simp [rd_wr, hzp, hb], LL_unlink hbp hbx l1 _ hrest hnd2⟩

theorem LL_split {nxt : Arena → Nat} {h : Heap} {x : Nat} {l2 : List Nat} :
    ∀ (l1 : List Nat) (p : Nat), LL nxt h p (l1 ++ x :: l2) →
      ∃ bx, h.rd x = some bx ∧ LL nxt h (nxt bx) l2
  | [], p, hl => by
    obtain ⟨_, _, b, hb, hr⟩ := hl
    exact ⟨b, hb, hr⟩
  | z :: l, p, hl => by
    obtain ⟨_, _, bz, _, hr⟩ := hl
    exact LL_split l _ hr

theorem push_new_block_hit (pg r : Nat) {m : Machine} {arena n x : Nat} {a bx : Arena}
    {chain free l1 l2 : List Nat}
    (hwf : WF m arena a chain free) (hda : arena ∉ m.dark)
    (hfl : hasFlag a.flags ARENA_USE_FREE_LIST = true)
    (hfree : free = l1 ++ x :: l2)
    (hno : ∀ y ∈ l1, ∀ b, m.heap.rd y = some b → b.capacity < n)
    (hx : m.heap.rd x = some bx) (hcap : n ≤ bx.capacity) :
    (¬ ((∀ y ∈ l1, y ∉ m.dark) ∧ x ∉ m.dark) →
      push_new_block pg m arena r n = .error .fault) ∧
    ((∀ y ∈ l1, y ∉ m.dark) ∧ x ∉ m.dark →
    ∃ m1 fl, push_new_block pg m arena r n = .ok (x, m1) ∧
      m1.trace = m.trace ∧ m1.heap.keys = m.heap.keys ∧ m1.dark = m.dark ∧
      m1.heap.rd arena = some { a with free_list := fl } ∧
      LL Arena.next m1.heap fl (l1 ++ l2) ∧
      (∀ q, q ∉ l1 → q ≠ arena → m1.heap.rd q = m.heap.rd q) ∧
      (∀ q ∈ l1, ∃ b nx, m.heap.rd q = some b ∧ m1.heap.rd q = some { b with next := nx })) := by
  have ha := hwf.head
  have hll := hwf.free_ll
  rw [hfree] at hll
  have hnd : (l1 ++ x :: l2).Nodup := by
    have := hwf.nodup
    rw [hfree] at this
    exact (List.nodup_append.1 this).2.1
  have hx0 : x ≠ NULL := (LL_mapped _ _ hll x (by simp)).1
  have hafree : arena ∉ free := hwf.not_mem_free hwf.arena_mem
  have hlen : l1.length < m.heap.length + 1 := by
    have := hwf.keys_perm.length_eq
    simp [Heap.keys, hfree] at this
    omega
  have hfit := find_fit_hit arena n x bx l2 l1
    (m.heap.length + 1) m a.free_list NULL hll hno hx hcap hlen
  obtain ⟨bx2, hbx2, hrest2⟩ := LL_split l1 _ hll
  rw [hx] at hbx2
  have hbb : bx = bx2 := Option.some.inj hbx2
  subst hbb
  constructor
  · intro hg
    rw [if_neg hg] at hfit
    simp [push_new_block, load_ok ha hda, bind, Except.bind, hfl, hfit]
  intro hg
  rw [if_pos hg] at hfit
  rcases List.eq_nil_or_concat l1 with hnil | ⟨l0, pr, hl1⟩
  · -- the first block of the free list fits
    subst hnil
    simp only [List.getLast?_nil, Option.getD_none, ne_eq, not_true_eq_false, if_false,
      modify_ok _ ha hda, Except.map] at hfit
    refine ⟨{ m with heap := m.heap.wr arena { a with free_list := bx.next } }, bx.next,
      ?_, rfl, ?_, rfl, ?_, ?_, ?_, ?_⟩
    · simp [push_new_block, load_ok ha hda, bind, Except.bind, hfl, hfit, hx0, pure, Except.pure]
    · simp [keys_wr]
    · simp [rd_wr, ha]
    · refine LL_frame ?_ (by simpa using hrest2)
      intro q hq
      have : q ≠ arena := by
        intro e
        apply hafree
        rw [hfree, ← e]
        simp at hq ⊢
        exact Or.inr hq
      simp [rd_wr, this]
    · intro q _ hqa
      simp [rd_wr, hqa]
    · intro q hq; cases hq
  · -- a later block fits; its predecessor `pr` is relinked
    rw [List.concat_eq_append] at hl1
    subst hl1
    have hpr_mem : pr ∈ l0 ++ [pr] ++ x :: l2 := by simp
    obtain ⟨hpr0, bp, hbp⟩ := LL_mapped _ _ hll pr hpr_mem
    have hlast : (l0 ++ [pr]).getLast?.getD NULL = pr := by simp
    rw [hlast] at hfit
    have hdpr : pr ∉ m.dark := hg.1 pr (by simp)
    simp only [ne_eq, hpr0, not_false_eq_true, if_true, modify_ok _ hbp hdpr, Except.map] at hfit
    have hpra : pr ≠ arena := by
      intro e
      apply hafree
      rw [hfree, ← e]
      simp
    have hll2 : LL Arena.next m.heap a.free_list (l0 ++ pr :: x :: l2) := by
      simpa [List.append_assoc] using hll
    have hnd2 : (l0 ++ pr :: x :: l2).Nodup := by
      simpa [List.append_assoc] using hnd
    refine ⟨{ m with heap := m.heap.wr pr { bp with next := bx.next } }, a.free_list,
      ?_, rfl, ?_, rfl, ?_, ?_, ?_, ?_⟩
    · simp [push_new_block, load_ok ha hda, bind, Except.bind, hfl, hfit, hx0, pure, Except.pure]
    · simp [keys_wr]
    · simp [rd_wr, Ne.symm hpra, ha]
    · have := LL_unlink hbp hx l0 _ hll2 hnd2
      simpa [List.append_assoc] using this
    · intro q hq hqa
      have : q ≠ pr := by
        intro e
        apply hq
        rw [e]; simp
      simp [rd_wr, this]
    · intro q hq
      by_cases e : q = pr
      · subst e
        exact ⟨bp, bx.next, hbp, by simp [rd_wr, hbp]⟩
      · obtain ⟨_, b, hb⟩ := LL_mapped _ _ hll q (by simp at hq ⊢; tauto)
        refine ⟨b, b.next, hb, ?_⟩
        simp [rd_wr, e, hb]

theorem push_new_block_miss (pg r : Nat) {m : Machine} {arena n : Nat} {a : Arena}
    {chain free : List Nat}
    (hwf : WF m arena a chain free) (hda : arena ∉ m.dark)
    (hmiss : ∀ y ∈ free, ∀ b, m.heap.rd y = some b → b.capacity < n) :
    push_new_block pg m arena r n =
      if ∀ y ∈ free, y ∉ m.dark then
        _arena_alloc pg m n n (ARENA_USE_CHAINING ||| ARENA_USE_FREE_LIST) r
      else .error .fault := by
  have ha := hwf.head
  by_cases hfl : hasFlag a.flags ARENA_USE_FREE_LIST = true
  · have hlen : free.length < m.heap.length + 1 := by
      have := hwf.keys_perm.length_eq
      simp [Heap.keys] at this
      omega
    have := find_fit_miss arena n free (m.heap.length + 1) m a.free_list NULL
      hwf.free_ll hmiss hlen
    by_cases hg : ∀ y ∈ free, y ∉ m.dark
    · rw [if_pos hg] at this
      rw [if_pos hg]
      simp [push_new_block, load_ok ha hda, bind, Except.bind, hfl, this, pure, Except.pure]
    · rw [if_neg hg] at this
      rw [if_neg hg]
      simp [push_new_block, load_ok ha hda, bind, Except.bind, hfl, this, pure, Except.pure]
  · have hfree : free = [] := hwf.nofree (by simpa using hfl)
    subst hfree
    simp [push_new_block, load_ok ha hda, bind, Except.bind, hfl, pure, Except.pure]

theorem WF.null_unmapped {m : Machine} {arena : Nat} {a : Arena} {chain free : List Nat}
    (hwf : WF m arena a chain free) : m.heap.rd NULL = none := by
  rw [rd_eq_none_iff]
  intro hmem
  have h2 := hwf.keys_perm.mem_iff.1 hmem
  rcases List.mem_append.1 h2 with h | h
  · exact (LL_mapped _ _ hwf.chain_ll _ h).1 rfl
  · exact (LL_mapped _ _ hwf.free_ll _ h).1 rfl

theorem WF_link (align : Nat) (nb0 : Arena) {m m2 : Machine} {arena nb : Nat} {a c : Arena}
    {chain free : List Nat}
    (ha : m.heap.rd arena = some a) (hbp : a.base_pos = 0)
    (hcl : LL Arena.prev m.heap a.curr chain) (hlast : chain.getLast? = some arena)
    (hfl : LL Arena.next m.heap a.free_list free)
    (hnd : (nb :: (chain ++ free)).Nodup)
    (hkeys : m.heap.keys.Perm (nb :: (chain ++ free)))
    (hch : hasFlag a.flags ARENA_USE_CHAINING = true)
    (hnofree : hasFlag a.flags ARENA_USE_FREE_LIST = false → free = [])
    (hreset : ∀ x ∈ free, ∀ b, m.heap.rd x = some b → b.pos = 0 ∧ b.top = b.base)
    (hc : m.heap.rd a.curr = some c) (hnb0 : nb ≠ NULL)
    (hk2 : m2.heap.keys = m.heap.keys)
    (hrd : ∀ q, m2.heap.rd q =
        if q = nb then some (linked nb0 a.curr c align)
        else if q = arena then
          some { (if arena = a.curr then { c with next := nb } else a) with curr := nb }
        else if q = a.curr then some { c with next := nb }
        else m.heap.rd q) :
    WF m2 arena { (if arena = a.curr then { c with next := nb } else a) with curr := nb }
      (nb :: chain) free := by
  have hnbc : nb ∉ chain ∧ nb ∉ free ∧ (chain ++ free).Nodup := by
    simp [List.nodup_cons] at hnd
    tauto
  have harena : arena ∈ chain := mem_of_getLast? hlast
  have hna : arena ≠ nb := fun e => hnbc.1 (e ▸ harena)
  have hcurr_mem : a.curr ∈ chain := by
    cases chain with
    | nil => simp at hlast
    | cons z l => rw [hcl.1]; simp
  have hcn : a.curr ≠ nb := fun e => hnbc.1 (e ▸ hcurr_mem)
  have hab : arena = a.curr → c = a := by
    intro e
    rw [← e, ha] at hc
    exact (Option.some.inj hc).symm
  have hdisj : ∀ q ∈ chain, q ∉ free := by
    intro q hq hq2
    exact (List.nodup_append.1 hnbc.2.2).2.2 hq hq2
  refine
    { head := ?_
      head_base_pos := ?_
      chain_ll := ?_
      chain_last := ?_
      free_ll := ?_
      nodup := ?_
      keys_perm := ?_
      nochain := ?_
      nofree := ?_
      free_reset := ?_ }
  · rw [hrd]; simp [hna]
  · by_cases e : arena = a.curr
    · simp [e, hab e, hbp]
    · simp [e, hbp]
  · refine ⟨rfl, hnb0, linked nb0 a.curr c align, by rw [hrd]; simp, ?_⟩
    show LL Arena.prev m2.heap a.curr chain
    refine LL_congr _ _ ?_ hcl
    intro q hq bq hbq
    have hqn : q ≠ nb := fun e => hnbc.1 (e ▸ hq)
    by_cases hqa : q = arena
    · subst hqa
      rw [ha] at hbq
      refine ⟨{ (if q = a.curr then { c with next := nb } else a) with curr := nb },
        by rw [hrd]; simp [hqn], ?_⟩
      rw [← Option.some.inj hbq]
      by_cases e : q = a.curr
      · simp [e, hab e]
      · simp [e]
    · by_cases hqc : q = a.curr
      · have hbq2 := hbq
        rw [hqc, hc] at hbq2
        have hbq := hbq2
        have hca : a.curr ≠ arena := fun e => hqa (hqc.trans e)
        refine ⟨{ c with next := nb }, by rw [hrd, hqc]; simp [hcn, hca], ?_⟩
        rw [← Option.some.inj hbq]
      · exact ⟨bq, by rw [hrd]; simp [hqn, hqa, hqc, hbq], rfl⟩
  · cases chain with
    | nil => simp at hlast
    | cons z l => simpa [List.getLast?_cons_cons] using hlast
  · have hfl2 : ({ (if arena = a.curr then { c with next := nb } else a) with
        curr := nb } : Arena).free_list = a.free_list := by
      by_cases e : arena = a.curr
      · simp [e, hab e]
      · simp [e]
    rw [hfl2]
    refine LL_frame ?_ hfl
    intro q hq
    have h1 : q ≠ nb := fun e => hnbc.2.1 (e ▸ hq)
    have h2 : q ≠ arena := fun e => hdisj arena harena (e ▸ hq)
    have h3 : q ≠ a.curr := fun e => hdisj _ hcurr_mem (e ▸ hq)
    rw [hrd]; simp [h1, h2, h3]
  · simpa using hnd
  · rw [hk2]; simpa using hkeys
  · intro h
    have hfl2 : ({ (if arena = a.curr then { c with next := nb } else a) with
        curr := nb } : Arena).flags = a.flags := by
      by_cases e : arena = a.curr
      · simp [e, hab e]
      · simp [e]
    rw [hfl2, hch] at h
    exact absurd h (by simp)
  · intro h
    have hfl2 : ({ (if arena = a.curr then { c with next := nb } else a) with
        curr := nb } : Arena).flags = a.flags := by
      by_cases e : arena = a.curr
      · simp [e, hab e]
      · simp [e]
    rw [hfl2] at h
    exact hnofree h
  · intro x hx bx hbx
    have h1 : x ≠ nb := fun e => hnbc.2.1 (e ▸ hx)
    have h2 : x ≠ arena := fun e => hdisj arena harena (e ▸ hx)
    have h3 : x ≠ a.curr := fun e => hdisj _ hcurr_mem (e ▸ hx)
    rw [hrd] at hbx
    simp [h1, h2, h3] at hbx
    exact hreset x hx bx hbx

theorem committedTo_sameLinks (pg : Nat) (c : Arena) (n : Nat) :
    sameLinks c (committedTo pg c n) := by
  unfold committedTo
  split <;> exact ⟨rfl, rfl, rfl, rfl, rfl, rfl⟩

theorem bumped_sameLinks (c : Arena) (size : Nat) : sameLinks c (bumped c size) :=
  ⟨rfl, rfl, rfl, rfl, rfl, rfl⟩

theorem aligned_sameLinks (c : Arena) (align : Nat) : sameLinks c (aligned c align) :=
  ⟨rfl, rfl, rfl, rfl, rfl, rfl⟩

theorem sameLinks_trans {a b c : Arena} (h1 : sameLinks a b) (h2 : sameLinks b c) :
    sameLinks a c :=
  ⟨h2.1.trans h1.1, h2.2.1.trans h1.2.1, h2.2.2.1.trans h1.2.2.1,
    h2.2.2.2.1.trans h1.2.2.2.1, h2.2.2.2.2.1.trans h1.2.2.2.2.1,
    h2.2.2.2.2.2.trans h1.2.2.2.2.2⟩

theorem link_finish_spec (pg size align nb : Nat) (nb0 : Arena) (chain free : List Nat)
    {m : Machine} {arena : Nat} {a c : Arena}
    (ha : m.heap.rd arena = some a) (hbp : a.base_pos = 0)
    (hcl : LL Arena.prev m.heap a.curr chain) (hlast : chain.getLast? = some arena)
    (hfl : LL Arena.next m.heap a.free_list free)
    (hnd : (nb :: (chain ++ free)).Nodup)
    (hkeys : m.heap.keys.Perm (nb :: (chain ++ free)))
    (hch : hasFlag a.flags ARENA_USE_CHAINING = true)
    (hnofree : hasFlag a.flags ARENA_USE_FREE_LIST = false → free = [])
    (hreset : ∀ x ∈ free, ∀ b, m.heap.rd x = some b → b.pos = 0 ∧ b.top = b.base)
    (hc : m.heap.rd a.curr = some c) (hnb0 : nb ≠ NULL)
    (hnb : m.heap.rd nb = some nb0)
    (hda : arena ∉ m.dark) (hdc : a.curr ∉ m.dark) (hdn : nb ∉ m.dark) :
    ∃ m3, (push_link m arena size align nb).bind
          (fun x => push_finish pg x.2 arena size x.1) =
        .ok (ALIGN nb0.top align, m3) ∧
      (∀ q, q ∉ m.dark → q ∉ m3.dark) ∧
      m3.trace = m.trace ++ commitEvent (linked nb0 a.curr c align)
        (needed (linked nb0 a.curr c align) size) ∧
      m3.heap.keys = m.heap.keys ∧
      (∀ q, m3.heap.rd q =
        if q = nb then some (chainedHdr pg nb0 a.curr c size align)
        else if q = arena then some (headAfterLink arena a c nb)
        else if q = a.curr then some { c with next := nb }
        else m.heap.rd q) ∧
      WF m3 arena (headAfterLink arena a c nb) (nb :: chain) free := by
  have hnbc : nb ∉ chain := by
    simp [List.nodup_cons] at hnd
    tauto
  have harena : arena ∈ chain := mem_of_getLast? hlast
  have hna : nb ≠ arena := fun e => hnbc (e ▸ harena)
  have hcurr_mem : a.curr ∈ chain := by
    cases chain with
    | nil => simp at hlast
    | cons z l => rw [hcl.1]; simp
  have hnc : nb ≠ a.curr := fun e => hnbc (e ▸ hcurr_mem)
  obtain ⟨m2, hlink, htr2, hk2, hdk2, hrd2⟩ :=
    push_link_spec size align ha hc hnb hna hnc hda hdc hdn
  have hwf2 := WF_link align nb0 ha hbp hcl hlast hfl hnd hkeys hch hnofree
    hreset hc hnb0 hk2 hrd2
  have ha2 : m2.heap.rd arena = some (headAfterLink arena a c nb) := hwf2.head
  have hcurr2 : (headAfterLink arena a c nb).curr = nb := rfl
  have hnb2 : m2.heap.rd (headAfterLink arena a c nb).curr =
      some (linked nb0 a.curr c align) := by
    rw [hcurr2, hrd2]; simp
  have hfin := @push_finish_spec pg size m2 arena (needed (linked nb0 a.curr c align) size) _ _
    ha2 hnb2 (by rw [hdk2]; exact hda) (by rw [hcurr2, hdk2]; exact hdn)
  rw [hcurr2] at hfin
  refine ⟨{ heap := m2.heap.wr nb (chainedHdr pg nb0 a.curr c size align),
            trace := m2.trace ++ commitEvent (linked nb0 a.curr c align)
              (needed (linked nb0 a.curr c align) size),
            dark := commitDark pg m2 (linked nb0 a.curr c align)
              (needed (linked nb0 a.curr c align) size) }, ?_, ?_, ?_, ?_, ?_, ?_⟩
  · rw [hlink]
    simp only [Except.bind]
    rw [hfin]
    rfl
  · intro q hq
    exact not_mem_commitDark (by rw [hdk2]; exact hq)
  · simp [htr2]
  · simp [keys_wr, hk2]
  · intro q
    simp only [rd_wr]
    by_cases h1 : q = nb
    · simp [h1, hrd2, chainedHdr]
    · simp only [h1, if_false]
      rw [hrd2]; simp [h1, headAfterLink]
  · have hmem : nb ∈ nb :: chain := List.mem_cons_self _ _
    have := hwf2.update
      { heap := m2.heap.wr nb (chainedHdr pg nb0 a.curr c size align),
        trace := m2.trace ++ commitEvent (linked nb0 a.curr c align)
          (needed (linked nb0 a.curr c align) size),
        dark := commitDark pg m2 (linked nb0 a.curr c align)
          (needed (linked nb0 a.curr c align) size) }
      nb (chainedHdr pg nb0 a.curr c size align)
      hmem (by rw [hrd2]; simp)
      (sameLinks_trans (committedTo_sameLinks pg _ _) (bumped_sameLinks _ _)) rfl
    simpa [hna] using this

theorem reserve_heap {m : Machine} {size r : Nat} {hdr : Arena} (hr : r ≠ MAP_FAILED) :
    (reserve m size r hdr).heap = (r, hdr) :: m.heap := by
  simp [reserve, emit, hr]

theorem reserve_trace (m : Machine) (size r : Nat) (hdr : Arena) :
    (reserve m size r hdr).trace = m.trace ++ [Event.reserve size r] := by
  unfold reserve
  by_cases hr : r = MAP_FAILED
  · simp [hr, emit]
  · simp [hr, emit]

theorem reserve_dark {m : Machine} {size r : Nat} {hdr : Arena} (hr : r ≠ MAP_FAILED) :
    (reserve m size r hdr).dark = r :: m.dark := by
  simp [reserve, emit, hr]

theorem arena_alloc_ok {pg : Nat} {m : Machine} {reserve_size commit_size flags r : Nat}
    (hr : r ≠ MAP_FAILED) :
    _arena_alloc pg m reserve_size commit_size flags r =
      if r ∈ (allocated pg m reserve_size commit_size flags r).dark then .error .fault
      else .ok (r, allocated pg m reserve_size commit_size flags r) := by
  simp [_arena_alloc, allocated, hr]

theorem allocated_heap {pg : Nat} {m : Machine} {reserve_size commit_size flags r : Nat}
    (hr : r ≠ MAP_FAILED) :
    (allocated pg m reserve_size commit_size flags r).heap =
      (r, blockHdr pg reserve_size commit_size flags r) :: m.heap := by
  simp [allocated, reserve_heap hr]

theorem allocated_trace (pg : Nat) (m : Machine) (reserve_size commit_size flags r : Nat) :
    (allocated pg m reserve_size commit_size flags r).trace =
      m.trace ++ [Event.reserve (ALIGN reserve_size pg) r,
                  Event.commit r (ALIGN commit_size pg)] := by
  simp [allocated, reserve_trace]

theorem allocated_dark {pg : Nat} {m : Machine} {reserve_size commit_size flags r q : Nat}
    (hr : r ≠ MAP_FAILED)
    (h : q ∈ (allocated pg m reserve_size commit_size flags r).dark) : q = r ∨ q ∈ m.dark := by
  have := commit_dark h
  rw [reserve_dark hr] at this
  simpa using this

theorem arena_alloc_failed {pg : Nat} {m : Machine} {reserve_size commit_size flags : Nat} :
    _arena_alloc pg m reserve_size commit_size flags MAP_FAILED =
      .ok (NULL,
        { m with trace := m.trace ++ [Event.reserve (ALIGN reserve_size pg) MAP_FAILED] }) := by
  simp [_arena_alloc, reserve, emit]

theorem linked_congr (nb0 : Arena) (p align : Nat) {c c1 : Arena}
    (h1 : c1.base_pos = c.base_pos) (h2 : c1.pos = c.pos) :
    linked nb0 p c1 align = linked nb0 p c align := by
  simp [linked, h1, h2]

theorem chainedHdr_congr (pg : Nat) (nb0 : Arena) (p size align : Nat) {c c1 : Arena}
    (h1 : c1.base_pos = c.base_pos) (h2 : c1.pos = c.pos) :
    chainedHdr pg nb0 p c1 size align = chainedHdr pg nb0 p c size align := by
  simp [chainedHdr, linked_congr nb0 p align h1 h2]

/-- State after line 78 in a well-formed arena. -/
theorem WF.after_align {m : Machine} {arena : Nat} {a c : Arena} {chain free : List Nat}
    (hwf : WF m arena a chain free) (hc : m.heap.rd a.curr = some c) (align : Nat) :
    WF { m with heap := m.heap.wr a.curr (aligned c align) } arena
        (headAfterAlign arena a c align) chain free ∧
      (headAfterAlign arena a c align).curr = a.curr ∧
      (headAfterAlign arena a c align).flags = a.flags ∧
      (headAfterAlign arena a c align).free_list = a.free_list ∧
      ({ m with heap := m.heap.wr a.curr (aligned c align) } : Machine).heap.rd a.curr =
        some (aligned c align) ∧
      (∀ q, q ≠ a.curr →
        ({ m with heap := m.heap.wr a.curr (aligned c align) } : Machine).heap.rd q =
          m.heap.rd q) := by
  obtain ⟨rest, c0, hchain, hc0, _, _⟩ := hwf.chain_cons
  have hmem : a.curr ∈ chain := by rw [hchain]; simp
  have hw := hwf.update
    { m with heap := m.heap.wr a.curr (aligned c align) } a.curr (aligned c align) hmem hc
    (aligned_sameLinks c align) rfl
  have hab : a.curr = arena → c = a := by
    intro e
    rw [e, hwf.head] at hc
    exact (Option.some.inj hc).symm
  refine ⟨hw, ?_, ?_, ?_, ?_, ?_⟩
  · unfold headAfterAlign
    by_cases e : a.curr = arena
    · simp [e, aligned, hab e]
    · simp [e]
  · unfold headAfterAlign
    by_cases e : a.curr = arena
    · simp [e, aligned, hab e]
    · simp [e]
  · unfold headAfterAlign
    by_cases e : a.curr = arena
    · simp [e, aligned, hab e]
    · simp [e]
  · simp [rd_wr, hc]
  · intro q hq
    simp [rd_wr, hq]

theorem sameGeom_refl (b : Arena) : sameGeom b b := ⟨rfl, rfl, rfl, rfl, rfl, rfl, rfl⟩

theorem arena_push_chain_unfold {pg : Nat} {m : Machine} {arena size align r : Nat}
    {a c : Arena}
    (ha : m.heap.rd arena = some a) (hc : m.heap.rd a.curr = some c)
    (hda : arena ∉ m.dark) (hdc : a.curr ∉ m.dark)
    (hn : needed (aligned c align) size > c.capacity)
    (hch : hasFlag a.flags ARENA_USE_CHAINING = true) :
    arena_push pg m arena size align r =
      (push_new_block pg { m with heap := m.heap.wr a.curr (aligned c align) } arena r
          (needed (aligned c align) size)).bind
        (fun y => (push_link y.2 arena size align y.1).bind
          (fun x => push_finish pg x.2 arena size x.1)) := by
  rw [arena_push_unfold ha hc hda hdc]
  simp only [hn, if_true, hch, Bool.true_eq_false, if_false, push_chain, bind]
  cases push_new_block pg { m with heap := m.heap.wr a.curr (aligned c align) } arena r
      (needed (aligned c align) size) with
  | error e => rfl
  | ok y => rfl

theorem push_hit_spec (pg size align r : Nat) {m : Machine} {arena x : Nat}
    {a c bx : Arena} {chain free l1 l2 : List Nat}
    (hwf : WF m arena a chain free) (hc : m.heap.rd a.curr = some c)
    (hda : arena ∉ m.dark) (hdc : a.curr ∉ m.dark)
    (hn : needed (aligned c align) size > c.capacity)
    (hch : hasFlag a.flags ARENA_USE_CHAINING = true)
    (hfl : hasFlag a.flags ARENA_USE_FREE_LIST = true)
    (hfree : free = l1 ++ x :: l2)
    (hno : ∀ y ∈ l1, ∀ b, m.heap.rd y = some b → b.capacity < needed (aligned c align) size)
    (hx : m.heap.rd x = some bx) (hcap : needed (aligned c align) size ≤ bx.capacity) :
    (¬ ((∀ y ∈ l1, y ∉ m.dark) ∧ x ∉ m.dark) →
      arena_push pg m arena size align r = .error .fault) ∧
    ((∀ y ∈ l1, y ∉ m.dark) ∧ x ∉ m.dark →
    ∃ m3 a3, arena_push pg m arena size align r = .ok (ALIGN bx.top align, m3) ∧
      (∀ q, q ∉ m.dark → q ∉ m3.dark) ∧
      WF m3 arena a3 (x :: chain) (l1 ++ l2) ∧ a3.curr = x ∧
      m3.heap.rd x = some (chainedHdr pg bx a.curr c size align) ∧
      m3.trace = m.trace ++ commitEvent (linked bx a.curr c align)
        (needed (linked bx a.curr c align) size) ∧
      m3.heap.keys = m.heap.keys ∧
      (∀ q, q ≠ x → ∀ b, m.heap.rd q = some b →
        ∃ b1, m3.heap.rd q = some b1 ∧ sameGeom b b1 ∧ (q ≠ a.curr → b1.top = b.top))) := by
  have ha := hwf.head
  obtain ⟨hwA, hAcurr, hAflags, hAfl, hAc, hAframe⟩ := hwf.after_align hc align
  have hcurr_chain : a.curr ∈ chain := by
    obtain ⟨rest, _, hchain, _, _, _⟩ := hwf.chain_cons
    rw [hchain]; simp
  have hdisj : ∀ q ∈ chain, q ∉ free := fun q hq => hwf.not_mem_free hq
  have hnd : (chain ++ (l1 ++ x :: l2)).Nodup := by
    have := hwf.nodup; rwa [hfree] at this
  have hndf : (l1 ++ x :: l2).Nodup := (List.nodup_append.1 hnd).2.1
  have hxl1 : x ∉ l1 := by
    intro h
    have := (List.nodup_append.1 hndf).2.2 h
    simp at this
  have hxfree : x ∈ free := by rw [hfree]; simp
  have hxchain : x ∉ chain := fun h => hdisj x h hxfree
  have hxc : x ≠ a.curr := fun e => hxchain (e ▸ hcurr_chain)
  have hxa : x ≠ arena := fun e => hxchain (e ▸ hwf.arena_mem)
  have hl1free : ∀ y ∈ l1, y ∈ free := by
    intro y hy; rw [hfree]; simp [hy]
  have hl1c : ∀ y ∈ l1, y ≠ a.curr := fun y hy e => hdisj _ hcurr_chain (e ▸ hl1free y hy)
  have hl1a : ∀ y ∈ l1, y ≠ arena := fun y hy e => hdisj _ hwf.arena_mem (e ▸ hl1free y hy)
  -- the free-list search in the state after line 78
  have hnoA : ∀ y ∈ l1, ∀ b,
      ({ m with heap := m.heap.wr a.curr (aligned c align) } : Machine).heap.rd y = some b →
        b.capacity < needed (aligned c align) size := by
    intro y hy b hb
    rw [hAframe y (hl1c y hy)] at hb
    exact hno y hy b hb
  have hxA : ({ m with heap := m.heap.wr a.curr (aligned c align) } : Machine).heap.rd x =
      some bx := by rw [hAframe x hxc]; exact hx
  have hflA : hasFlag (headAfterAlign arena a c align).flags ARENA_USE_FREE_LIST = true := by
    rw [hAflags]; exact hfl
  obtain ⟨hnewF, hnewS⟩ := push_new_block_hit pg r hwA hda hflA hfree hnoA hxA hcap
  constructor
  · intro hg
    rw [arena_push_chain_unfold ha hc hda hdc hn hch, hnewF hg]
    rfl
  intro hg
  obtain ⟨m1, fl, hnew, htr1, hk1, hdk1, ha1, hfl1, hfr1, hl11⟩ := hnewS hg
  have hdk1' : m1.dark = m.dark := hdk1
  -- header of the old current block before linking
  have hc1 : ∃ c1, m1.heap.rd a.curr = some c1 ∧ c1.base_pos = c.base_pos ∧
      c1.pos = c.pos ∧ sameGeom c c1 ∧ c1.top = ALIGN c.top align := by
    by_cases e : a.curr = arena
    · refine ⟨{ headAfterAlign arena a c align with free_list := fl }, by rw [e]; exact ha1, ?_⟩
      simp [headAfterAlign, e, aligned, sameGeom]
    · refine ⟨aligned c align, ?_, rfl, rfl, ⟨rfl, rfl, rfl, rfl, rfl, rfl, rfl⟩, rfl⟩
      rw [hfr1 a.curr (fun h => hl1c _ h rfl) e, hAc]
  obtain ⟨c1, hc1rd, hc1bp, hc1pos, hc1geom, hc1top⟩ := hc1
  have hx1 : m1.heap.rd x = some bx := by rw [hfr1 x hxl1 hxa, hxA]
  have hcl1 : LL Arena.prev m1.heap a.curr chain := by
    have := hwA.chain_ll
    rw [hAcurr] at this
    refine LL_congr _ _ ?_ this
    intro q hq bq hbq
    have hql1 : q ∉ l1 := fun h => hdisj q hq (hl1free q h)
    by_cases hqa : q = arena
    · subst hqa
      rw [hwA.head] at hbq
      exact ⟨_, ha1, by rw [← Option.some.inj hbq]⟩
    · exact ⟨bq, by rw [hfr1 q hql1 hqa]; exact hbq, rfl⟩
  have hnd1 : (x :: (chain ++ (l1 ++ l2))).Nodup := by
    have hp : (x :: (chain ++ (l1 ++ l2))).Perm (chain ++ (l1 ++ x :: l2)) := by
      have h1 : (x :: (l1 ++ l2)).Perm (l1 ++ x :: l2) := List.perm_middle.symm
      calc (x :: (chain ++ (l1 ++ l2))).Perm (chain ++ x :: (l1 ++ l2)) :=
            List.perm_middle.symm
        _ |>.Perm (chain ++ (l1 ++ x :: l2)) := List.Perm.append_left _ h1
    exact hp.nodup_iff.2 hnd
  have hkeys1 : m1.heap.keys.Perm (x :: (chain ++ (l1 ++ l2))) := by
    rw [hk1]
    have hp : (x :: (chain ++ (l1 ++ l2))).Perm (chain ++ (l1 ++ x :: l2)) := by
      have h1 : (x :: (l1 ++ l2)).Perm (l1 ++ x :: l2) := List.perm_middle.symm
      calc (x :: (chain ++ (l1 ++ l2))).Perm (chain ++ x :: (l1 ++ l2)) :=
            List.perm_middle.symm
        _ |>.Perm (chain ++ (l1 ++ x :: l2)) := List.Perm.append_left _ h1
    have := hwA.keys_perm
    rw [hfree] at this
    exact this.trans hp.symm
  have hreset1 : ∀ y ∈ l1 ++ l2, ∀ b, m1.heap.rd y = some b → b.pos = 0 ∧ b.top = b.base := by
    intro y hy b hb
    have hyfree : y ∈ free := by
      rw [hfree]
      rcases List.mem_append.1 hy with h | h
      · simp [h]
      · simp [h]
    by_cases hyl1 : y ∈ l1
    · obtain ⟨b0, nx, hb0, hb1⟩ := hl11 y hyl1
      rw [hb1] at hb
      rw [← Option.some.inj hb]
      exact hwA.free_reset y hyfree b0 hb0
    · have hya : y ≠ arena := fun e => hdisj _ hwf.arena_mem (e ▸ hyfree)
      rw [hfr1 y hyl1 hya] at hb
      exact hwA.free_reset y hyfree b hb
  have hx0 : x ≠ NULL := (LL_mapped _ _ hwf.free_ll x hxfree).1
  obtain ⟨m3, hrun, hdk3, htr3, hk3, hrd3, hwf3⟩ :=
    link_finish_spec pg size align x bx chain (l1 ++ l2)
      (a := { headAfterAlign arena a c align with free_list := fl }) (c := c1)
      ha1 (by simpa using hwA.head_base_pos) (by simpa [hAcurr] using hcl1) hwf.chain_last
      (by simpa using hfl1) hnd1 hkeys1 (by simpa [hAflags] using hch)
      (by intro h; simp [hAflags, hfl] at h) hreset1 (by simpa [hAcurr] using hc1rd) hx0 hx1
      (by rw [hdk1']; exact hda) (by simpa [hAcurr, hdk1'] using hdc)
      (by rw [hdk1']; exact hg.2)
  simp only [hAcurr] at hrun htr3 hrd3 hwf3
  rw [linked_congr bx a.curr align hc1bp hc1pos] at htr3
  rw [chainedHdr_congr pg bx a.curr size align hc1bp hc1pos] at hrd3
  refine ⟨m3, _, ?_, ?_, hwf3, rfl, ?_, ?_, ?_, ?_⟩
  · rw [arena_push_chain_unfold ha hc hda hdc hn hch, hnew]
    exact hrun
  · intro q hq
    exact hdk3 q (by rw [hdk1']; exact hq)
  · rw [hrd3]; simp
  · rw [htr3, htr1]
  · rw [hk3, hk1]; simp [keys_wr]
  · intro q hqx b hb
    rw [hrd3]
    simp only [hqx, if_false]
    by_cases hqa : q = arena
    · subst hqa
      rw [ha] at hb
      have hba : a = b := Option.some.inj hb
      subst hba
      refine ⟨_, if_pos rfl, ?_, ?_⟩
      · by_cases e : q = a.curr
        · have hac : c = a := by
            rw [← e, ha] at hc; exact (Option.some.inj hc).symm
          subst hac
          obtain ⟨g1, g2, g3, g4, g5, g6, g7⟩ := hc1geom
          simp [headAfterLink, e.symm, headAfterAlign, sameGeom, g1, g2, g3, g4, g5, g6, g7]
        · have e2 : ¬ a.curr = q := fun h => e h.symm
          simp [headAfterLink, e, e2, headAfterAlign, sameGeom]
      · intro e
        have e2 : ¬ a.curr = q := fun h => e h.symm
        simp [headAfterLink, e, e2, headAfterAlign]
    · simp only [hqa, if_false]
      by_cases hqc : q = a.curr
      · rw [hqc, hc] at hb
        have hbc : c = b := Option.some.inj hb
        subst hbc
        refine ⟨_, if_pos hqc, ?_, fun h => absurd hqc h⟩
        obtain ⟨g1, g2, g3, g4, g5, g6, g7⟩ := hc1geom
        exact ⟨g1, g2, g3, g4, g5, g6, g7⟩
      · simp only [hqc, if_false]
        by_cases hql1 : q ∈ l1
        · obtain ⟨b0, nx, hb0, hb1⟩ := hl11 q hql1
          rw [hAframe q hqc, hb] at hb0
          have hbb : b = b0 := Option.some.inj hb0
          subst hbb
          exact ⟨_, hb1, ⟨rfl, rfl, rfl, rfl, rfl, rfl, rfl⟩, fun _ => rfl⟩
        · refine ⟨b, ?_, sameGeom_refl b, fun _ => rfl⟩
          rw [hfr1 q hql1 hqa, hAframe q hqc, hb]

theorem push_fresh_spec (pg size align : Nat) {m : Machine} {arena r : Nat}
    {a c : Arena} {chain free : List Nat}
    (hwf : WF m arena a chain free) (hc : m.heap.rd a.curr = some c)
    (hda : arena ∉ m.dark) (hdc : a.curr ∉ m.dark)
    (hn : needed (aligned c align) size > c.capacity)
    (hch : hasFlag a.flags ARENA_USE_CHAINING = true)
    (hmiss : ∀ y ∈ free, ∀ b, m.heap.rd y = some b → b.capacity < needed (aligned c align) size)
    (hr : mmapFresh m r) :
    (¬ ((∀ y ∈ free, y ∉ m.dark) ∧
        r ∉ (allocated pg { m with heap := m.heap.wr a.curr (aligned c align) }
          (needed (aligned c align) size) (needed (aligned c align) size)
          (ARENA_USE_CHAINING ||| ARENA_USE_FREE_LIST) r).dark) →
      arena_push pg m arena size align r = .error .fault) ∧
    ((∀ y ∈ free, y ∉ m.dark) ∧
        r ∉ (allocated pg { m with heap := m.heap.wr a.curr (aligned c align) }
          (needed (aligned c align) size) (needed (aligned c align) size)
          (ARENA_USE_CHAINING ||| ARENA_USE_FREE_LIST) r).dark →
    ∃ m3 a3, arena_push pg m arena size align r =
        .ok (ALIGN (u64add r ARENA_HEADER_SIZE) align, m3) ∧
      (∀ q, q ∉ m.dark → q ≠ r → q ∉ m3.dark) ∧ r ∉ m3.dark ∧
      WF m3 arena a3 (r :: chain) free ∧ a3.curr = r ∧
      m3.heap.rd r = some (chainedHdr pg
        (blockHdr pg (needed (aligned c align) size) (needed (aligned c align) size)
          (ARENA_USE_CHAINING ||| ARENA_USE_FREE_LIST) r) a.curr c size align) ∧
      m3.trace = m.trace ++
        [Event.reserve (ALIGN (needed (aligned c align) size) pg) r,
         Event.commit r (ALIGN (needed (aligned c align) size) pg)] ++
        commitEvent (linked (blockHdr pg (needed (aligned c align) size)
            (needed (aligned c align) size) (ARENA_USE_CHAINING ||| ARENA_USE_FREE_LIST) r)
            a.curr c align)
          (needed (linked (blockHdr pg (needed (aligned c align) size)
            (needed (aligned c align) size) (ARENA_USE_CHAINING ||| ARENA_USE_FREE_LIST) r)
            a.curr c align) size) ∧
      m3.heap.keys = r :: m.heap.keys ∧
      (∀ q, q ≠ r → ∀ b, m.heap.rd q = some b →
        ∃ b1, m3.heap.rd q = some b1 ∧ sameGeom b b1 ∧ (q ≠ a.curr → b1.top = b.top))) := by
  have ha := hwf.head
  obtain ⟨hr0, hrf, hrk⟩ := hr
  obtain ⟨hwA, hAcurr, hAflags, hAfl, hAc, hAframe⟩ := hwf.after_align hc align
  have hcurr_chain : a.curr ∈ chain := by
    obtain ⟨rest, _, hchain, _, _, _⟩ := hwf.chain_cons
    rw [hchain]; simp
  have hdisj : ∀ q ∈ chain, q ∉ free := fun q hq => hwf.not_mem_free hq
  have hrall : r ∉ chain ++ free := fun h => hrk (hwf.keys_perm.mem_iff.2 h)
  have hrchain : r ∉ chain := fun h => hrall (List.mem_append_left _ h)
  have hrfree : r ∉ free := fun h => hrall (List.mem_append_right _ h)
  have hrc : r ≠ a.curr := fun e => hrchain (e ▸ hcurr_chain)
  have hra : r ≠ arena := fun e => hrchain (e ▸ hwf.arena_mem)
  have hmissA : ∀ y ∈ free, ∀ b,
      ({ m with heap := m.heap.wr a.curr (aligned c align) } : Machine).heap.rd y = some b →
        b.capacity < needed (aligned c align) size := by
    intro y hy b hb
    have hyc : y ≠ a.curr := fun e => hdisj _ hcurr_chain (e ▸ hy)
    rw [hAframe y hyc] at hb
    exact hmiss y hy b hb
  have hnew := push_new_block_miss pg r hwA hda hmissA
  rw [arena_alloc_ok hrf] at hnew
  constructor
  · intro hg
    rw [arena_push_chain_unfold ha hc hda hdc hn hch, hnew]
    by_cases h1 : ∀ y ∈ free, y ∉ m.dark
    · have h2 : r ∈ (allocated pg { m with heap := m.heap.wr a.curr (aligned c align) }
          (needed (aligned c align) size) (needed (aligned c align) size)
          (ARENA_USE_CHAINING ||| ARENA_USE_FREE_LIST) r).dark := by
        by_contra h2
        exact hg ⟨h1, h2⟩
      rw [if_pos h1, if_pos h2]
      rfl
    · rw [if_neg h1]
      rfl
  intro hg
  obtain ⟨hg1, hg2⟩ := hg
  rw [if_pos hg1, if_neg hg2] at hnew
  -- the state with the fresh block mapped
  have hMheap := @allocated_heap pg { m with heap := m.heap.wr a.curr (aligned c align) }
    (needed (aligned c align) size) (needed (aligned c align) size)
    (ARENA_USE_CHAINING ||| ARENA_USE_FREE_LIST) r hrf
  have hMtrace := allocated_trace pg { m with heap := m.heap.wr a.curr (aligned c align) }
    (needed (aligned c align) size) (needed (aligned c align) size)
    (ARENA_USE_CHAINING ||| ARENA_USE_FREE_LIST) r
  have hMdark : ∀ q, q ∉ m.dark → q ≠ r →
      q ∉ (allocated pg { m with heap := m.heap.wr a.curr (aligned c align) }
        (needed (aligned c align) size) (needed (aligned c align) size)
        (ARENA_USE_CHAINING ||| ARENA_USE_FREE_LIST) r).dark := by
    intro q hq hqr hmem
    rcases allocated_dark hrf hmem with e | e
    · exact hqr e
    · exact hq e
  have hrd1 : ∀ q, q ≠ r →
      (allocated pg { m with heap := m.heap.wr a.curr (aligned c align) }
        (needed (aligned c align) size) (needed (aligned c align) size)
        (ARENA_USE_CHAINING ||| ARENA_USE_FREE_LIST) r).heap.rd q =
      (m.heap.wr a.curr (aligned c align)).rd q := by
    intro q hq
    rw [hMheap]
    simp [Heap.rd, Ne.symm hq]
  have hkeys1 : (allocated pg { m with heap := m.heap.wr a.curr (aligned c align) }
        (needed (aligned c align) size) (needed (aligned c align) size)
        (ARENA_USE_CHAINING ||| ARENA_USE_FREE_LIST) r).heap.keys = r :: m.heap.keys := by
    rw [hMheap]
    simp [Heap.keys, keys_wr]
    exact keys_wr _ _ _
  obtain ⟨m3, hrun, hdk3, htr3, hk3, hrd3, hwf3⟩ :=
    link_finish_spec pg size align r
      (blockHdr pg (needed (aligned c align) size) (needed (aligned c align) size)
        (ARENA_USE_CHAINING ||| ARENA_USE_FREE_LIST) r) chain free
      (m := allocated pg { m with heap := m.heap.wr a.curr (aligned c align) }
        (needed (aligned c align) size) (needed (aligned c align) size)
        (ARENA_USE_CHAINING ||| ARENA_USE_FREE_LIST) r)
      (a := headAfterAlign arena a c align) (c := aligned c align)
      (by rw [hrd1 arena (Ne.symm hra)]; exact hwA.head) hwA.head_base_pos
      (LL_frame (fun q hq => hrd1 q (fun e => hrchain (e ▸ hq))) hwA.chain_ll)
      hwf.chain_last
      (LL_frame (fun q hq => hrd1 q (fun e => hrfree (e ▸ hq))) hwA.free_ll)
      (by
        rw [List.nodup_cons]
        exact ⟨hrall, hwf.nodup⟩)
      (by
        rw [hkeys1]
        exact List.Perm.cons _ hwf.keys_perm)
      (by rw [hAflags]; exact hch)
      (by rw [hAflags]; exact hwf.nofree)
      (by
        intro y hy b hb
        rw [hrd1 y (fun e => hrfree (e ▸ hy))] at hb
        exact hwA.free_reset y hy b hb)
      (by rw [hAcurr, hrd1 _ (Ne.symm hrc)]; exact hAc)
      hr0
      (by rw [hMheap]; simp [Heap.rd])
      (hMdark arena hda (Ne.symm hra))
      (by rw [hAcurr]; exact hMdark a.curr hdc (Ne.symm hrc))
      hg2
  simp only [hAcurr] at hrun htr3 hrd3 hwf3
  have hcbp : (aligned c align).base_pos = c.base_pos := rfl
  have hcpos : (aligned c align).pos = c.pos := rfl
  rw [linked_congr _ a.curr align hcbp hcpos] at htr3
  rw [chainedHdr_congr pg _ a.curr size align hcbp hcpos] at hrd3
  refine ⟨m3, _, ?_, ?_, ?_, hwf3, rfl, ?_, ?_, ?_, ?_⟩
  · rw [arena_push_chain_unfold ha hc hda hdc hn hch, hnew]
    exact hrun
  · intro q hq hqr
    exact hdk3 q (hMdark q hq hqr)
  · exact hdk3 r hg2
  · rw [hrd3]; simp
  · rw [htr3, hMtrace]
  · rw [hk3, hkeys1]
  · intro q hqr b hb
    rw [hrd3]
    simp only [hqr, if_false]
    by_cases hqa : q = arena
    · subst hqa
      rw [ha] at hb
      have hba : a = b := Option.some.inj hb
      subst hba
      refine ⟨_, if_pos rfl, ?_, ?_⟩
      · by_cases e : q = a.curr
        · have hac : c = a := by
            rw [← e, ha] at hc; exact (Option.some.inj hc).symm
          subst hac
          simp [headAfterLink, e.symm, headAfterAlign, sameGeom, aligned]
        · have e2 : ¬ a.curr = q := fun h => e h.symm
          simp [headAfterLink, e, e2, headAfterAlign, sameGeom]
      · intro e
        have e2 : ¬ a.curr = q := fun h => e h.symm
        simp [headAfterLink, e, e2, headAfterAlign]
    · simp only [hqa, if_false]
      by_cases hqc : q = a.curr
      · rw [hqc, hc] at hb
        have hbc : c = b := Option.some.inj hb
        subst hbc
        exact ⟨_, if_pos hqc, ⟨rfl, rfl, rfl, rfl, rfl, rfl, rfl⟩, fun h => absurd hqc h⟩
      · simp only [hqc, if_false]
        refine ⟨b, ?_, sameGeom_refl b, fun _ => rfl⟩
        rw [hrd1 q hqr]
        simp [rd_wr, hqc, hb]

theorem push_alloc_fail_spec {pg : Nat} {m : Machine} {arena size align : Nat}
    {a c : Arena} {chain free : List Nat}
    (hwf : WF m arena a chain free) (hc : m.heap.rd a.curr = some c)
    (hda : arena ∉ m.dark) (hdc : a.curr ∉ m.dark)
    (hn : needed (aligned c align) size > c.capacity)
    (hch : hasFlag a.flags ARENA_USE_CHAINING = true)
    (hmiss : ∀ y ∈ free, ∀ b, m.heap.rd y = some b → b.capacity < needed (aligned c align) size) :
    arena_push pg m arena size align MAP_FAILED = .error .fault := by
  have ha := hwf.head
  obtain ⟨hwA, hAcurr, hAflags, hAfl, hAc, hAframe⟩ := hwf.after_align hc align
  have hcurr_chain : a.curr ∈ chain := by
    obtain ⟨rest, _, hchain, _, _, _⟩ := hwf.chain_cons
    rw [hchain]; simp
  have hdisj : ∀ q ∈ chain, q ∉ free := fun q hq => hwf.not_mem_free hq
  have hmissA : ∀ y ∈ free, ∀ b,
      ({ m with heap := m.heap.wr a.curr (aligned c align) } : Machine).heap.rd y = some b →
        b.capacity < needed (aligned c align) size := by
    intro y hy b hb
    have hyc : y ≠ a.curr := fun e => hdisj _ hcurr_chain (e ▸ hy)
    rw [hAframe y hyc] at hb
    exact hmiss y hy b hb
  have hnew := push_new_block_miss pg MAP_FAILED hwA hda hmissA
  rw [arena_alloc_failed] at hnew
  have hnull := hwA.null_unmapped
  have hanull : a.curr ≠ NULL := by
    obtain ⟨_, _, _, _, h0, _⟩ := hwf.chain_cons
    exact h0
  have harena := hwA.head
  rw [arena_push_chain_unfold ha hc hda hdc hn hch, hnew]
  by_cases hg : ∀ y ∈ free, y ∉ m.dark
  · rw [if_pos hg]
    have hda' : arena ∉ ({ m with heap := m.heap.wr a.curr (aligned c align) } : Machine).dark :=
      hda
    have hdc' : a.curr ∉ ({ m with heap := m.heap.wr a.curr (aligned c align) } : Machine).dark :=
      hdc
    simp only [Except.bind, push_link, bind, load, harena, hAcurr, modify, hAc, hda', hdc',
      if_false]
    by_cases e : arena = a.curr
    · have hnull2 : (m.heap.wr a.curr (aligned c align)).rd NULL = none := hnull
      simp [rd_wr, e, hAc, Ne.symm hanull, hnull2, hc, hda, hdc]
    · have hnull2 : (m.heap.wr a.curr (aligned c align)).rd NULL = none := hnull
      have harena2 : (m.heap.wr a.curr (aligned c align)).rd arena = some
          (headAfterAlign arena a c align) := harena
      simp [rd_wr, e, harena2, Ne.symm hanull, hnull2, hc, ha, hda, hdc]
  · rw [if_neg hg]
    rfl

theorem first_fit_split (P : Nat → Prop) :
    ∀ (l : List Nat), (∀ y ∈ l, ¬ P y) ∨
      ∃ l1 x l2, l = l1 ++ x :: l2 ∧ (∀ y ∈ l1, ¬ P y) ∧ P x
  | [] => Or.inl (fun _ h => absurd h (List.not_mem_nil _))
  | z :: l => by
    by_cases hz : P z
    · exact Or.inr ⟨[], z, l, rfl, fun _ h => absurd h (List.not_mem_nil _), hz⟩
    · rcases first_fit_split P l with h | ⟨l1, x, l2, hl, hno, hx⟩
      · left
        intro y hy
        rcases List.mem_cons.1 hy with e | e
        · rw [e]; exact hz
        · exact h y e
      · right
        refine ⟨z :: l1, x, l2, by rw [hl]; rfl, ?_, hx⟩
        intro y hy
        rcases List.mem_cons.1 hy with e | e
        · rw [e]; exact hz
        · exact hno y e

theorem created_heap (s : Setup) (hs : s.ok) :
    s.created.heap = [(s.arena, blockHdr s.pg s.reserve_size s.commit_size s.flags s.arena)] ∧
    s.created.trace = [Event.reserve (ALIGN s.reserve_size s.pg) s.arena,
                       Event.commit s.arena (ALIGN s.commit_size s.pg)] ∧
    s.arena ∉ s.created.dark ∧ ∀ q, q ∈ s.created.dark → q = s.arena := by
  obtain ⟨_, _, _, hne, _, hrun⟩ := hs
  rw [arena_alloc_ok hne] at hrun
  split at hrun
  · cases hrun
  · rename_i hd
    have e : allocated s.pg Machine.init s.reserve_size s.commit_size s.flags s.arena =
        s.created := (Prod.mk.inj (Except.ok.inj hrun)).2
    rw [← e]
    refine ⟨?_, ?_, hd, ?_⟩
    · rw [allocated_heap hne]; rfl
    · rw [allocated_trace]; rfl
    · intro q hq
      rcases allocated_dark hne hq with h | h
      · exact h
      · simp [Machine.init] at h

theorem WF_created (s : Setup) (hs : s.ok) :
    WF s.created s.arena (blockHdr s.pg s.reserve_size s.commit_size s.flags s.arena)
      [s.arena] [] := by
  obtain ⟨hheap, -, -, -⟩ := created_heap s hs
  obtain ⟨_, _, _, hne, hmap, _⟩ := hs
  have h0 : s.arena ≠ NULL := by
    rcases hmap with h | h
    · exact absurd h hne
    · exact h.1.1
  refine
    { head := by rw [hheap]; simp [Heap.rd]
      head_base_pos := rfl
      chain_ll := ⟨rfl, h0, blockHdr s.pg s.reserve_size s.commit_size s.flags s.arena,
        by rw [hheap]; simp [Heap.rd], rfl⟩
      chain_last := rfl
      free_ll := rfl
      nodup := by simp
      keys_perm := by rw [hheap]; simp [Heap.keys]
      nochain := fun _ => ⟨rfl, rfl⟩
      nofree := fun _ => rfl
      free_reset := fun x hx => absurd hx (List.not_mem_nil _) }

theorem WF.curr_mapped {m : Machine} {arena : Nat} {a : Arena} {chain free : List Nat}
    (hwf : WF m arena a chain free) : ∃ c, m.heap.rd a.curr = some c := by
  obtain ⟨_, c, _, hc, _, _⟩ := hwf.chain_cons
  exact ⟨c, hc⟩

theorem WF.curr_mem {m : Machine} {arena : Nat} {a : Arena} {chain free : List Nat}
    (hwf : WF m arena a chain free) : a.curr ∈ chain := by
  obtain ⟨rest, _, hchain, _, _, _⟩ := hwf.chain_cons
  rw [hchain]; simp

/-- A push that returns keeps the arena well formed and the identity of its head. -/
theorem WF_push {pg : Nat} {m m1 : Machine} {arena size align r res : Nat} {a : Arena}
    {chain free : List Nat}
    (hwf : WF m arena a chain free) (hda : arena ∉ m.dark) (hdc : a.curr ∉ m.dark)
    (hr : r = MAP_FAILED ∨ mmapFresh m r)
    (h : arena_push pg m arena size align r = .ok (res, m1)) :
    ∃ a1 chain1 free1, WF m1 arena a1 chain1 free1 ∧
      a1.flags = a.flags ∧ a1.capacity = a.capacity ∧ a1.base = a.base ∧
      arena ∉ m1.dark ∧ a1.curr ∉ m1.dark := by
  have ha := hwf.head
  obtain ⟨c, hc⟩ := hwf.curr_mapped
  have hab : a.curr = arena → c = a := by
    intro e
    rw [e, ha] at hc
    exact (Option.some.inj hc).symm
  by_cases hn : needed (aligned c align) size ≤ c.capacity
  · -- the allocation fits the current block
    rw [push_fit_spec ha hc hda hdc hn] at h
    have hm1 : m1 = _ := (Prod.mk.inj (Except.ok.inj h)).2.symm
    have hdk : ∀ q, q ∉ m.dark → q ∉ m1.dark := by
      intro q hq
      rw [hm1]
      exact not_mem_commitDark hq
    have hw := hwf.update m1 a.curr
      (bumped (committedTo pg (aligned c align) (needed (aligned c align) size)) size)
      hwf.curr_mem hc
      (sameLinks_trans (aligned_sameLinks c align)
        (sameLinks_trans (committedTo_sameLinks pg _ _) (bumped_sameLinks _ _)))
      (by rw [hm1])
    refine ⟨_, chain, free, hw, ?_⟩
    by_cases e : a.curr = arena
    · have := hab e
      subst this
      simp only [e, if_true]
      refine ⟨?_, ?_, ?_, hdk _ hda, ?_⟩
      · unfold committedTo
        split <;> simp [bumped, aligned]
      · unfold committedTo
        split <;> simp [bumped, aligned]
      · unfold committedTo
        split <;> simp [bumped, aligned]
      · have : (bumped (committedTo pg (aligned c align) (needed (aligned c align) size))
            size).curr = c.curr := by
          unfold committedTo
          split <;> simp [bumped, aligned]
        rw [this]
        exact hdk _ hdc
    · rw [if_neg e]
      exact ⟨rfl, rfl, rfl, hdk _ hda, hdk _ hdc⟩
  · have hn2 : needed (aligned c align) size > c.capacity := by omega
    by_cases hch : hasFlag a.flags ARENA_USE_CHAINING = true
    · -- a block is chained
      rcases first_fit_split
        (fun y => ∃ b, m.heap.rd y = some b ∧ needed (aligned c align) size ≤ b.capacity) free
        with hmiss | ⟨l1, x, l2, hfree, hno, bx, hx, hcap⟩
      · have hmiss2 : ∀ y ∈ free, ∀ b, m.heap.rd y = some b →
            b.capacity < needed (aligned c align) size := by
          intro y hy b hb
          have := hmiss y hy
          simp only [not_exists, not_and] at this
          have := this b hb
          omega
        rcases hr with hr | hr
        · rw [hr, push_alloc_fail_spec hwf hc hda hdc hn2 hch hmiss2] at h
          cases h
        · obtain ⟨hF, hS⟩ := push_fresh_spec pg size align hwf hc hda hdc hn2 hch hmiss2 hr
          by_cases hg : (∀ y ∈ free, y ∉ m.dark) ∧
              r ∉ (allocated pg { m with heap := m.heap.wr a.curr (aligned c align) }
                (needed (aligned c align) size) (needed (aligned c align) size)
                (ARENA_USE_CHAINING ||| ARENA_USE_FREE_LIST) r).dark
          swap
          · rw [hF hg] at h
            cases h
          obtain ⟨m3, a3, hrun, hdk, hdr, hwf3, hcurr3, _, _, _, hframe⟩ := hS hg
          rw [hrun] at h
          have hm1 : m3 = m1 := (Prod.mk.inj (Except.ok.inj h)).2
          subst hm1
          have hra : arena ≠ r := by
            intro e
            exact hr.2.2 (e ▸ mem_keys_of_rd ha)
          obtain ⟨b1, hb1, hg, _⟩ := hframe arena hra a ha
          rw [hwf3.head] at hb1
          have := Option.some.inj hb1
          subst this
          exact ⟨_, _, _, hwf3, hg.2.2.2.2.2.2, hg.2.2.1, hg.2.2.2.2.2.1, hdk _ hda hra,
            by rw [hcurr3]; exact hdr⟩
      · have hfl : hasFlag a.flags ARENA_USE_FREE_LIST = true := by
          by_contra hfl
          have := hwf.nofree (by simpa using hfl)
          rw [this] at hfree
          simp at hfree
        have hno2 : ∀ y ∈ l1, ∀ b, m.heap.rd y = some b →
            b.capacity < needed (aligned c align) size := by
          intro y hy b hb
          have := hno y hy
          simp only [not_exists, not_and] at this
          have := this b hb
          omega
        obtain ⟨hF, hS⟩ := push_hit_spec pg size align r
            hwf hc hda hdc hn2 hch hfl hfree hno2 hx hcap
        by_cases hg : (∀ y ∈ l1, y ∉ m.dark) ∧ x ∉ m.dark
        swap
        · rw [hF hg] at h
          cases h
        obtain ⟨m3, a3, hrun, hdk, hwf3, hcurr3, _, _, _, hframe⟩ := hS hg
        rw [hrun] at h
        have hm1 : m3 = m1 := (Prod.mk.inj (Except.ok.inj h)).2
        subst hm1
        have hxa : arena ≠ x := by
          intro e
          have hxfree : x ∈ free := by rw [hfree]; simp
          exact hwf.not_mem_free hwf.arena_mem (e ▸ hxfree)
        obtain ⟨b1, hb1, hg1, _⟩ := hframe arena hxa a ha
        rw [hwf3.head] at hb1
        have := Option.some.inj hb1
        subst this
        exact ⟨_, _, _, hwf3, hg1.2.2.2.2.2.2, hg1.2.2.1, hg1.2.2.2.2.2.1, hdk _ hda,
          by rw [hcurr3]; exact hdk _ hg.2⟩
    · -- chaining is disabled: the push fails
      have hch2 : hasFlag a.flags ARENA_USE_CHAINING = false := by simpa using hch
      rw [push_fail_spec ha hc hda hdc hn2 hch2] at h
      have hm1 : m1 = _ := (Prod.mk.inj (Except.ok.inj h)).2.symm
      have hw := hwf.update m1 a.curr (aligned c align)
        hwf.curr_mem hc (aligned_sameLinks c align) (by rw [hm1])
      have hdk : m1.dark = m.dark := by rw [hm1]
      refine ⟨_, chain, free, hw, ?_⟩
      by_cases e : a.curr = arena
      · have := hab e
        subst this
        rw [hdk, if_pos e]
        exact ⟨rfl, rfl, rfl, hda, hdc⟩
      · rw [hdk, if_neg e]
        exact ⟨rfl, rfl, rfl, hda, hdc⟩

/-- A rollback that returns keeps the arena well formed and the identity of its head. -/
theorem WF_pop_to {pg : Nat} {m m1 : Machine} {arena pos : Nat} {a : Arena}
    {chain free : List Nat}
    (hwf : WF m arena a chain free) (hda : arena ∉ m.dark) (hdc : a.curr ∉ m.dark)
    (h : arena_pop_to pg m arena pos = .ok m1) :
    ∃ a1 chain1 free1, WF m1 arena a1 chain1 free1 ∧
      a1.flags = a.flags ∧ a1.capacity = a.capacity ∧ a1.base = a.base ∧
      arena ∉ m1.dark ∧ a1.curr ∉ m1.dark := by
  have ha := hwf.head
  obtain ⟨c, hc⟩ := hwf.curr_mapped
  by_cases hp : pos > u64add c.base_pos c.pos
  · rw [pop_to_reject_spec ha hc hda hdc hp] at h
    have : m = m1 := Except.ok.inj h
    subst this
    exact ⟨a, chain, free, hwf, rfl, rfl, rfl, hda, hdc⟩
  · have hp2 : pos ≤ u64add c.base_pos c.pos := by omega
    by_cases hch : hasFlag a.flags ARENA_USE_CHAINING = true
    · by_cases hfl : hasFlag a.flags ARENA_USE_FREE_LIST = true
      · rcases pop_to_recycle_spec pg hwf hch hfl hc hp2 with
          hF | ⟨l1, y, l2, b, m2, fl, _, _, _, _, hrun, hda2, hdy2, _, _, _, _, hwf2⟩
        · rw [hF] at h
          cases h
        rw [hrun] at h
        have : m2 = m1 := Except.ok.inj h
        subst this
        refine ⟨_, _, _, hwf2, ?_⟩
        by_cases e : y = arena
        · rw [if_pos e]
          exact ⟨rfl, rfl, rfl, hda2, by rw [← e] at hda2; exact hda2⟩
        · rw [if_neg e]
          exact ⟨rfl, rfl, rfl, hda2, hdy2⟩
      · have hfl2 : hasFlag a.flags ARENA_USE_FREE_LIST = false := by simpa using hfl
        rcases pop_to_unmap_spec pg hwf hch hfl2 hc hp2 with
          hF | ⟨l1, y, l2, b, m2, _, _, _, _, hrun, hda2, hdy2, _, _, _, _, _, hwf2⟩
        · rw [hF] at h
          cases h
        rw [hrun] at h
        have : m2 = m1 := Except.ok.inj h
        subst this
        refine ⟨_, _, _, hwf2, ?_⟩
        by_cases e : y = arena
        · rw [if_pos e]
          exact ⟨rfl, rfl, rfl, hda2, by rw [← e] at hda2; exact hda2⟩
        · rw [if_neg e]
          exact ⟨rfl, rfl, rfl, hda2, hdy2⟩
    · have hch2 : hasFlag a.flags ARENA_USE_CHAINING = false := by simpa using hch
      obtain ⟨hcurr, _, _⟩ := hwf.curr_eq_of_nochain hch2
      have hca : c = a := by
        rw [hcurr, ha] at hc
        exact (Option.some.inj hc).symm
      subst hca
      obtain ⟨hrun, hwf2⟩ := pop_to_nochain_spec pg hwf hda hch2 hp2
      rw [hrun] at h
      have : _ = m1 := Except.ok.inj h
      subst this
      exact ⟨_, _, _, hwf2, rfl, rfl, rfl, hda, hdc⟩

theorem WF_step {pg : Nat} {m m1 : Machine} {arena : Nat} {a : Arena}
    {chain free : List Nat} {op : Op}
    (hwf : WF m arena a chain free) (hda : arena ∉ m.dark) (hdc : a.curr ∉ m.dark)
    (hop : Op.ok m op)
    (h : step pg m arena op = .ok m1) :
    ∃ a1 chain1 free1, WF m1 arena a1 chain1 free1 ∧
      a1.flags = a.flags ∧ a1.capacity = a.capacity ∧ a1.base = a.base ∧
      arena ∉ m1.dark ∧ a1.curr ∉ m1.dark := by
  cases op with
  | push size align r =>
    simp only [step, Except.map] at h
    split at h
    · cases h
    · rename_i x hx
      obtain ⟨res, m2⟩ := x
      have : m2 = m1 := Except.ok.inj h
      subst this
      exact WF_push hwf hda hdc hop.2.2 hx
  | pop_to pos => exact WF_pop_to hwf hda hdc h
  | pop size =>
    obtain ⟨c, hc⟩ := hwf.curr_mapped
    simp only [step, arena_pop, load_ok hwf.head hda, load_ok hc hdc, bind, Except.bind] at h
    exact WF_pop_to hwf hda hdc h
  | clear => exact WF_pop_to hwf hda hdc h

/-- Every reachable state is well formed, with the head's flags, capacity
and base as set at creation, and the headers of the head and of the current
block are accessible. -/
theorem reachable_live {s : Setup} {m : Machine} (h : Reachable s m) :
    ∃ a chain free, WF m s.arena a chain free ∧ a.flags = s.flags % 256 ∧
      a.capacity = ALIGN s.reserve_size s.pg ∧ a.base = u64add s.arena ARENA_HEADER_SIZE ∧
      s.arena ∉ m.dark ∧ a.curr ∉ m.dark := by
  induction h with
  | create hs =>
    obtain ⟨-, -, hd, -⟩ := created_heap s hs
    exact ⟨_, _, _, WF_created s hs, rfl, rfl, rfl, hd, hd⟩
  | after m m1 op _ hop hstep ih =>
    obtain ⟨a, chain, free, hwf, h1, h2, h3, hda, hdc⟩ := ih
    obtain ⟨a1, chain1, free1, hwf1, g1, g2, g3, hda1, hdc1⟩ := WF_step hwf hda hdc hop hstep
    exact ⟨a1, chain1, free1, hwf1, g1.trans h1, g2.trans h2, g3.trans h3, hda1, hdc1⟩

/-- Every reachable state is well formed, with the head's flags, capacity
and base as set at creation. -/
theorem reachable_wf {s : Setup} {m : Machine} (h : Reachable s m) :
    ∃ a chain free, WF m s.arena a chain free ∧ a.flags = s.flags % 256 ∧
      a.capacity = ALIGN s.reserve_size s.pg ∧ a.base = u64add s.arena ARENA_HEADER_SIZE := by
  obtain ⟨a, chain, free, hwf, h1, h2, h3, -, -⟩ := reachable_live h
  exact ⟨a, chain, free, hwf, h1, h2, h3⟩

/-! ## Machine arithmetic -/

theorem WORD_eq : WORD = 18446744073709551616 := by
  unfold WORD; norm_num

theorem WORD_pos : 0 < WORD := by
  rw [WORD_eq]; norm_num

theorem u64add_lt (a b : Nat) : u64add a b < WORD := Nat.mod_lt _ WORD_pos

theorem u64sub_lt (a b : Nat) : u64sub a b < WORD := Nat.mod_lt _ WORD_pos

theorem u64add_of_lt {a b : Nat} (h : a + b < WORD) : u64add a b = a + b :=
  Nat.mod_eq_of_lt h

theorem u64sub_of_le {a b : Nat} (hb : b ≤ a) (ha : a < WORD) : u64sub a b = a - b := by
  unfold u64sub
  have hbw : b < WORD := by omega
  rw [Nat.mod_eq_of_lt hbw]
  have : WORD - b + a = (a - b) + WORD := by omega
  rw [this, Nat.add_mod_right, Nat.mod_eq_of_lt (by omega)]

theorem u64add_zero {a : Nat} (h : a < WORD) : u64add a 0 = a := by
  simp [u64add, Nat.mod_eq_of_lt h]

/-- Clearing the low `k` bits of a 64-bit value rounds it down to a multiple of `2 ^ k`. -/
theorem and_mask (x k : Nat) (hk : k ≤ 64) (hx : x < 2 ^ 64) :
    x &&& (2 ^ 64 - 2 ^ k) = 2 ^ k * (x / 2 ^ k) := by
  have hm : 2 ^ 64 - 2 ^ k = 2 ^ k * (2 ^ (64 - k) - 1) := by
    rw [Nat.mul_sub, ← Nat.pow_add, Nat.add_sub_cancel' hk]
    simp
  rw [hm]
  apply Nat.eq_of_testBit_eq
  intro j
  simp only [Nat.testBit_and, Nat.testBit_mul_pow_two, Nat.testBit_two_pow_sub_one,
    ← Nat.shiftRight_eq_div_pow, Nat.testBit_shiftRight]
  by_cases hjk : k ≤ j
  · have e : k + (j - k) = j := by omega
    rw [e]
    by_cases hj : j < 64
    · have : j - k < 64 - k := by omega
      simp [hjk, this]
    · have hxj : x < 2 ^ j :=
        lt_of_lt_of_le hx (Nat.pow_le_pow_right (by norm_num) (by omega))
      simp [Nat.testBit_lt_two_pow hxj]
  · simp [hjk]

/-- The macro `ALIGN` on a power of two, absent overflow of `a + b - 1`. -/
theorem ALIGN_pow2 {a k : Nat} (hk : k < 64) (h : a + 2 ^ k ≤ WORD) :
    ALIGN a (2 ^ k) = 2 ^ k * ((a + 2 ^ k - 1) / 2 ^ k) := by
  have hpos : 0 < 2 ^ k := Nat.two_pow_pos k
  have hlt : 2 ^ k < WORD := by
    unfold WORD
    exact Nat.pow_lt_pow_right (by norm_num) hk
  have h1 : u64sub (u64add a (2 ^ k)) 1 = a + 2 ^ k - 1 := by
    unfold u64sub u64add
    have h1w : 1 % WORD = 1 := Nat.mod_eq_of_lt (by rw [WORD_eq]; norm_num)
    rw [h1w, Nat.add_mod_mod]
    have : WORD - 1 + (a + 2 ^ k) = (a + 2 ^ k - 1) + WORD := by omega
    rw [this, Nat.add_mod_right, Nat.mod_eq_of_lt (by omega)]
  have h2 : u64not (u64sub (2 ^ k) 1) = 2 ^ 64 - 2 ^ k := by
    rw [u64sub_of_le hpos hlt]
    unfold u64not
    rw [Nat.mod_eq_of_lt (by omega)]
    unfold WORD
    have : (2:Nat) ^ k ≤ 2 ^ 64 := Nat.pow_le_pow_right (by norm_num) (by omega)
    omega
  unfold ALIGN
  rw [h1, h2]
  exact and_mask _ k (by omega) (by unfold WORD at h; omega)

/-- On a power of two `b`, `ALIGN a b` is the least multiple of `b` that is
not below `a`, absent overflow of `a + b - 1`. -/
theorem ALIGN_least {a b : Nat} (hb : isPow2 b) (h : a + b ≤ WORD) :
    b ∣ ALIGN a b ∧ a ≤ ALIGN a b ∧ ALIGN a b < a + b ∧
      ∀ x, b ∣ x → a ≤ x → ALIGN a b ≤ x := by
  obtain ⟨k, hk, rfl⟩ := hb
  have hpos : 0 < 2 ^ k := Nat.two_pow_pos k
  rw [ALIGN_pow2 hk h]
  have hdm := Nat.div_add_mod (a + 2 ^ k - 1) (2 ^ k)
  have hml := Nat.mod_lt (a + 2 ^ k - 1) hpos
  refine ⟨Dvd.intro _ rfl, by omega, by omega, ?_⟩
  rintro x ⟨y, rfl⟩ hax
  apply Nat.mul_le_mul_left
  rw [Nat.div_le_iff_le_mul_add_pred hpos]
  have : 2 ^ k * y + (2 ^ k - 1) = 2 ^ k * y + 2 ^ k - 1 := by omega
  omega

theorem demo_ok : demo.ok :=
  ⟨by decide, by decide, by decide, by decide,
    Or.inr ⟨⟨by decide, by decide, by decide⟩, by decide, by decide⟩, rfl⟩

theorem demoFixed_ok : demoFixed.ok :=
  ⟨by decide, by decide, by decide, by decide,
    Or.inr ⟨⟨by decide, by decide, by decide⟩, by decide, by decide⟩, rfl⟩

theorem demoHigh_ok : demoHigh.ok :=
  ⟨by decide, by decide, by decide, by decide,
    Or.inr ⟨⟨by decide, by decide, by decide⟩, by decide, by decide⟩, rfl⟩

theorem logical_eq {m : Machine} {arena : Nat} {a c : Arena}
    (ha : m.heap.rd arena = some a) (hc : m.heap.rd a.curr = some c) :
    logical m arena = some (u64add c.base_pos c.pos) := by
  simp [logical, ha, hc]

theorem current_eq {m : Machine} {arena : Nat} {a c : Arena}
    (ha : m.heap.rd arena = some a) (hc : m.heap.rd a.curr = some c) :
    current m arena = some c := by
  simp [current, ha, hc]

theorem logical_inv {m : Machine} {arena L : Nat} (h : logical m arena = some L) :
    ∃ a c, m.heap.rd arena = some a ∧ m.heap.rd a.curr = some c ∧
      L = u64add c.base_pos c.pos := by
  unfold logical at h
  cases ha : m.heap.rd arena with
  | none => simp [ha] at h
  | some a =>
    cases hc : m.heap.rd a.curr with
    | none => simp [ha, hc] at h
    | some c =>
      simp [ha, hc] at h
      exact ⟨a, c, rfl, hc, h.symm⟩

/-- C2: every reachable arena has a logical size `L = curr.base_pos +
curr.pos`, and for every `pos > L` the call `arena_pop_to(arena, pos)`
returns without changing anything: the machine afterwards (every header,
hence `pos`, `top` and the links of every block, `curr` and the free list,
and the list of backend calls) is the machine before. -/
theorem C2_pop_to_rejects_forward (s : Setup) (m : Machine) (hm : Reachable s m) :
    ∃ L, logical m s.arena = some L ∧
      ∀ pos, pos > L → arena_pop_to s.pg m s.arena pos = .ok m := by
  obtain ⟨a, chain, free, hwf, _, _, _, hda, hdc⟩ := reachable_live hm
  obtain ⟨c, hc⟩ := hwf.curr_mapped
  exact ⟨_, logical_eq hwf.head hc, fun pos hp => pop_to_reject_spec hwf.head hc hda hdc hp⟩

/-- C2 at the 64 KiB arena after `push(100, 8)`. -/
theorem C2_witness :
    ∃ L, logical (demo.after [Op.push 100 8 262144]) demo.arena = some L ∧
      ∀ pos, pos > L →
        arena_pop_to demo.pg (demo.after [Op.push 100 8 262144]) demo.arena pos =
          .ok (demo.after [Op.push 100 8 262144]) :=
  C2_pop_to_rejects_forward demo (demo.after [Op.push 100 8 262144])
    (Reachable.after demo.created _ (Op.push 100 8 262144) (Reachable.create demo_ok)
      ⟨by decide, by decide, Or.inr ⟨by decide, by decide, by decide⟩⟩ rfl)

/-- C9 fails as stated: on the fresh single-block arena of capacity 4096 the
position 10 lies within `[0, capacity]`, yet `arena_pop_to(arena, 10)` is
rejected (10 exceeds the logical size 0) and `pos` stays 0. -/
theorem C9_counterexample :
    Reachable demoFixed demoFixed.created ∧
    (current demoFixed.created demoFixed.arena).map Arena.capacity = some 4096 ∧
    arena_pop_to demoFixed.pg demoFixed.created demoFixed.arena 10 = .ok demoFixed.created ∧
    (current demoFixed.created demoFixed.arena).map Arena.pos = some 0 :=
  ⟨Reachable.create demoFixed_ok, rfl, rfl, rfl⟩

/-- C9 amended: for every arena created with chaining disabled, the arena
is its own current block, its free list is empty, and for every position `p`
up to the logical size `base_pos + pos` of that single block
`arena_pop_to(arena, p)` returns a machine that differs from the one before
only in the header of that block, where `pos = p` and `top = base + p`
(`curr`, the free list, every link and the list of backend calls are
unchanged); a position above the logical size is rejected with no change,
also when it is within the capacity. -/
theorem C9_pop_to_single_block (s : Setup) (m : Machine) (hm : Reachable s m)
    (hflag : hasFlag (s.flags % 256) ARENA_USE_CHAINING = false)
    (a : Arena) (ha : m.heap.rd s.arena = some a) :
    a.curr = s.arena ∧ a.free_list = NULL ∧
    (∀ p, p ≤ u64add a.base_pos a.pos →
      arena_pop_to s.pg m s.arena p =
        .ok { m with heap := m.heap.wr s.arena { a with pos := p, top := u64add a.base p } }) ∧
    (∀ p, p > u64add a.base_pos a.pos → arena_pop_to s.pg m s.arena p = .ok m) := by
  obtain ⟨a0, chain, free, hwf, hfl, _, _, hda, hdc⟩ := reachable_live hm
  have haa : a0 = a := by
    rw [hwf.head] at ha; exact Option.some.inj ha
  subst haa
  have hch : hasFlag a0.flags ARENA_USE_CHAINING = false := by rw [hfl]; exact hflag
  obtain ⟨hcurr, _, hfree⟩ := hwf.curr_eq_of_nochain hch
  have hc : m.heap.rd a0.curr = some a0 := by rw [hcurr]; exact ha
  refine ⟨hcurr, ?_, ?_, ?_⟩
  · have := hwf.free_ll
    rw [hfree] at this
    exact this
  · intro p hp
    exact (pop_to_nochain_spec s.pg hwf hda hch hp).1
  · intro p hp
    exact pop_to_reject_spec ha hc hda hdc hp

/-- C9 amended, at the single-block arena after `push(100, 8)`. -/
theorem C9_witness :
    ∃ a, (demoFixed.after [Op.push 100 8 262144]).heap.rd demoFixed.arena = some a ∧
      a.curr = demoFixed.arena ∧ a.free_list = NULL ∧
      (∀ p, p ≤ u64add a.base_pos a.pos →
        arena_pop_to demoFixed.pg (demoFixed.after [Op.push 100 8 262144]) demoFixed.arena p =
          .ok { demoFixed.after [Op.push 100 8 262144] with
                heap := (demoFixed.after [Op.push 100 8 262144]).heap.wr demoFixed.arena
                  { a with pos := p, top := u64add a.base p } }) ∧
      (∀ p, p > u64add a.base_pos a.pos →
        arena_pop_to demoFixed.pg (demoFixed.after [Op.push 100 8 262144]) demoFixed.arena p =
          .ok (demoFixed.after [Op.push 100 8 262144])) :=
  ⟨_, rfl,
    C9_pop_to_single_block demoFixed (demoFixed.after [Op.push 100 8 262144])
      (Reachable.after demoFixed.created _ (Op.push 100 8 262144)
        (Reachable.create demoFixed_ok)
        ⟨by decide, by decide, Or.inr ⟨by decide, by decide, by decide⟩⟩ rfl)
      rfl _ rfl⟩

theorem rd_some_of_keys {m m1 : Machine} (hk : m1.heap.keys = m.heap.keys) {q : Nat}
    {b1 : Arena} (h : m1.heap.rd q = some b1) : ∃ b, m.heap.rd q = some b := by
  have : q ∈ m.heap.keys := hk ▸ mem_keys_of_rd h
  rw [← rd_isSome_iff] at this
  cases hb : m.heap.rd q with
  | none => rw [hb] at this; cases this
  | some b => exact ⟨b, rfl⟩

theorem committedTo_base (pg : Nat) (c : Arena) (n : Nat) :
    (committedTo pg c n).base = c.base ∧ (committedTo pg c n).capacity = c.capacity := by
  unfold committedTo
  split <;> exact ⟨rfl, rfl⟩

theorem chainedHdr_base (pg : Nat) (nb0 : Arena) (p : Nat) (c : Arena) (size align : Nat) :
    (chainedHdr pg nb0 p c size align).base = nb0.base ∧
      (chainedHdr pg nb0 p c size align).capacity = nb0.capacity := by
  unfold chainedHdr bumped
  obtain ⟨h1, h2⟩ := committedTo_base pg (linked nb0 p c align)
    (needed (linked nb0 p c align) size)
  exact ⟨h1, h2⟩

/-- A push that returns keeps `base` and `capacity` of every block. -/
theorem push_origin {pg : Nat} {m m1 : Machine} {arena size align r res : Nat} {a : Arena}
    {chain free : List Nat}
    (hwf : WF m arena a chain free) (hda : arena ∉ m.dark) (hdc : a.curr ∉ m.dark)
    (hr : r = MAP_FAILED ∨ mmapFresh m r)
    (h : arena_push pg m arena size align r = .ok (res, m1)) :
    ∀ q b1, m1.heap.rd q = some b1 → Origin pg m q b1 := by
  have ha := hwf.head
  obtain ⟨c, hc⟩ := hwf.curr_mapped
  by_cases hn : needed (aligned c align) size ≤ c.capacity
  · rw [push_fit_spec ha hc hda hdc hn] at h
    have hm1 : m1 = _ := (Prod.mk.inj (Except.ok.inj h)).2.symm
    intro q b1 hb1
    rw [hm1] at hb1
    simp only [rd_wr, hc, Option.map_some'] at hb1
    left
    by_cases e : q = a.curr
    · rw [if_pos e] at hb1
      refine ⟨c, by rw [e]; exact hc, ?_⟩
      rw [← Option.some.inj hb1]
      obtain ⟨g1, g2⟩ := committedTo_base pg (aligned c align) (needed (aligned c align) size)
      exact ⟨g1, g2⟩
    · rw [if_neg e] at hb1
      exact ⟨b1, hb1, rfl, rfl⟩
  · have hn2 : needed (aligned c align) size > c.capacity := by omega
    by_cases hch : hasFlag a.flags ARENA_USE_CHAINING = true
    · rcases first_fit_split
        (fun y => ∃ b, m.heap.rd y = some b ∧ needed (aligned c align) size ≤ b.capacity) free
        with hmiss | ⟨l1, x, l2, hfree, hno, bx, hx, hcap⟩
      · have hmiss2 : ∀ y ∈ free, ∀ b, m.heap.rd y = some b →
            b.capacity < needed (aligned c align) size := by
          intro y hy b hb
          have := hmiss y hy
          simp only [not_exists, not_and] at this
          have := this b hb
          omega
        rcases hr with hr | hr
        · rw [hr, push_alloc_fail_spec hwf hc hda hdc hn2 hch hmiss2] at h
          cases h
        · obtain ⟨hF, hS⟩ := push_fresh_spec pg size align hwf hc hda hdc hn2 hch hmiss2 hr
          by_cases hg : (∀ y ∈ free, y ∉ m.dark) ∧
              r ∉ (allocated pg { m with heap := m.heap.wr a.curr (aligned c align) }
                (needed (aligned c align) size) (needed (aligned c align) size)
                (ARENA_USE_CHAINING ||| ARENA_USE_FREE_LIST) r).dark
          swap
          · rw [hF hg] at h
            cases h
          obtain ⟨m3, a3, hrun, hdk3, hdr3, hwf3, _, hr3, _, hk3, hframe⟩ := hS hg
          rw [hrun] at h
          have hm1 : m3 = m1 := (Prod.mk.inj (Except.ok.inj h)).2
          subst hm1
          intro q b1 hb1
          by_cases e : q = r
          · right
            subst e
            rw [hr3] at hb1
            rw [← Option.some.inj hb1]
            obtain ⟨g1, g2⟩ := chainedHdr_base pg
              (blockHdr pg (needed (aligned c align) size) (needed (aligned c align) size)
                (ARENA_USE_CHAINING ||| ARENA_USE_FREE_LIST) q) a.curr c size align
            exact ⟨(rd_eq_none_iff _ _).2 hr.2.2, g1, _, g2⟩
          · left
            have hq : q ∈ m.heap.keys := by
              have := mem_keys_of_rd hb1
              rw [hk3] at this
              rcases List.mem_cons.1 this with h1 | h1
              · exact absurd h1 e
              · exact h1
            rw [← rd_isSome_iff] at hq
            cases hb : m.heap.rd q with
            | none => rw [hb] at hq; cases hq
            | some b =>
              obtain ⟨b2, hb2, hg, _⟩ := hframe q e b hb
              rw [hb1] at hb2
              have := Option.some.inj hb2
              subst this
              exact ⟨b, rfl, hg.2.2.2.2.2.1, hg.2.2.1⟩
      · have hfl : hasFlag a.flags ARENA_USE_FREE_LIST = true := by
          by_contra hfl
          have := hwf.nofree (by simpa using hfl)
          rw [this] at hfree
          simp at hfree
        have hno2 : ∀ y ∈ l1, ∀ b, m.heap.rd y = some b →
            b.capacity < needed (aligned c align) size := by
          intro y hy b hb
          have := hno y hy
          simp only [not_exists, not_and] at this
          have := this b hb
          omega
        obtain ⟨hF, hS⟩ := push_hit_spec pg size align r hwf hc hda hdc hn2 hch hfl hfree hno2 hx hcap
        by_cases hg : (∀ y ∈ l1, y ∉ m.dark) ∧ x ∉ m.dark
        swap
        · rw [hF hg] at h
          cases h
        obtain ⟨m3, a3, hrun, hdk3, hwf3, _, hx3, _, hk3, hframe⟩ := hS hg
        rw [hrun] at h
        have hm1 : m3 = m1 := (Prod.mk.inj (Except.ok.inj h)).2
        subst hm1
        intro q b1 hb1
        left
        by_cases e : q = x
        · subst e
          rw [hx3] at hb1
          rw [← Option.some.inj hb1]
          obtain ⟨g1, g2⟩ := chainedHdr_base pg bx a.curr c size align
          exact ⟨bx, hx, g1, g2⟩
        · obtain ⟨b, hb⟩ := rd_some_of_keys hk3 hb1
          obtain ⟨b2, hb2, hg, _⟩ := hframe q e b hb
          rw [hb1] at hb2
          have := Option.some.inj hb2
          subst this
          exact ⟨b, hb, hg.2.2.2.2.2.1, hg.2.2.1⟩
    · have hch2 : hasFlag a.flags ARENA_USE_CHAINING = false := by simpa using hch
      rw [push_fail_spec ha hc hda hdc hn2 hch2] at h
      have hm1 : m1 = _ := (Prod.mk.inj (Except.ok.inj h)).2.symm
      intro q b1 hb1
      rw [hm1] at hb1
      simp only [rd_wr, hc, Option.map_some'] at hb1
      left
      by_cases e : q = a.curr
      · rw [if_pos e] at hb1
        refine ⟨c, by rw [e]; exact hc, ?_⟩
        rw [← Option.some.inj hb1]
        exact ⟨rfl, rfl⟩
      · rw [if_neg e] at hb1
        exact ⟨b1, hb1, rfl, rfl⟩

/-- A rollback that returns keeps `base` and `capacity` of every block it leaves mapped. -/
theorem pop_to_origin {pg : Nat} {m m1 : Machine} {arena pos : Nat} {a : Arena}
    {chain free : List Nat}
    (hwf : WF m arena a chain free) (hda : arena ∉ m.dark) (hdc : a.curr ∉ m.dark)
    (h : arena_pop_to pg m arena pos = .ok m1) :
    ∀ q b1, m1.heap.rd q = some b1 →
      ∃ b, m.heap.rd q = some b ∧ b1.base = b.base ∧ b1.capacity = b.capacity := by
  have ha := hwf.head
  obtain ⟨c, hc⟩ := hwf.curr_mapped
  by_cases hp : pos > u64add c.base_pos c.pos
  · rw [pop_to_reject_spec ha hc hda hdc hp] at h
    have : m = m1 := Except.ok.inj h
    subst this
    intro q b1 hb1
    exact ⟨b1, hb1, rfl, rfl⟩
  · have hp2 : pos ≤ u64add c.base_pos c.pos := by omega
    by_cases hch : hasFlag a.flags ARENA_USE_CHAINING = true
    · by_cases hfl : hasFlag a.flags ARENA_USE_FREE_LIST = true
      · rcases pop_to_recycle_spec pg hwf hch hfl hc hp2 with
          hF | ⟨l1, y, l2, b, m2, fl, _, hb, _, hret, hrun, hda2, hdy2, hy, hframe, _, _, hwf2⟩
        · rw [hF] at h
          cases h
        rw [hrun] at h
        have : m2 = m1 := Except.ok.inj h
        subst this
        intro q b1 hb1
        by_cases hq1 : q ∈ l1
        · obtain ⟨bq, nx, hbq, _, hq2⟩ := hret q hq1
          rw [hb1] at hq2
          rw [Option.some.inj hq2]
          exact ⟨bq, hbq, rfl, rfl⟩
        · by_cases hqy : q = y
          · subst hqy
            rw [hy] at hb1
            rw [← Option.some.inj hb1]
            by_cases e : q = arena
            · have hba : b = a := by
                rw [e, ha] at hb; exact (Option.some.inj hb).symm
              subst hba
              exact ⟨b, hb, by simp [e, popTarget], by simp [e, popTarget]⟩
            · exact ⟨b, hb, by simp [e, popTarget], by simp [e, popTarget]⟩
          · by_cases hqa : q = arena
            · subst hqa
              rw [hwf2.head] at hb1
              rw [← Option.some.inj hb1]
              have hyq : ¬ y = q := fun e => hqy e.symm
              exact ⟨a, ha, by simp [hyq], by simp [hyq]⟩
            · rw [hframe q hq1 hqa hqy] at hb1
              exact ⟨b1, hb1, rfl, rfl⟩
      · have hfl2 : hasFlag a.flags ARENA_USE_FREE_LIST = false := by simpa using hfl
        rcases pop_to_unmap_spec pg hwf hch hfl2 hc hp2 with
          hF | ⟨l1, y, l2, b, m2, _, hb, _, hret, hrun, hda2, hdy2, hmono2, hy, hframe, _, _, hwf2⟩
        · rw [hF] at h
          cases h
        rw [hrun] at h
        have : m2 = m1 := Except.ok.inj h
        subst this
        intro q b1 hb1
        by_cases hq1 : q ∈ l1
        · obtain ⟨bq, hbq, _, hq2⟩ := hret q hq1
          rw [hb1] at hq2
          cases hq2
        · by_cases hqy : q = y
          · subst hqy
            rw [hy] at hb1
            rw [← Option.some.inj hb1]
            by_cases e : q = arena
            · have hba : b = a := by
                rw [e, ha] at hb; exact (Option.some.inj hb).symm
              subst hba
              exact ⟨b, hb, by simp [e, popTarget], by simp [e, popTarget]⟩
            · exact ⟨b, hb, by simp [e, popTarget], by simp [e, popTarget]⟩
          · by_cases hqa : q = arena
            · subst hqa
              rw [hwf2.head] at hb1
              rw [← Option.some.inj hb1]
              have hyq : ¬ y = q := fun e => hqy e.symm
              exact ⟨a, ha, by simp [hyq], by simp [hyq]⟩
            · rw [hframe q hq1 hqa hqy] at hb1
              exact ⟨b1, hb1, rfl, rfl⟩
    · have hch2 : hasFlag a.flags ARENA_USE_CHAINING = false := by simpa using hch
      obtain ⟨hcurr, _, _⟩ := hwf.curr_eq_of_nochain hch2
      have hca : c = a := by
        rw [hcurr, ha] at hc
        exact (Option.some.inj hc).symm
      subst hca
      obtain ⟨hrun, hwf2⟩ := pop_to_nochain_spec pg hwf hda hch2 hp2
      rw [hrun] at h
      have hm1 : _ = m1 := Except.ok.inj h
      subst hm1
      intro q b1 hb1
      simp only [rd_wr, ha, Option.map_some'] at hb1
      by_cases e : q = arena
      · rw [if_pos e] at hb1
        rw [← Option.some.inj hb1]
        exact ⟨c, by rw [e]; exact ha, rfl, rfl⟩
      · rw [if_neg e] at hb1
        exact ⟨b1, hb1, rfl, rfl⟩

theorem step_origin {pg : Nat} {m m1 : Machine} {arena : Nat} {a : Arena}
    {chain free : List Nat} {op : Op}
    (hwf : WF m arena a chain free) (hda : arena ∉ m.dark) (hdc : a.curr ∉ m.dark)
    (hop : Op.ok m op)
    (h : step pg m arena op = .ok m1) :
    ∀ q b1, m1.heap.rd q = some b1 → Origin pg m q b1 := by
  cases op with
  | push size align r =>
    simp only [step, Except.map] at h
    split at h
    · cases h
    · rename_i x hx
      obtain ⟨res, m2⟩ := x
      have : m2 = m1 := Except.ok.inj h
      subst this
      exact push_origin hwf hda hdc hop.2.2 hx
  | pop_to pos => exact fun q b1 hb1 => Or.inl (pop_to_origin hwf hda hdc h q b1 hb1)
  | pop size =>
    obtain ⟨c, hc⟩ := hwf.curr_mapped
    simp only [step, arena_pop, load_ok hwf.head hda, load_ok hc hdc, bind, Except.bind] at h
    exact fun q b1 hb1 => Or.inl (pop_to_origin hwf hda hdc h q b1 hb1)
  | clear => exact fun q b1 hb1 => Or.inl (pop_to_origin hwf hda hdc h q b1 hb1)

/-- In every reachable state each block's `base` is its address plus the
header size, and its `capacity` is a size rounded by `ALIGN` to the page size. -/
theorem reachable_geom {s : Setup} {m : Machine} (h : Reachable s m) :
    ∀ q b, m.heap.rd q = some b →
      b.base = u64add q ARENA_HEADER_SIZE ∧ ∃ n, b.capacity = ALIGN n s.pg := by
  induction h with
  | create hs =>
    intro q b hb
    rw [(created_heap s hs).1] at hb
    simp only [Heap.rd] at hb
    split at hb
    · rename_i e
      rw [← Option.some.inj hb, ← e]
      exact ⟨rfl, _, rfl⟩
    · cases hb
  | after m m1 op hm hop hstep ih =>
    obtain ⟨a, chain, free, hwf, _, _, _, hda, hdc⟩ := reachable_live hm
    intro q b1 hb1
    rcases step_origin hwf hda hdc hop hstep q b1 hb1 with ⟨b, hb, g1, g2⟩ | ⟨_, g1, n, g2⟩
    · obtain ⟨i1, n, i2⟩ := ih q b hb
      exact ⟨g1.trans i1, n, g2.trans i2⟩
    · exact ⟨g1, n, g2⟩

theorem reachable_setup_ok {s : Setup} {m : Machine} (h : Reachable s m) : s.ok := by
  induction h with
  | create hs => exact hs
  | after _ _ _ _ _ _ ih => exact ih

theorem isPow2_le {b : Nat} (hb : isPow2 b) : 0 < b ∧ b ≤ 2 ^ 63 := by
  obtain ⟨k, hk, rfl⟩ := hb
  exact ⟨Nat.two_pow_pos k, Nat.pow_le_pow_right (by norm_num) (by omega)⟩

/-- The head of a reachable arena: mapped below `2 ^ 63`, header right in
front of `base`. -/
theorem reachable_head_bounds {s : Setup} {m : Machine} (h : Reachable s m) {a : Arena}
    (ha : m.heap.rd s.arena = some a) :
    a.base = s.arena + ARENA_HEADER_SIZE ∧ 0 < s.arena ∧ s.arena + a.capacity ≤ 2 ^ 63 := by
  obtain ⟨_, _, _, hne, hmap, _⟩ := reachable_setup_ok h
  obtain ⟨a0, chain, free, hwf, _, hcap, hbase⟩ := reachable_wf h
  have haa : a0 = a := by
    rw [hwf.head] at ha; exact Option.some.inj ha
  subst haa
  rcases hmap with hmap | ⟨⟨h0, _, _⟩, _, hle⟩
  · exact absurd hmap hne
  · have h0' : 0 < s.arena := Nat.pos_of_ne_zero h0
    rw [← hcap] at hle
    refine ⟨?_, h0', hle⟩
    rw [hbase, u64add_of_lt]
    rw [WORD_eq]
    unfold ARENA_HEADER_SIZE
    omega

theorem ALIGN_lt (a b : Nat) : ALIGN a b < WORD := by
  unfold ALIGN
  exact lt_of_le_of_lt Nat.and_le_left (u64sub_lt _ _)

theorem needed_eq_of_no_wrap {c : Arena} {size : Nat} (hb : c.base ≤ c.top)
    (ht : c.top < WORD) (h : (c.top - c.base) + ARENA_HEADER_SIZE + size < WORD) :
    needed c size = (c.top - c.base) + ARENA_HEADER_SIZE + size := by
  unfold needed
  have h1 : u64add (c.top - c.base) ARENA_HEADER_SIZE = (c.top - c.base) + ARENA_HEADER_SIZE :=
    u64add_of_lt (by omega)
  rw [u64sub_of_le hb ht, h1, u64add_of_lt h]

/-- C3 fails as stated: on the fresh single-block arena of capacity 4096,
`push(2 ^ 64 - 1, 1)` has `(aligned_top - base) + header_size + size`
far above the capacity, yet the 64-bit sum wraps to 87 and the push returns
the address 65624 instead of NULL. -/
theorem C3_counterexample :
    Reachable demoFixed demoFixed.created ∧
    (current demoFixed.created demoFixed.arena).map
        (fun c => (ALIGN c.top 1, c.base, c.capacity)) = some (65624, 65624, 4096) ∧
    (65624 - 65624) + ARENA_HEADER_SIZE + 18446744073709551615 > 4096 ∧
    (current demoFixed.created demoFixed.arena).map
        (fun c => needed (aligned c 1) 18446744073709551615) = some 87 ∧
    (arena_push demoFixed.pg demoFixed.created demoFixed.arena 18446744073709551615 1
        MAP_FAILED).map Prod.fst = .ok 65624 :=
  ⟨Reachable.create demoFixed_ok, rfl, by decide, rfl, rfl⟩

/-- C3 amended: for every arena created with chaining disabled, with
capacity `C = a.capacity`, and every push, with `t = ALIGN(top, align)`
(for a power-of-two `align` the least multiple of `align` not below `top`,
absent overflow) and `S = (t - base) + header_size + size`:
the push returns; when the code's 64-bit `needed_space` exceeds `C` it
returns NULL and leaves the logical size unchanged; when the computation
does not wrap (`base ≤ t` and `S < 2 ^ 64`), `needed_space = S` and the push
returns NULL if and only if `S > C`; and when `S = C` exactly it succeeds,
and a following push of one byte (any power-of-two alignment) returns NULL
and leaves the logical size unchanged. -/
theorem C3_capacity_boundary (s : Setup) (m : Machine) (hm : Reachable s m)
    (hflag : hasFlag (s.flags % 256) ARENA_USE_CHAINING = false)
    (a : Arena) (ha : m.heap.rd s.arena = some a)
    (size align r : Nat) (hal : isPow2 align) :
    (a.top + align ≤ WORD →
      align ∣ ALIGN a.top align ∧ a.top ≤ ALIGN a.top align ∧
        ∀ x, align ∣ x → a.top ≤ x → ALIGN a.top align ≤ x) ∧
    ∃ res m1, arena_push s.pg m s.arena size align r = .ok (res, m1) ∧
      (needed (aligned a align) size > a.capacity →
        res = NULL ∧ logical m1 s.arena = logical m s.arena) ∧
      (a.base ≤ ALIGN a.top align →
        (ALIGN a.top align - a.base) + ARENA_HEADER_SIZE + size < WORD →
        needed (aligned a align) size =
            (ALIGN a.top align - a.base) + ARENA_HEADER_SIZE + size ∧
          (res = NULL ↔
            (ALIGN a.top align - a.base) + ARENA_HEADER_SIZE + size > a.capacity)) ∧
      (a.base ≤ ALIGN a.top align →
        (ALIGN a.top align - a.base) + ARENA_HEADER_SIZE + size = a.capacity →
        res ≠ NULL ∧
          ∀ align2 r2, isPow2 align2 →
            ∃ m2, arena_push s.pg m1 s.arena 1 align2 r2 = .ok (NULL, m2) ∧
              logical m2 s.arena = logical m1 s.arena) := by
  constructor
  · intro h
    obtain ⟨h1, h2, _, h4⟩ := ALIGN_least hal h
    exact ⟨h1, h2, h4⟩
  obtain ⟨a0, chain, free, hwf, hfl, _, _, hda, hdc⟩ := reachable_live hm
  have haa : a0 = a := by
    rw [hwf.head] at ha; exact Option.some.inj ha
  subst haa
  have hch : hasFlag a0.flags ARENA_USE_CHAINING = false := by rw [hfl]; exact hflag
  obtain ⟨hcurr, _, _⟩ := hwf.curr_eq_of_nochain hch
  have hc : m.heap.rd a0.curr = some a0 := by rw [hcurr]; exact ha
  obtain ⟨hbase, harena0, hbound⟩ := reachable_head_bounds hm ha
  have htlt : ALIGN a0.top align < WORD := ALIGN_lt _ _
  have hW : WORD = 2 ^ 64 := rfl
  have hH : ARENA_HEADER_SIZE = 88 := rfl
  by_cases hn : needed (aligned a0 align) size ≤ a0.capacity
  · -- the push succeeds
    have hrun := @push_fit_spec s.pg m s.arena size align r a0 a0 ha hc hda hdc hn
    refine ⟨_, _, hrun, ?_, ?_, ?_⟩
    · intro h; omega
    · intro hb hS
      have hneed := @needed_eq_of_no_wrap (aligned a0 align) size hb htlt hS
      have hneed2 : needed (aligned a0 align) size =
          (ALIGN a0.top align - a0.base) + ARENA_HEADER_SIZE + size := hneed
      refine ⟨hneed2, ?_⟩
      constructor
      · intro h0
        have : ALIGN a0.top align = 0 := h0
        omega
      · intro h; omega
    · intro hb hS
      constructor
      · intro h0
        have : ALIGN a0.top align = 0 := h0
        omega
      · intro align2 r2 hal2
        -- the header after the successful push
        have hhdr : (m.heap.wr a0.curr (bumped (committedTo s.pg (aligned a0 align)
            (needed (aligned a0 align) size)) size)).rd s.arena =
            some (bumped (committedTo s.pg (aligned a0 align)
              (needed (aligned a0 align) size)) size) := by
          simp [rd_wr, hcurr, ha]
        have hcm := committedTo_base s.pg (aligned a0 align) (needed (aligned a0 align) size)
        have hct : (committedTo s.pg (aligned a0 align) (needed (aligned a0 align) size)).top =
            ALIGN a0.top align := by
          unfold committedTo; split <;> rfl
        have hcc : (committedTo s.pg (aligned a0 align) (needed (aligned a0 align) size)).curr =
            a0.curr := by
          unfold committedTo; split <;> rfl
        have hcf : (committedTo s.pg (aligned a0 align) (needed (aligned a0 align) size)).flags =
            a0.flags := by
          unfold committedTo; split <;> rfl
        have hcb : (committedTo s.pg (aligned a0 align)
            (needed (aligned a0 align) size)).base_pos = a0.base_pos := by
          unfold committedTo; split <;> rfl
        set a1 := bumped (committedTo s.pg (aligned a0 align)
            (needed (aligned a0 align) size)) size with ha1
        have h1curr : a1.curr = s.arena := by rw [ha1]; simp [bumped, hcc, hcurr]
        have h1base : a1.base = a0.base := by rw [ha1]; exact hcm.1
        have h1cap : a1.capacity = a0.capacity := by rw [ha1]; exact hcm.2
        have h1flags : a1.flags = a0.flags := by rw [ha1]; simp [bumped, hcf]
        have h1top : a1.top = u64add (ALIGN a0.top align) size := by
          rw [ha1]; simp [bumped, hct]
        have h1c : (m.heap.wr a0.curr a1).rd a1.curr = some a1 := by
          rw [h1curr]; exact hhdr
        -- the top after the push is the end of the block
        have htop1 : a1.top = s.arena + a0.capacity := by
          rw [h1top, u64add_of_lt (by omega)]
          omega
        have hp2 := isPow2_le hal2
        have hal2' : a1.top + align2 ≤ WORD := by omega
        obtain ⟨_, hle2, hlt2, _⟩ := ALIGN_least hal2 hal2'
        have hneed2 : needed (aligned a1 align2) 1 =
            (ALIGN a1.top align2 - a1.base) + ARENA_HEADER_SIZE + 1 := by
          apply needed_eq_of_no_wrap
          · show a1.base ≤ ALIGN a1.top align2
            omega
          · exact ALIGN_lt _ _
          · show (ALIGN a1.top align2 - a1.base) + ARENA_HEADER_SIZE + 1 < WORD
            omega
        have hfail : needed (aligned a1 align2) 1 > a1.capacity := by
          rw [hneed2]; omega
        have hdaD : s.arena ∉ (commitDark s.pg { m with heap := m.heap.wr a0.curr (aligned a0 align) }
            (aligned a0 align) (needed (aligned a0 align) size)) :=
          not_mem_commitDark hda
        have hrun2 := @push_fail_spec s.pg (Machine.mk (m.heap.wr a0.curr a1) (m.trace ++
          commitEvent (aligned a0 align) (needed (aligned a0 align) size))
          (commitDark s.pg { m with heap := m.heap.wr a0.curr (aligned a0 align) }
            (aligned a0 align) (needed (aligned a0 align) size))) s.arena 1 align2 r2
          a1 a1 hhdr h1c hdaD (by rw [h1curr]; exact hdaD) hfail (by rw [h1flags]; exact hch)
        refine ⟨_, hrun2, ?_⟩
        have hhdr2 : ((m.heap.wr a0.curr a1).wr a1.curr (aligned a1 align2)).rd s.arena =
            some (aligned a1 align2) := by
          simp [rd_wr, h1curr, hcurr, ha]
        have h2c : ((m.heap.wr a0.curr a1).wr a1.curr (aligned a1 align2)).rd
              (aligned a1 align2).curr = some (aligned a1 align2) := by
          have : (aligned a1 align2).curr = s.arena := h1curr
          rw [this]; exact hhdr2
        have e1 : logical (Machine.mk (m.heap.wr a0.curr a1) (m.trace ++
            commitEvent (aligned a0 align) (needed (aligned a0 align) size))
            (commitDark s.pg { m with heap := m.heap.wr a0.curr (aligned a0 align) }
            (aligned a0 align) (needed (aligned a0 align) size))) s.arena =
            some (u64add a1.base_pos a1.pos) := logical_eq hhdr h1c
        have e2 : logical (Machine.mk ((m.heap.wr a0.curr a1).wr a1.curr (aligned a1 align2))
            (m.trace ++ commitEvent (aligned a0 align) (needed (aligned a0 align) size))
            (commitDark s.pg { m with heap := m.heap.wr a0.curr (aligned a0 align) }
            (aligned a0 align) (needed (aligned a0 align) size)))
            s.arena = some (u64add (aligned a1 align2).base_pos (aligned a1 align2).pos) :=
          logical_eq hhdr2 h2c
        exact e2.trans e1.symm
  · -- the push fails
    have hn2 : needed (aligned a0 align) size > a0.capacity := by omega
    have hrun := @push_fail_spec s.pg m s.arena size align r a0 a0
      ha hc hda hdc hn2 hch
    have hhdr : (m.heap.wr a0.curr (aligned a0 align)).rd
        s.arena = some (aligned a0 align) := by
      simp [rd_wr, hcurr, ha]
    have hhc : (m.heap.wr a0.curr (aligned a0 align)).rd
        (aligned a0 align).curr = some (aligned a0 align) := by
      have : (aligned a0 align).curr = s.arena := hcurr
      rw [this]; exact hhdr
    refine ⟨_, _, hrun, ?_, ?_, ?_⟩
    · intro _
      refine ⟨rfl, ?_⟩
      have e1 : logical (Machine.mk (m.heap.wr a0.curr (aligned a0 align)) m.trace m.dark)
          s.arena =
          some (u64add (aligned a0 align).base_pos (aligned a0 align).pos) :=
        logical_eq hhdr hhc
      exact e1.trans (logical_eq ha hc).symm
    · intro hb hS
      have hneed := @needed_eq_of_no_wrap (aligned a0 align) size hb htlt hS
      have hneed2 : needed (aligned a0 align) size =
          (ALIGN a0.top align - a0.base) + ARENA_HEADER_SIZE + size := hneed
      refine ⟨hneed2, ?_⟩
      constructor
      · intro _; omega
      · intro _; rfl
    · intro hb hS
      have hS2 : (ALIGN a0.top align - a0.base) + ARENA_HEADER_SIZE + size < WORD := by
        have := reachable_head_bounds hm ha
        omega
      have hneed := @needed_eq_of_no_wrap (aligned a0 align) size hb htlt hS2
      have hneed2 : needed (aligned a0 align) size =
          (ALIGN a0.top align - a0.base) + ARENA_HEADER_SIZE + size := hneed
      omega

/-- C3 amended, at the fresh single-block arena of capacity 4096 and the push
of 4008 bytes, which with the 88-byte header fills the block exactly. -/
theorem C3_witness :
    Reachable demoFixed demoFixed.created ∧
    hasFlag (demoFixed.flags % 256) ARENA_USE_CHAINING = false ∧
    demoFixed.created.heap.rd demoFixed.arena = some (blockHdr 4096 4096 4096 0 65536) ∧
    (ALIGN (blockHdr 4096 4096 4096 0 65536).top 8 -
        (blockHdr 4096 4096 4096 0 65536).base) + ARENA_HEADER_SIZE + 4008 =
      (blockHdr 4096 4096 4096 0 65536).capacity ∧
    ((blockHdr 4096 4096 4096 0 65536).top + 8 ≤ WORD →
      8 ∣ ALIGN (blockHdr 4096 4096 4096 0 65536).top 8 ∧
        (blockHdr 4096 4096 4096 0 65536).top ≤ ALIGN (blockHdr 4096 4096 4096 0 65536).top 8 ∧
        ∀ x, 8 ∣ x → (blockHdr 4096 4096 4096 0 65536).top ≤ x →
          ALIGN (blockHdr 4096 4096 4096 0 65536).top 8 ≤ x) ∧
    ∃ res m1, arena_push demoFixed.pg demoFixed.created demoFixed.arena 4008 8 MAP_FAILED =
        .ok (res, m1) ∧
      (needed (aligned (blockHdr 4096 4096 4096 0 65536) 8) 4008 >
          (blockHdr 4096 4096 4096 0 65536).capacity →
        res = NULL ∧ logical m1 demoFixed.arena = logical demoFixed.created demoFixed.arena) ∧
      ((blockHdr 4096 4096 4096 0 65536).base ≤ ALIGN (blockHdr 4096 4096 4096 0 65536).top 8 →
        (ALIGN (blockHdr 4096 4096 4096 0 65536).top 8 -
            (blockHdr 4096 4096 4096 0 65536).base) + ARENA_HEADER_SIZE + 4008 < WORD →
        needed (aligned (blockHdr 4096 4096 4096 0 65536) 8) 4008 =
            (ALIGN (blockHdr 4096 4096 4096 0 65536).top 8 -
              (blockHdr 4096 4096 4096 0 65536).base) + ARENA_HEADER_SIZE + 4008 ∧
          (res = NULL ↔
            (ALIGN (blockHdr 4096 4096 4096 0 65536).top 8 -
                (blockHdr 4096 4096 4096 0 65536).base) + ARENA_HEADER_SIZE + 4008 >
              (blockHdr 4096 4096 4096 0 65536).capacity)) ∧
      ((blockHdr 4096 4096 4096 0 65536).base ≤ ALIGN (blockHdr 4096 4096 4096 0 65536).top 8 →
        (ALIGN (blockHdr 4096 4096 4096 0 65536).top 8 -
            (blockHdr 4096 4096 4096 0 65536).base) + ARENA_HEADER_SIZE + 4008 =
          (blockHdr 4096 4096 4096 0 65536).capacity →
        res ≠ NULL ∧
          ∀ align2 r2, isPow2 align2 →
            ∃ m2, arena_push demoFixed.pg m1 demoFixed.arena 1 align2 r2 = .ok (NULL, m2) ∧
              logical m2 demoFixed.arena = logical m1 demoFixed.arena) :=
  ⟨Reachable.create demoFixed_ok, rfl, rfl, rfl,
    C3_capacity_boundary demoFixed demoFixed.created (Reachable.create demoFixed_ok) rfl
      (blockHdr 4096 4096 4096 0 65536) rfl 4008 8 MAP_FAILED ⟨3, by decide, rfl⟩⟩

theorem exceeded_eq {m : Machine} {arena size align : Nat} {a c : Arena}
    (ha : m.heap.rd arena = some a) (hc : m.heap.rd a.curr = some c) :
    exceeded m arena size align =
      (decide (needed (aligned c align) size > c.capacity) &&
        !(hasFlag a.flags ARENA_USE_CHAINING)) := by
  simp [exceeded, ha, hc]

theorem committedTo_fields (pg : Nat) (c : Arena) (n : Nat) :
    (committedTo pg c n).top = c.top ∧ (committedTo pg c n).base_pos = c.base_pos ∧
      (committedTo pg c n).curr = c.curr := by
  unfold committedTo
  split <;> exact ⟨rfl, rfl, rfl⟩

/-- What a push that does not take the failure exit does to the current
block: the block `a1.curr` that receives the allocation has its prior `top`
aligned and returned, `top` and `pos` advanced, and `base_pos` equal to the
logical size at which the block was entered. -/
theorem push_curr_spec {pg : Nat} {m m1 : Machine} {arena size align r res : Nat}
    {a : Arena} {chain free : List Nat}
    (hwf : WF m arena a chain free) (hda : arena ∉ m.dark) (hdc : a.curr ∉ m.dark)
    (hr : r = MAP_FAILED ∨ mmapFresh m r)
    (h : arena_push pg m arena size align r = .ok (res, m1))
    (hex : exceeded m arena size align = false) :
    ∃ a1 c1 bp p0, m1.heap.rd arena = some a1 ∧ m1.heap.rd a1.curr = some c1 ∧
      res = ALIGN (priorTop m a1.curr) align ∧
      c1.top = u64add res size ∧ c1.pos = u64sub c1.top c1.base ∧
      c1.base_pos = bp ∧
      logical m arena = some (u64add bp p0) := by
  have ha := hwf.head
  obtain ⟨c, hc⟩ := hwf.curr_mapped
  have hab : a.curr = arena → c = a := by
    intro e
    rw [e, ha] at hc
    exact (Option.some.inj hc).symm
  rw [exceeded_eq ha hc] at hex
  have hL : logical m arena = some (u64add c.base_pos c.pos) := logical_eq ha hc
  by_cases hn : needed (aligned c align) size ≤ c.capacity
  · -- the allocation fits the current block
    rw [push_fit_spec ha hc hda hdc hn] at h
    have hres : ALIGN c.top align = res := (Prod.mk.inj (Except.ok.inj h)).1
    have hm1 : m1 = _ := (Prod.mk.inj (Except.ok.inj h)).2.symm
    have hw := hwf.update m1 a.curr
      (bumped (committedTo pg (aligned c align) (needed (aligned c align) size)) size)
      hwf.curr_mem hc
      (sameLinks_trans (aligned_sameLinks c align)
        (sameLinks_trans (committedTo_sameLinks pg _ _) (bumped_sameLinks _ _)))
      (by rw [hm1])
    obtain ⟨f1, f2, f3⟩ := committedTo_fields pg (aligned c align) (needed (aligned c align) size)
    obtain ⟨g1, _⟩ := committedTo_base pg (aligned c align) (needed (aligned c align) size)
    have hcurr1 : (if a.curr = arena then
        bumped (committedTo pg (aligned c align) (needed (aligned c align) size)) size
        else a).curr = a.curr := by
      by_cases e : a.curr = arena
      · have := hab e
        subst this
        simp only [e, if_true]
        show (committedTo pg (aligned c align) (needed (aligned c align) size)).curr = arena
        rw [f3]; exact e
      · simp [e]
    have hrd1 : m1.heap.rd a.curr = some
        (bumped (committedTo pg (aligned c align) (needed (aligned c align) size)) size) := by
      rw [hm1]; simp [rd_wr, hc]
    refine ⟨_, bumped (committedTo pg (aligned c align) (needed (aligned c align) size)) size,
      c.base_pos, c.pos, hw.head, ?_, ?_, ?_, ?_, ?_, hL⟩
    · rw [hcurr1]; exact hrd1
    · rw [hcurr1]; simp [priorTop, hc, hres]
    · show u64add (committedTo pg (aligned c align) (needed (aligned c align) size)).top size = _
      rw [f1, ← hres]; rfl
    · rfl
    · show (committedTo pg (aligned c align) (needed (aligned c align) size)).base_pos = _
      rw [f2]; rfl
  · have hn2 : needed (aligned c align) size > c.capacity := by omega
    have hch : hasFlag a.flags ARENA_USE_CHAINING = true := by
      simpa [hn2] using hex
    have hL0 : u64add (u64add c.base_pos c.pos) 0 = u64add c.base_pos c.pos :=
      u64add_zero (u64add_lt _ _)
    rcases first_fit_split
      (fun y => ∃ b, m.heap.rd y = some b ∧ needed (aligned c align) size ≤ b.capacity) free
      with hmiss | ⟨l1, x, l2, hfree, hno, bx, hx, hcap⟩
    · have hmiss2 : ∀ y ∈ free, ∀ b, m.heap.rd y = some b →
          b.capacity < needed (aligned c align) size := by
        intro y hy b hb
        have := hmiss y hy
        simp only [not_exists, not_and] at this
        have := this b hb
        omega
      rcases hr with hr | hr
      · rw [hr, push_alloc_fail_spec hwf hc hda hdc hn2 hch hmiss2] at h
        cases h
      · obtain ⟨hF, hS⟩ := push_fresh_spec pg size align hwf hc hda hdc hn2 hch hmiss2 hr
        by_cases hg : (∀ y ∈ free, y ∉ m.dark) ∧
            r ∉ (allocated pg { m with heap := m.heap.wr a.curr (aligned c align) }
              (needed (aligned c align) size) (needed (aligned c align) size)
              (ARENA_USE_CHAINING ||| ARENA_USE_FREE_LIST) r).dark
        swap
        · rw [hF hg] at h
          cases h
        obtain ⟨m3, a3, hrun, hdk3, hdr3, hwf3, hcurr3, hrd3, _, _, _⟩ := hS hg
        rw [hrun] at h
        have hres : ALIGN (u64add r ARENA_HEADER_SIZE) align = res :=
          (Prod.mk.inj (Except.ok.inj h)).1
        have hm1 : m3 = m1 := (Prod.mk.inj (Except.ok.inj h)).2
        subst hm1
        have hnone : m.heap.rd r = none := (rd_eq_none_iff _ _).2 hr.2.2
        obtain ⟨f1, f2, _⟩ := committedTo_fields pg
          (linked (blockHdr pg (needed (aligned c align) size) (needed (aligned c align) size)
            (ARENA_USE_CHAINING ||| ARENA_USE_FREE_LIST) r) a.curr c align)
          (needed (linked (blockHdr pg (needed (aligned c align) size)
            (needed (aligned c align) size) (ARENA_USE_CHAINING ||| ARENA_USE_FREE_LIST) r)
            a.curr c align) size)
        obtain ⟨g1, _⟩ := chainedHdr_base pg
          (blockHdr pg (needed (aligned c align) size) (needed (aligned c align) size)
            (ARENA_USE_CHAINING ||| ARENA_USE_FREE_LIST) r) a.curr c size align
        refine ⟨a3, chainedHdr pg
          (blockHdr pg (needed (aligned c align) size) (needed (aligned c align) size)
            (ARENA_USE_CHAINING ||| ARENA_USE_FREE_LIST) r) a.curr c size align,
          u64add c.base_pos c.pos, 0, hwf3.head, ?_, ?_, ?_, ?_, ?_, ?_⟩
        · rw [hcurr3]; exact hrd3
        · rw [hcurr3]; simp [priorTop, hnone, hres]
        · show u64add (committedTo pg _ _).top size = _
          rw [f1, ← hres]; rfl
        · rfl
        · show (committedTo pg _ _).base_pos = _
          rw [f2]; rfl
        · rw [hL0]; exact hL
    · have hfl : hasFlag a.flags ARENA_USE_FREE_LIST = true := by
        by_contra hfl
        have := hwf.nofree (by simpa using hfl)
        rw [this] at hfree
        simp at hfree
      have hno2 : ∀ y ∈ l1, ∀ b, m.heap.rd y = some b →
          b.capacity < needed (aligned c align) size := by
        intro y hy b hb
        have := hno y hy
        simp only [not_exists, not_and] at this
        have := this b hb
        omega
      obtain ⟨hF, hS⟩ := push_hit_spec pg size align r hwf hc hda hdc hn2 hch hfl hfree hno2 hx hcap
      by_cases hg : (∀ y ∈ l1, y ∉ m.dark) ∧ x ∉ m.dark
      swap
      · rw [hF hg] at h
        cases h
      obtain ⟨m3, a3, hrun, hdk3, hwf3, hcurr3, hrd3, _, _, _⟩ := hS hg
      rw [hrun] at h
      have hres : ALIGN bx.top align = res := (Prod.mk.inj (Except.ok.inj h)).1
      have hm1 : m3 = m1 := (Prod.mk.inj (Except.ok.inj h)).2
      subst hm1
      have hxfree : x ∈ free := by rw [hfree]; simp
      obtain ⟨hpos, htop⟩ := hwf.free_reset x hxfree bx hx
      obtain ⟨f1, f2, _⟩ := committedTo_fields pg (linked bx a.curr c align)
        (needed (linked bx a.curr c align) size)
      obtain ⟨g1, _⟩ := chainedHdr_base pg bx a.curr c size align
      refine ⟨a3, chainedHdr pg bx a.curr c size align,
        u64add c.base_pos c.pos, 0, hwf3.head, ?_, ?_, ?_, ?_, ?_, ?_⟩
      · rw [hcurr3]; exact hrd3
      · rw [hcurr3]; simp [priorTop, hx, hres]
      · show u64add (committedTo pg _ _).top size = _
        rw [f1, ← hres]; rfl
      · rfl
      · show (committedTo pg _ _).base_pos = _
        rw [f2]; rfl
      · rw [hL0]; exact hL

/-- C6: for every reachable arena and every push with a power-of-two `align`
that does not take the failure exit (in particular every push that returns a
non-null address): the returned address is `ALIGN` of the prior `top` of the
block that receives the allocation (the block that is current afterwards; a
block mapped by this call starts with `top` right after its header), and,
when `prior top + align` does not exceed `2 ^ 64`, it is a multiple of `align`,
not below the prior `top`, and the least such multiple; afterwards the current
block has `top = returned address + size` and `pos = top - base` (64-bit). -/
theorem C6_push_returns_aligned_top (s : Setup) (m : Machine) (hm : Reachable s m)
    (size align r : Nat) (hal : isPow2 align) (hr : r = MAP_FAILED ∨ mmapFresh m r)
    (res : Nat) (m1 : Machine)
    (h : arena_push s.pg m s.arena size align r = .ok (res, m1))
    (hsucc : res ≠ NULL ∨ exceeded m s.arena size align = false) :
    exceeded m s.arena size align = false ∧
    ∃ a1 c1, m1.heap.rd s.arena = some a1 ∧ m1.heap.rd a1.curr = some c1 ∧
      res = ALIGN (priorTop m a1.curr) align ∧
      (priorTop m a1.curr + align ≤ WORD →
        align ∣ res ∧ priorTop m a1.curr ≤ res ∧
          ∀ x, align ∣ x → priorTop m a1.curr ≤ x → res ≤ x) ∧
      c1.top = u64add res size ∧ c1.pos = u64sub c1.top c1.base := by
  obtain ⟨a, chain, free, hwf, _, _, _, hda, hdc⟩ := reachable_live hm
  have hex : exceeded m s.arena size align = false := by
    rcases hsucc with hne | hex
    · by_contra hex
      have ha := hwf.head
      obtain ⟨c, hc⟩ := hwf.curr_mapped
      rw [exceeded_eq ha hc] at hex
      have hex2 : needed (aligned c align) size > c.capacity ∧
          hasFlag a.flags ARENA_USE_CHAINING = false := by
        simpa using hex
      rw [push_fail_spec ha hc hda hdc hex2.1 hex2.2] at h
      exact hne (Prod.mk.inj (Except.ok.inj h)).1.symm
    · exact hex
  refine ⟨hex, ?_⟩
  obtain ⟨a1, c1, bp, p0, h1, h2, h3, h4, h5, _, _⟩ := push_curr_spec hwf hda hdc hr h hex
  refine ⟨a1, c1, h1, h2, h3, ?_, h4, h5⟩
  intro hov
  obtain ⟨k1, k2, _, k4⟩ := ALIGN_least hal hov
  rw [h3]
  exact ⟨k1, k2, k4⟩

/-- C6 at the push that chains a new block: in the 64 KiB arena after
`push(100, 8)`, `push(70000, 8)` receives a block mapped at 262144. -/
theorem C6_witness :
    exceeded (demo.after [Op.push 100 8 262144]) demo.arena 70000 8 = false ∧
    ∃ a1 c1,
      (demo.after [Op.push 100 8 262144, Op.push 70000 8 262144]).heap.rd demo.arena =
        some a1 ∧
      (demo.after [Op.push 100 8 262144, Op.push 70000 8 262144]).heap.rd a1.curr = some c1 ∧
      262232 = ALIGN (priorTop (demo.after [Op.push 100 8 262144]) a1.curr) 8 ∧
      (priorTop (demo.after [Op.push 100 8 262144]) a1.curr + 8 ≤ WORD →
        8 ∣ 262232 ∧ priorTop (demo.after [Op.push 100 8 262144]) a1.curr ≤ 262232 ∧
          ∀ x, 8 ∣ x → priorTop (demo.after [Op.push 100 8 262144]) a1.curr ≤ x →
            262232 ≤ x) ∧
      c1.top = u64add 262232 70000 ∧ c1.pos = u64sub c1.top c1.base :=
  C6_push_returns_aligned_top demo (demo.after [Op.push 100 8 262144])
    (Reachable.after demo.created _ (Op.push 100 8 262144) (Reachable.create demo_ok)
      ⟨by decide, by decide, Or.inr ⟨by decide, by decide, by decide⟩⟩ rfl)
    70000 8 262144 ⟨3, by decide, rfl⟩ (Or.inr ⟨by decide, by decide, by decide⟩)
    262232 (demo.after [Op.push 100 8 262144, Op.push 70000 8 262144]) rfl
    (Or.inl (by decide))

theorem WF_unique {m : Machine} {arena : Nat} {a a1 : Arena} {chain chain1 free free1 : List Nat}
    (h : WF m arena a chain free) (h1 : WF m arena a1 chain1 free1) :
    a = a1 ∧ chain = chain1 ∧ free = free1 := by
  have e : a = a1 := by
    have := h.head
    rw [h1.head] at this
    exact (Option.some.inj this).symm
  subst e
  exact ⟨rfl, LL_unique _ _ _ h.chain_ll h1.chain_ll, LL_unique _ _ _ h.free_ll h1.free_ll⟩

theorem demoOddPage_ok : demoOddPage.ok :=
  ⟨by decide, by decide, by decide, by decide,
    Or.inr ⟨⟨by decide, by decide, by decide⟩, by decide, by decide⟩, rfl⟩

/-- C4, at a failing input: on the single-block arena (4 KiB, no chaining)
after `push(1, 1)`, the call `push(5000, 8)` fails with NULL, yet it moves
`top` of the current block from 65625 to 65632 while `pos` stays 1: the state
after the failed call is not the state before it. -/
theorem C4_failed_push_moves_top :
    Reachable demoFixed (demoFixed.after [Op.push 1 1 MAP_FAILED]) ∧
    (arena_push demoFixed.pg (demoFixed.after [Op.push 1 1 MAP_FAILED]) demoFixed.arena
        5000 8 MAP_FAILED).map Prod.fst = .ok NULL ∧
    (arena_push demoFixed.pg (demoFixed.after [Op.push 1 1 MAP_FAILED]) demoFixed.arena
        5000 8 MAP_FAILED).map Prod.snd =
      .ok (demoFixed.after [Op.push 1 1 MAP_FAILED, Op.push 5000 8 MAP_FAILED]) ∧
    (current (demoFixed.after [Op.push 1 1 MAP_FAILED]) demoFixed.arena).map
        (fun c => (c.top, c.pos)) = some (65625, 1) ∧
    (current (demoFixed.after [Op.push 1 1 MAP_FAILED, Op.push 5000 8 MAP_FAILED])
        demoFixed.arena).map (fun c => (c.top, c.pos)) = some (65632, 1) :=
  ⟨Reachable.after demoFixed.created _ (Op.push 1 1 MAP_FAILED)
      (Reachable.create demoFixed_ok) ⟨by decide, by decide, Or.inl rfl⟩ rfl,
    rfl, rfl, rfl, rfl⟩

/-- C10, at a failing input: in the 64 KiB arena, `push(100, 8)`,
`push(70000, 8)` and `clear` leave one block on the free list; then
`arena_release` unmaps that block and reads its `next` field afterwards
(line 61), a memory fault.  Released before the `clear` (empty free list),
the same arena is unmapped block by block and nothing stays mapped. -/
theorem C10_release_faults_on_free_list :
    Reachable demo (demo.after [Op.push 100 8 262144, Op.push 70000 8 262144, Op.clear]) ∧
    ((demo.after [Op.push 100 8 262144, Op.push 70000 8 262144, Op.clear]).heap.rd
        demo.arena).map Arena.free_list = some 262144 ∧
    arena_release (demo.after [Op.push 100 8 262144, Op.push 70000 8 262144, Op.clear])
        demo.arena = .error .fault ∧
    (arena_release (demo.after [Op.push 100 8 262144, Op.push 70000 8 262144])
        demo.arena).map Machine.heap = .ok [] :=
  ⟨Reachable.after _ _ Op.clear
      (Reachable.after _ _ (Op.push 70000 8 262144)
        (Reachable.after demo.created _ (Op.push 100 8 262144) (Reachable.create demo_ok)
          ⟨by decide, by decide, Or.inr ⟨by decide, by decide, by decide⟩⟩ rfl)
        ⟨by decide, by decide, Or.inr ⟨by decide, by decide, by decide⟩⟩ rfl)
      trivial rfl,
    rfl, rfl, rfl⟩

/-- C13, the divergence in general: in every reachable arena with chaining
enabled, a push whose need exceeds the capacity of the current block while
no block of the free list is large enough, and whose reservation the backend
refuses (`mmap` returns `MAP_FAILED`), does not return to the caller: after
`_arena_alloc` returned NULL, line 114 stores through `new_block`, a null
pointer. -/
theorem C13_failed_reservation_faults (s : Setup) (m : Machine) (hm : Reachable s m)
    (hch : hasFlag (s.flags % 256) ARENA_USE_CHAINING = true)
    (size align : Nat) (c : Arena) (hc : current m s.arena = some c)
    (hn : needed (aligned c align) size > c.capacity)
    (hmiss : ∀ a chain free, WF m s.arena a chain free →
      ∀ y ∈ free, ∀ b, m.heap.rd y = some b → b.capacity < needed (aligned c align) size) :
    arena_push s.pg m s.arena size align MAP_FAILED = .error .fault := by
  obtain ⟨a, chain, free, hwf, hfl, _, _, hda, hdc⟩ := reachable_live hm
  have hc2 : m.heap.rd a.curr = some c := by
    simpa [current, hwf.head] using hc
  exact push_alloc_fail_spec hwf hc2 hda hdc hn (by rw [hfl]; exact hch)
    (hmiss a chain free hwf)

/-- C13 at a failing input: on the fresh 64 KiB arena, `push(70000, 8)` with a
refused reservation. -/
theorem C13_witness :
    arena_push demo.pg demo.created demo.arena 70000 8 MAP_FAILED = .error .fault :=
  C13_failed_reservation_faults demo demo.created (Reachable.create demo_ok) rfl
    70000 8 (blockHdr 4096 65536 4096 3 65536) rfl (by decide)
    (fun a chain free hwf y hy =>
      absurd hy (by rw [(WF_unique hwf (WF_created demo demo_ok)).2.2]; exact List.not_mem_nil y))

/-- C19, at a failing input: the one-page arena mapped at 69632 (header 88
≤ commit 4096 ≤ reserve 4096), `push(100, 8192)`: the need computed against
the head block is 4196, so a block of capacity 8192 is mapped at the
page-aligned address 262144; in that block the aligned `top` is 270336, the
end of the reservation, and the push returns 270336 with `pos = 8204` and
`committed = 12288`: `header_size + pos` and `committed` both exceed the
capacity, and the returned range lies outside the block. -/
theorem C19_push_leaves_block :
    Reachable demoOddPage demoOddPage.created ∧
    ARENA_HEADER_SIZE ≤ demoOddPage.commit_size ∧
    demoOddPage.commit_size ≤ demoOddPage.reserve_size ∧
    isPow2 8192 ∧ 262144 % 4096 = 0 ∧ mmapFresh demoOddPage.created 262144 ∧
    (arena_push demoOddPage.pg demoOddPage.created demoOddPage.arena 100 8192 262144).map
        Prod.fst = .ok 270336 ∧
    (arena_push demoOddPage.pg demoOddPage.created demoOddPage.arena 100 8192 262144).map
        Prod.snd = .ok (demoOddPage.after [Op.push 100 8192 262144]) ∧
    ((demoOddPage.after [Op.push 100 8192 262144]).heap.rd demoOddPage.arena).map Arena.curr =
      some 262144 ∧
    ((demoOddPage.after [Op.push 100 8192 262144]).heap.rd 262144).map
        (fun b => (b.capacity, b.committed, b.pos, b.base, b.top)) =
      some (8192, 12288, 8204, 262232, 270436) ∧
    ¬ (ARENA_HEADER_SIZE + 8204 ≤ 12288 ∧ 12288 ≤ 8192) ∧
    ¬ (270336 + 100 ≤ 262144 + 8192) ∧ 262144 + 8192 ≤ 270336 :=
  ⟨Reachable.create demoOddPage_ok, by decide, by decide, ⟨13, by decide, rfl⟩, by decide,
    ⟨by decide, by decide, by decide⟩, rfl, rfl, rfl, rfl, by decide, by decide, by decide⟩

/-- C20, at a failing input: in the 64 KiB arena, `push(100, 8)`,
`push(70000, 8)` map a block of capacity 73728 at 262144, and `clear` retires
it; the decommit request issued starts at `262144 + 88 * 4096 = 622592`
(the pointer `curr` is advanced by `ALIGN(header_size, page)` headers), not at
`262144 + 4096`, with length `73728 - 88`: the range lies entirely outside the
reservation `[262144, 335872)`. -/
theorem C20_decommit_outside_block :
    Reachable demo (demo.after [Op.push 100 8 262144, Op.push 70000 8 262144, Op.clear]) ∧
    ((demo.after [Op.push 100 8 262144, Op.push 70000 8 262144]).heap.rd 262144).map
        Arena.capacity = some 73728 ∧
    ((demo.after [Op.push 100 8 262144, Op.push 70000 8 262144, Op.clear]).heap.rd
        demo.arena).map Arena.free_list = some 262144 ∧
    (demo.after [Op.push 100 8 262144, Op.push 70000 8 262144, Op.clear]).trace =
      (demo.after [Op.push 100 8 262144, Op.push 70000 8 262144]).trace ++
        [Event.decommit 622592 73640] ∧
    622592 = 262144 + ARENA_HEADER_SIZE * ALIGN ARENA_HEADER_SIZE demo.pg ∧
    622592 ≠ 262144 + ALIGN ARENA_HEADER_SIZE demo.pg ∧
    262144 + 73728 ≤ 622592 :=
  ⟨Reachable.after _ _ Op.clear
      (Reachable.after _ _ (Op.push 70000 8 262144)
        (Reachable.after demo.created _ (Op.push 100 8 262144) (Reachable.create demo_ok)
          ⟨by decide, by decide, Or.inr ⟨by decide, by decide, by decide⟩⟩ rfl)
        ⟨by decide, by decide, Or.inr ⟨by decide, by decide, by decide⟩⟩ rfl)
      trivial rfl,
    rfl, rfl, rfl, by decide, by decide, by decide⟩

/-! ## Committing a new mapping -/

theorem reach_ge : ∀ (fuel : Nat) (h : Heap) (t stop : Nat), min t stop ≤ reach fuel h t stop
  | 0, _, t, stop => by
    simp only [reach]
    exact Nat.min_le_left _ _
  | fuel + 1, h, t, stop => by
    simp only [reach]
    split
    · exact Nat.min_le_right _ _
    · split
      · rename_i e he
        have hp := List.find?_some he
        simp only [decide_eq_true_eq] at hp
        have ih := reach_ge fuel h (e.1 + e.2.capacity) stop
        have : min t stop ≤ min (e.1 + e.2.capacity) stop := by
          simp only [Nat.le_min]
          constructor
          · exact le_trans (Nat.min_le_left _ _) (Nat.le_of_lt hp.2)
          · exact Nat.min_le_right _ _
        exact le_trans this ih
      · exact Nat.min_le_left _ _

theorem ALIGN_idem {pg x : Nat} (hpg : isPow2 pg) (hd : pg ∣ x) (h : x + pg ≤ WORD) :
    ALIGN x pg = x := by
  obtain ⟨h1, h2, _, h4⟩ := ALIGN_least hpg h
  exact Nat.le_antisymm (h4 x hd (Nat.le_refl _)) h2

theorem reach_cons_self (fuel : Nat) (h : Heap) (r stop : Nat) (b : Arena)
    (hs : r < stop) (hc : 0 < b.capacity) :
    r < reach (fuel + 1) ((r, b) :: h) r stop := by
  rw [reach]
  have hs2 : ¬ stop ≤ r := Nat.not_le.2 hs
  have hd : decide (r ≤ r ∧ r < r + b.capacity) = true := by
    simp only [decide_eq_true_eq]
    omega
  simp only [hs2, if_false, List.find?_cons, hd]
  have hge := reach_ge fuel ((r, b) :: h) (r + b.capacity) stop
  have : r < min (r + b.capacity) stop := by
    simp only [Nat.lt_min]
    omega
  omega

/-- The commit of line 37 reaches the header of the new mapping when the
mapping starts on a page boundary, is not empty, and the rounded commit size
is positive and does not wrap. -/
theorem allocated_light {pg : Nat} {m : Machine} {reserve_size commit_size flags r : Nat}
    (hr : r ≠ MAP_FAILED) (hpg : r % pg = 0) (hcap : 0 < ALIGN reserve_size pg)
    (hlen : ALIGN commit_size pg ≠ 0)
    (hw : r < u64add r (ALIGN (ALIGN commit_size pg) pg)) :
    r ∉ (allocated pg m reserve_size commit_size flags r).dark := by
  have hw2 : ¬ u64add r (ALIGN (ALIGN commit_size pg) pg) ≤ r := Nat.not_le.2 hw
  simp only [allocated, commit, emit, mprotect, hpg, hlen, hw2, ne_eq, not_true_eq_false,
    or_self, if_false, if_true, reserve, hr]
  intro hmem
  have hf := (List.mem_filter.1 hmem).2
  simp only [decide_eq_true_eq, not_and, Nat.le_refl, true_implies, not_lt] at hf
  have := reach_cons_self (m.heap.length + 1) m.heap r
    (u64add r (ALIGN (ALIGN commit_size pg) pg)) (blockHdr pg reserve_size commit_size flags r)
    hw hcap
  simp only [List.length_cons] at hf
  omega

/-- The stores of lines 38-49 fault when line 37 commits nothing. -/
theorem allocated_dark_zero {pg : Nat} {m : Machine} {reserve_size commit_size flags r : Nat}
    (hr : r ≠ MAP_FAILED) (hlen : ALIGN commit_size pg = 0) :
    r ∈ (allocated pg m reserve_size commit_size flags r).dark := by
  simp [allocated, commit, emit, mprotect, hlen, reserve, hr]

/-! ## First fit -/

/-- The macro `ALIGN` on a power of two yields 0 when `a + b` exceeds `2 ^ 64`. -/
theorem ALIGN_wrap_zero {a b : Nat} (hb : isPow2 b) (ha : a < WORD) (h : WORD < a + b) :
    ALIGN a b = 0 := by
  obtain ⟨k, hk, rfl⟩ := hb
  have hpos : 0 < 2 ^ k := Nat.two_pow_pos k
  have hlt : 2 ^ k < WORD := by
    unfold WORD
    exact Nat.pow_lt_pow_right (by norm_num) hk
  have h1 : u64sub (u64add a (2 ^ k)) 1 = a + 2 ^ k - WORD - 1 := by
    have e1 : u64add a (2 ^ k) = a + 2 ^ k - WORD := by
      unfold u64add
      have : a + 2 ^ k = (a + 2 ^ k - WORD) + WORD := by omega
      rw [this, Nat.add_mod_right, Nat.mod_eq_of_lt (by omega)]
      omega
    rw [e1]
    exact u64sub_of_le (by omega) (by omega)
  have h2 : u64not (u64sub (2 ^ k) 1) = 2 ^ 64 - 2 ^ k := by
    rw [u64sub_of_le hpos hlt]
    unfold u64not
    rw [Nat.mod_eq_of_lt (by omega)]
    unfold WORD
    have : (2:Nat) ^ k ≤ 2 ^ 64 := Nat.pow_le_pow_right (by norm_num) (by omega)
    omega
  unfold ALIGN
  have hx : a + 2 ^ k - WORD - 1 < 2 ^ k := by omega
  have hx64 : a + 2 ^ k - WORD - 1 < 2 ^ 64 := by
    have : 2 ^ k < 2 ^ 64 := hlt
    omega
  rw [h1, h2, and_mask _ k (by omega) hx64, Nat.div_eq_of_lt hx, Nat.mul_zero]

/-- A non-zero `ALIGN a b` on a power of two `b` did not wrap. -/
theorem ALIGN_pos_no_wrap {a b : Nat} (hb : isPow2 b) (ha : a < WORD) (h : 0 < ALIGN a b) :
    a + b ≤ WORD := by
  by_contra hc
  rw [ALIGN_wrap_zero hb ha (by omega)] at h
  exact absurd h (by decide)

/-- C11 fails as stated for `commit_size = 0`: on a 4096-byte page system,
`mmap` answers the page-aligned address 65536 for the 65536 bytes asked,
line 37 commits `ALIGN(0, 4096) = 0` bytes, that is nothing, and the store of
line 38 into the `PROT_NONE` mapping is a memory fault: `_arena_alloc` does
not return an arena although the reservation succeeded. -/
theorem C11_counterexample :
    mmapOk Machine.init (ALIGN 65536 4096) 65536 ∧ 65536 ≠ MAP_FAILED ∧ 65536 % 4096 = 0 ∧
    ALIGN 0 4096 = 0 ∧
    (allocated 4096 Machine.init 65536 0 3 65536).trace =
      [Event.reserve 65536 65536, Event.commit 65536 0] ∧
    (allocated 4096 Machine.init 65536 0 3 65536).dark = [65536] ∧
    _arena_alloc 4096 Machine.init 65536 0 3 65536 = .error .fault := by
  refine ⟨Or.inr ⟨⟨by decide, by decide, by decide⟩, by decide, by decide⟩, by decide,
    by decide, by decide, by decide, by decide, rfl⟩

/-- C11 amended: for every page size, machine state, 64-bit `reserve_size`
and `commit_size` and 8-bit `flags`.  When `mmap` returns `MAP_FAILED`,
`_arena_alloc` returns NULL and the set of mapped blocks is unchanged.  When
`mmap` returns a page-aligned address `r` of a non-empty mapping, the page
size is a power of two and `ALIGN(commit_size, page)` is positive with
`r + ALIGN(commit_size, page) < 2 ^ 64`, `_arena_alloc` returns `r` after one
`reserve` and one `commit` call and the header mapped at `r` is accessible and
has `pos = 0`, `base_pos = 0`, `capacity = ALIGN(reserve_size, page)`,
`committed = ALIGN(commit_size, page)`, `base = r + header_size`, `top = base`,
`curr = r`, `prev = next = NULL`, an empty free list and the given flags.
When `mmap` succeeds and `ALIGN(commit_size, page)` is 0, `_arena_alloc` is a
memory fault.  On a power of two, `ALIGN(x, page)` is `x` rounded up to a
multiple of the page size when `x + page` does not exceed `2 ^ 64` (a
multiple that is at least `x` and below `x + page`), and is 0 otherwise, so
it is positive exactly when `0 < x` and `x + page ≤ 2 ^ 64`. -/
theorem C11_arena_alloc_initial_state (pg : Nat) (m : Machine)
    (reserve_size commit_size flags r : Nat) (hflags : flags < 256)
    (hcs : commit_size < WORD) :
    (r = MAP_FAILED →
      ∃ m1, _arena_alloc pg m reserve_size commit_size flags r = .ok (NULL, m1) ∧
        m1.heap = m.heap ∧ m1.dark = m.dark ∧
        m1.trace = m.trace ++ [Event.reserve (ALIGN reserve_size pg) r]) ∧
    (r ≠ MAP_FAILED → isPow2 pg → r % pg = 0 → 0 < ALIGN reserve_size pg →
      0 < ALIGN commit_size pg → r + ALIGN commit_size pg < WORD →
      ∃ hdr m1, _arena_alloc pg m reserve_size commit_size flags r = .ok (r, m1) ∧
        m1.heap = (r, hdr) :: m.heap ∧ m1.heap.rd r = some hdr ∧ load m1 r = .ok hdr ∧
        m1.trace = m.trace ++ [Event.reserve (ALIGN reserve_size pg) r,
          Event.commit r (ALIGN commit_size pg)] ∧
        hdr.pos = 0 ∧ hdr.base_pos = 0 ∧
        hdr.capacity = ALIGN reserve_size pg ∧ hdr.committed = ALIGN commit_size pg ∧
        hdr.base = u64add r ARENA_HEADER_SIZE ∧ hdr.top = hdr.base ∧
        hdr.curr = r ∧ hdr.prev = NULL ∧ hdr.next = NULL ∧ hdr.free_list = NULL ∧
        hdr.flags = flags) ∧
    (r ≠ MAP_FAILED → ALIGN commit_size pg = 0 →
      _arena_alloc pg m reserve_size commit_size flags r = .error .fault) ∧
    (isPow2 pg →
      (∀ x, x + pg ≤ WORD → pg ∣ ALIGN x pg ∧ x ≤ ALIGN x pg ∧ ALIGN x pg < x + pg) ∧
      (∀ x, x < WORD → WORD < x + pg → ALIGN x pg = 0) ∧
      (0 < ALIGN commit_size pg ↔ 0 < commit_size ∧ commit_size + pg ≤ WORD)) := by
  refine ⟨?_, ?_, ?_, ?_⟩
  · intro hr
    rw [hr]
    exact ⟨_, arena_alloc_failed, rfl, rfl, rfl⟩
  · intro hr hpg hal hcap hpos hend
    have hnw : commit_size + pg ≤ WORD := ALIGN_pos_no_wrap hpg hcs hpos
    obtain ⟨hd1, _, _, _⟩ := ALIGN_least hpg hnw
    obtain ⟨hp0, _⟩ := isPow2_le hpg
    have hidem : ALIGN (ALIGN commit_size pg) pg = ALIGN commit_size pg := by
      apply ALIGN_idem hpg hd1
      obtain ⟨k, hk, rfl⟩ := hpg
      have hW : 2 ^ k ∣ WORD := by
        unfold WORD
        exact pow_dvd_pow 2 (by omega)
      obtain ⟨u, hu⟩ := hd1
      obtain ⟨v, hv⟩ := hW
      have hlt := ALIGN_lt commit_size (2 ^ k)
      rw [hu, hv] at hlt ⊢
      have huv : u < v := lt_of_mul_lt_mul_left hlt (Nat.zero_le _)
      calc 2 ^ k * u + 2 ^ k = 2 ^ k * (u + 1) := by ring
        _ ≤ 2 ^ k * v := Nat.mul_le_mul_left _ huv
    have hlight : r ∉ (allocated pg m reserve_size commit_size flags r).dark := by
      apply allocated_light hr hal hcap (by omega)
      rw [hidem, u64add_of_lt hend]
      omega
    have hrun := @arena_alloc_ok pg m reserve_size commit_size flags r hr
    rw [if_neg hlight] at hrun
    have hheap := @allocated_heap pg m reserve_size commit_size flags r hr
    have hrd : (allocated pg m reserve_size commit_size flags r).heap.rd r =
        some (blockHdr pg reserve_size commit_size flags r) := by
      rw [hheap]
      simp [rd_cons]
    refine ⟨blockHdr pg reserve_size commit_size flags r, _, hrun, hheap, hrd,
      load_ok hrd hlight, allocated_trace _ _ _ _ _ _,
      rfl, rfl, rfl, rfl, rfl, rfl, rfl, rfl, rfl, rfl, Nat.mod_eq_of_lt hflags⟩
  · intro hr hz
    have hrun := @arena_alloc_ok pg m reserve_size commit_size flags r hr
    rw [if_pos (allocated_dark_zero hr hz)] at hrun
    exact hrun
  · intro hpg
    refine ⟨fun x hx => ?_, fun x hx hw => ALIGN_wrap_zero hpg hx hw, ?_⟩
    · obtain ⟨h1, h2, h3, _⟩ := ALIGN_least hpg hx
      exact ⟨h1, h2, h3⟩
    · constructor
      · intro hpos
        have hnw : commit_size + pg ≤ WORD := ALIGN_pos_no_wrap hpg hcs hpos
        refine ⟨?_, hnw⟩
        by_contra h0
        have h00 : commit_size = 0 := by omega
        obtain ⟨hd, _, h3, _⟩ := ALIGN_least hpg hnw
        rw [h00] at h3 hd hpos
        have := Nat.eq_zero_of_dvd_of_lt hd (by omega)
        omega
      · rintro ⟨h0, hnw⟩
        obtain ⟨_, h2, _, _⟩ := ALIGN_least hpg hnw
        omega

/-- C11 at the 64 KiB arena: reserve 65536, commit 4096, flags 3, mapped at 65536. -/
theorem C11_witness :
    (65536 = MAP_FAILED →
      ∃ m1, _arena_alloc 4096 Machine.init 65536 4096 3 65536 = .ok (NULL, m1) ∧
        m1.heap = Machine.init.heap ∧ m1.dark = Machine.init.dark ∧
        m1.trace = Machine.init.trace ++ [Event.reserve (ALIGN 65536 4096) 65536]) ∧
    (65536 ≠ MAP_FAILED → isPow2 4096 → 65536 % 4096 = 0 → 0 < ALIGN 65536 4096 →
      0 < ALIGN 4096 4096 → 65536 + ALIGN 4096 4096 < WORD →
      ∃ hdr m1, _arena_alloc 4096 Machine.init 65536 4096 3 65536 = .ok (65536, m1) ∧
        m1.heap = (65536, hdr) :: Machine.init.heap ∧ m1.heap.rd 65536 = some hdr ∧ load m1 65536 =
            .ok hdr ∧
        m1.trace = Machine.init.trace ++ [Event.reserve (ALIGN 65536 4096) 65536,
          Event.commit 65536 (ALIGN 4096 4096)] ∧
        hdr.pos = 0 ∧ hdr.base_pos = 0 ∧
        hdr.capacity = ALIGN 65536 4096 ∧ hdr.committed = ALIGN 4096 4096 ∧
        hdr.base = u64add 65536 ARENA_HEADER_SIZE ∧ hdr.top = hdr.base ∧
        hdr.curr = 65536 ∧ hdr.prev = NULL ∧ hdr.next = NULL ∧ hdr.free_list = NULL ∧
        hdr.flags = 3) ∧
    (65536 ≠ MAP_FAILED → ALIGN 4096 4096 = 0 →
      _arena_alloc 4096 Machine.init 65536 4096 3 65536 = .error .fault) ∧
    (isPow2 4096 →
      (∀ x, x + 4096 ≤ WORD → 4096 ∣ ALIGN x 4096 ∧ x ≤ ALIGN x 4096 ∧ ALIGN x 4096 < x + 4096) ∧
      (∀ x, x < WORD → WORD < x + 4096 → ALIGN x 4096 = 0) ∧
      (0 < ALIGN 4096 4096 ↔ 0 < 4096 ∧ 4096 + 4096 ≤ WORD)) :=
  C11_arena_alloc_initial_state 4096 Machine.init 65536 4096 3 65536 (by decide) (by decide)

/-! ## Lazy commit -/

theorem u64_commit_addr (q c : Nat) :
    u64add (u64sub (u64add q ARENA_HEADER_SIZE) ARENA_HEADER_SIZE) c = u64add q c := by
  unfold u64add u64sub ARENA_HEADER_SIZE
  rw [WORD_eq]
  omega

/-- Committing the shortfall beyond a page-aligned extent reaches the need
rounded up to a page. -/
theorem commit_roundup {pg c n : Nat} (hpg : isPow2 pg) (hc : pg ∣ c) (hlt : c < n)
    (hov : n + pg ≤ WORD) :
    u64add c (ALIGN (n - c) pg) = ALIGN n pg := by
  obtain ⟨k, hk, rfl⟩ := hpg
  obtain ⟨j, rfl⟩ := hc
  have hpos : 0 < 2 ^ k := Nat.two_pow_pos k
  rw [ALIGN_pow2 hk hov, ALIGN_pow2 hk (by omega)]
  have e : n - 2 ^ k * j + 2 ^ k - 1 = (n + 2 ^ k - 1) - 2 ^ k * j := by omega
  rw [e, Nat.sub_mul_div _ _ _ (by omega)]
  have hj : j ≤ (n + 2 ^ k - 1) / 2 ^ k := by
    rw [Nat.le_div_iff_mul_le hpos]
    rw [Nat.mul_comm]
    omega
  have hsum : 2 ^ k * j + 2 ^ k * ((n + 2 ^ k - 1) / 2 ^ k - j) =
      2 ^ k * ((n + 2 ^ k - 1) / 2 ^ k) := by
    rw [← Nat.mul_add, Nat.add_sub_cancel' hj]
  have hle : 2 ^ k * ((n + 2 ^ k - 1) / 2 ^ k) ≤ n + 2 ^ k - 1 := Nat.mul_div_le _ _
  rw [u64add_of_lt (by rw [hsum]; omega), hsum]

/-- The commit step of a push that does not take the failure exit: the
receiving block `a1.curr` enters it with header `cB`, whose `top` is the
returned address, and leaves it with `committedTo pg cB n` bumped by `size`;
`pre` are the events of a reservation, if the push made one. -/
theorem push_commit_cases {s : Setup} {m m1 : Machine} {size align r res : Nat}
    (hm : Reachable s m)
    (hr : r = MAP_FAILED ∨ mmapFresh m r)
    (h : arena_push s.pg m s.arena size align r = .ok (res, m1))
    (hex : exceeded m s.arena size align = false) :
    ∃ a1 cB pre, m1.heap.rd s.arena = some a1 ∧
      m1.heap.rd a1.curr = some (bumped (committedTo s.pg cB (needed cB size)) size) ∧
      cB.top = res ∧ cB.base = u64add a1.curr ARENA_HEADER_SIZE ∧
      m1.trace = m.trace ++ pre ++ commitEvent cB (needed cB size) ∧
      (∀ b, m.heap.rd a1.curr = some b → cB.committed = b.committed ∧ pre = []) ∧
      (m.heap.rd a1.curr = none →
        pre = [Event.reserve cB.committed a1.curr, Event.commit a1.curr cB.committed] ∧
        ∃ n0, cB.committed = ALIGN n0 s.pg) := by
  obtain ⟨a, chain, free, hwf, _, _, _, hda, hdc⟩ := reachable_live hm
  have ha := hwf.head
  obtain ⟨c, hc⟩ := hwf.curr_mapped
  have hab : a.curr = s.arena → c = a := by
    intro e
    rw [e, ha] at hc
    exact (Option.some.inj hc).symm
  rw [exceeded_eq ha hc] at hex
  by_cases hn : needed (aligned c align) size ≤ c.capacity
  · rw [push_fit_spec ha hc hda hdc hn] at h
    have hres : ALIGN c.top align = res := (Prod.mk.inj (Except.ok.inj h)).1
    have hm1 : m1 = _ := (Prod.mk.inj (Except.ok.inj h)).2.symm
    have hw := hwf.update m1 a.curr
      (bumped (committedTo s.pg (aligned c align) (needed (aligned c align) size)) size)
      hwf.curr_mem hc
      (sameLinks_trans (aligned_sameLinks c align)
        (sameLinks_trans (committedTo_sameLinks s.pg _ _) (bumped_sameLinks _ _)))
      (by rw [hm1])
    obtain ⟨_, _, f3⟩ := committedTo_fields s.pg (aligned c align)
      (needed (aligned c align) size)
    have hcurr1 : (if a.curr = s.arena then
        bumped (committedTo s.pg (aligned c align) (needed (aligned c align) size)) size
        else a).curr = a.curr := by
      by_cases e : a.curr = s.arena
      · have := hab e
        subst this
        simp only [e, if_true]
        show (committedTo s.pg (aligned c align) (needed (aligned c align) size)).curr = s.arena
        rw [f3]; exact e
      · simp [e]
    have hrd1 : m1.heap.rd a.curr = some
        (bumped (committedTo s.pg (aligned c align) (needed (aligned c align) size)) size) := by
      rw [hm1]; simp [rd_wr, hc]
    refine ⟨_, aligned c align, [], hw.head, ?_, hres, ?_, ?_, ?_, ?_⟩
    · rw [hcurr1]; exact hrd1
    · rw [hcurr1]; exact (reachable_geom hm a.curr c hc).1
    · rw [hm1]; simp
    · intro b hb
      rw [hcurr1, hc] at hb
      have := Option.some.inj hb
      subst this
      exact ⟨rfl, rfl⟩
    · intro hnone
      rw [hcurr1, hc] at hnone
      cases hnone
  · have hn2 : needed (aligned c align) size > c.capacity := by omega
    have hch : hasFlag a.flags ARENA_USE_CHAINING = true := by
      simpa [hn2] using hex
    rcases first_fit_split
      (fun y => ∃ b, m.heap.rd y = some b ∧ needed (aligned c align) size ≤ b.capacity) free
      with hmiss | ⟨l1, x, l2, hfree, hno, bx, hx, hcap⟩
    · have hmiss2 : ∀ y ∈ free, ∀ b, m.heap.rd y = some b →
          b.capacity < needed (aligned c align) size := by
        intro y hy b hb
        have := hmiss y hy
        simp only [not_exists, not_and] at this
        have := this b hb
        omega
      rcases hr with hr | hr
      · rw [hr, push_alloc_fail_spec hwf hc hda hdc hn2 hch hmiss2] at h
        cases h
      · obtain ⟨hF, hS⟩ := push_fresh_spec s.pg size align hwf hc hda hdc hn2 hch hmiss2 hr
        by_cases hg : (∀ y ∈ free, y ∉ m.dark) ∧
            r ∉ (allocated s.pg { m with heap := m.heap.wr a.curr (aligned c align) }
              (needed (aligned c align) size) (needed (aligned c align) size)
              (ARENA_USE_CHAINING ||| ARENA_USE_FREE_LIST) r).dark
        swap
        · rw [hF hg] at h
          cases h
        obtain ⟨m3, a3, hrun, hdk3, hdr3, hwf3, hcurr3, hrd3, htr3, _, _⟩ := hS hg
        rw [hrun] at h
        have hres : ALIGN (u64add r ARENA_HEADER_SIZE) align = res :=
          (Prod.mk.inj (Except.ok.inj h)).1
        have hm1 : m3 = m1 := (Prod.mk.inj (Except.ok.inj h)).2
        subst hm1
        have hnone : m.heap.rd r = none := (rd_eq_none_iff _ _).2 hr.2.2
        refine ⟨a3, linked (blockHdr s.pg (needed (aligned c align) size)
            (needed (aligned c align) size) (ARENA_USE_CHAINING ||| ARENA_USE_FREE_LIST) r)
            a.curr c align, _, hwf3.head, ?_, hres, ?_, htr3, ?_, ?_⟩
        · rw [hcurr3]; exact hrd3
        · rw [hcurr3]; rfl
        · intro b hb
          rw [hcurr3, hnone] at hb
          cases hb
        · intro _
          rw [hcurr3]
          exact ⟨rfl, _, rfl⟩
    · have hfl : hasFlag a.flags ARENA_USE_FREE_LIST = true := by
        by_contra hfl
        have := hwf.nofree (by simpa using hfl)
        rw [this] at hfree
        simp at hfree
      have hno2 : ∀ y ∈ l1, ∀ b, m.heap.rd y = some b →
          b.capacity < needed (aligned c align) size := by
        intro y hy b hb
        have := hno y hy
        simp only [not_exists, not_and] at this
        have := this b hb
        omega
      obtain ⟨hF, hS⟩ := push_hit_spec s.pg size align r hwf hc hda hdc hn2 hch hfl hfree hno2 hx hcap
      by_cases hg : (∀ y ∈ l1, y ∉ m.dark) ∧ x ∉ m.dark
      swap
      · rw [hF hg] at h
        cases h
      obtain ⟨m3, a3, hrun, hdk3, hwf3, hcurr3, hrd3, htr3, _, _⟩ := hS hg
      rw [hrun] at h
      have hres : ALIGN bx.top align = res := (Prod.mk.inj (Except.ok.inj h)).1
      have hm1 : m3 = m1 := (Prod.mk.inj (Except.ok.inj h)).2
      subst hm1
      refine ⟨a3, linked bx a.curr c align, [], hwf3.head, ?_, hres, ?_, ?_, ?_, ?_⟩
      · rw [hcurr3]; exact hrd3
      · rw [hcurr3]; exact (reachable_geom hm x bx hx).1
      · rw [htr3]; simp
      · intro b hb
        rw [hcurr3, hx] at hb
        have := Option.some.inj hb
        subst this
        exact ⟨rfl, rfl⟩
      · intro hnone
        rw [hcurr3, hx] at hnone
        cases hnone

/-- C18: for every reachable arena and every push that returns without
taking the failure exit, with `c1` the receiving block afterwards, `c` its
committed extent before the commit step (its `committed` before the call, or
the initial commit of a block reserved by the call) and `n` the final need
`(result - base) + header_size + size`: if `n ≤ c` the commit step issues
no call and `committed` stays `c`; if `c < n` it issues exactly one commit,
at block address `+ c` with length `n - c`, and `committed` becomes
`c + ALIGN(n - c, page)`.  When the page size is a power of two and
`n + page ≤ 2 ^ 64`, `ALIGN(n - c, page)` is `n - c` rounded up to a page (the
least multiple of the page size that is not below `n - c`, hence less than a
page above it), and when moreover the page size divides `c` the new
`committed` is `ALIGN(n, page)`, the least multiple of the page size that is
not below `n`.  The events `pre` before the commit step are none, or the
reserve and initial commit of a fresh block. -/
theorem C18_lazy_commit (s : Setup) (m : Machine) (hm : Reachable s m)
    (size align r : Nat) (hr : r = MAP_FAILED ∨ mmapFresh m r)
    (res : Nat) (m1 : Machine)
    (h : arena_push s.pg m s.arena size align r = .ok (res, m1))
    (hsucc : exceeded m s.arena size align = false) :
    ∃ a1 c1 c n pre, m1.heap.rd s.arena = some a1 ∧ m1.heap.rd a1.curr = some c1 ∧
      n = u64add (u64add (u64sub res c1.base) ARENA_HEADER_SIZE) size ∧
      (∀ b, m.heap.rd a1.curr = some b → c = b.committed ∧ pre = []) ∧
      (m.heap.rd a1.curr = none →
        pre = [Event.reserve c a1.curr, Event.commit a1.curr c] ∧ ∃ n0, c = ALIGN n0 s.pg) ∧
      (n ≤ c → m1.trace = m.trace ++ pre ∧ c1.committed = c) ∧
      (c < n →
        m1.trace = m.trace ++ pre ++ [Event.commit (u64add a1.curr c) (n - c)] ∧
        c1.committed = u64add c (ALIGN (n - c) s.pg)) ∧
      (isPow2 s.pg → c < n → n + s.pg ≤ WORD →
        s.pg ∣ ALIGN (n - c) s.pg ∧ n - c ≤ ALIGN (n - c) s.pg ∧
        ALIGN (n - c) s.pg < n - c + s.pg ∧
        (∀ x, s.pg ∣ x → n - c ≤ x → ALIGN (n - c) s.pg ≤ x) ∧
        (s.pg ∣ c →
          u64add c (ALIGN (n - c) s.pg) = ALIGN n s.pg ∧
          s.pg ∣ ALIGN n s.pg ∧ n ≤ ALIGN n s.pg ∧ ALIGN n s.pg < n + s.pg ∧
          ∀ x, s.pg ∣ x → n ≤ x → ALIGN n s.pg ≤ x)) := by
  obtain ⟨a1, cB, pre, h1, h2, h3, h4, h5, h6, h7⟩ := push_commit_cases hm hr h hsucc
  obtain ⟨g1, _⟩ := committedTo_base s.pg cB (needed cB size)
  have hn : needed cB size =
      u64add (u64add (u64sub res (bumped (committedTo s.pg cB (needed cB size)) size).base)
        ARENA_HEADER_SIZE) size := by
    show _ = u64add (u64add (u64sub res (committedTo s.pg cB (needed cB size)).base) _) _
    rw [g1, ← h3]
    rfl
  have hnlt : needed cB size < WORD := u64add_lt _ _
  refine ⟨a1, _, cB.committed, needed cB size, pre, h1, h2, hn, h6, h7, ?_, ?_, ?_⟩
  · intro hle
    have hnot : ¬ needed cB size > cB.committed := by omega
    constructor
    · rw [h5]
      unfold commitEvent
      rw [if_neg hnot, List.append_nil]
    · show (committedTo s.pg cB (needed cB size)).committed = _
      unfold committedTo
      rw [if_neg hnot]
  · intro hlt
    have hsub : u64sub (needed cB size) cB.committed = needed cB size - cB.committed :=
      u64sub_of_le (by omega) hnlt
    constructor
    · rw [h5]
      unfold commitEvent
      rw [if_pos hlt, h4, u64_commit_addr, hsub]
    · show (committedTo s.pg cB (needed cB size)).committed = _
      unfold committedTo
      rw [if_pos hlt, hsub]
  · intro hpg hlt hov
    refine ⟨?_, ?_, ?_, ?_, fun hc => ⟨commit_roundup hpg hc hlt hov, ?_, ?_, ?_, ?_⟩⟩
    · exact (ALIGN_least hpg (show needed cB size - cB.committed + s.pg ≤ WORD by omega)).1
    · exact (ALIGN_least hpg (show needed cB size - cB.committed + s.pg ≤ WORD by omega)).2.1
    · exact (ALIGN_least hpg (show needed cB size - cB.committed + s.pg ≤ WORD by omega)).2.2.1
    · exact (ALIGN_least hpg (show needed cB size - cB.committed + s.pg ≤ WORD by omega)).2.2.2
    · exact (ALIGN_least hpg hov).1
    · exact (ALIGN_least hpg hov).2.1
    · exact (ALIGN_least hpg hov).2.2.1
    · exact (ALIGN_least hpg hov).2.2.2

/-- C18 at the fresh 64 KiB arena with 4096 bytes committed: `push(5000, 8)`
needs 5088 bytes and commits 992 more at 65536 + 4096. -/
theorem C18_witness :
    ∃ a1 c1 c n pre, (demo.after [Op.push 5000 8 MAP_FAILED]).heap.rd demo.arena = some a1 ∧
        (demo.after [Op.push 5000 8 MAP_FAILED]).heap.rd a1.curr = some c1 ∧
      n = u64add (u64add (u64sub 65624 c1.base) ARENA_HEADER_SIZE) 5000 ∧
      (∀ b, demo.created.heap.rd a1.curr = some b → c = b.committed ∧ pre = []) ∧
      (demo.created.heap.rd a1.curr = none →
        pre = [Event.reserve c a1.curr, Event.commit a1.curr c] ∧ ∃ n0, c = ALIGN n0 demo.pg) ∧
      (n ≤ c → (demo.after [Op.push 5000 8 MAP_FAILED]).trace = demo.created.trace ++ pre ∧
          c1.committed = c) ∧
      (c < n →
        (demo.after [Op.push 5000 8 MAP_FAILED]).trace = demo.created.trace ++ pre ++
            [Event.commit (u64add a1.curr c) (n - c)] ∧
        c1.committed = u64add c (ALIGN (n - c) demo.pg)) ∧
      (isPow2 demo.pg → c < n → n + demo.pg ≤ WORD →
        demo.pg ∣ ALIGN (n - c) demo.pg ∧ n - c ≤ ALIGN (n - c) demo.pg ∧
        ALIGN (n - c) demo.pg < n - c + demo.pg ∧
        (∀ x, demo.pg ∣ x → n - c ≤ x → ALIGN (n - c) demo.pg ≤ x) ∧
        (demo.pg ∣ c →
          u64add c (ALIGN (n - c) demo.pg) = ALIGN n demo.pg ∧
          demo.pg ∣ ALIGN n demo.pg ∧ n ≤ ALIGN n demo.pg ∧ ALIGN n demo.pg < n + demo.pg ∧
          ∀ x, demo.pg ∣ x → n ≤ x → ALIGN n demo.pg ≤ x)) :=
  C18_lazy_commit demo demo.created (Reachable.create demo_ok) 5000 8 MAP_FAILED
    (Or.inl rfl) 65624 (demo.after [Op.push 5000 8 MAP_FAILED]) rfl rfl

/-! ## Chain sums -/

theorem getLast?_append_cons {α : Type} (l1 : List α) (x : α) (l2 : List α) :
    (l1 ++ x :: l2).getLast? = (x :: l2).getLast? := by
  induction l1 with
  | nil => rfl
  | cons z l1 ih =>
    cases hl : l1 ++ x :: l2 with
    | nil => simp at hl
    | cons w l =>
      rw [List.cons_append, hl, List.getLast?_cons_cons, ← hl, ih]

/-! ## Rollbacks that return -/

theorem retire_unmap_ok (pg : Nat) {m : Machine} {arena curr : Nat} {a c : Arena}
    (ha : m.heap.rd arena = some a) (hc : m.heap.rd curr = some c)
    (hf : hasFlag a.flags ARENA_USE_FREE_LIST = false)
    (hda : arena ∉ m.dark) (hdc : curr ∉ m.dark) :
    retire pg m arena curr = .ok (munmap m curr c.capacity) := by
  simp [retire, load, ha, hc, hf, hda, hdc, bind, Except.bind, pure, Except.pure]

/-- With no header inaccessible, the loop of a rollback that unmaps does not fault. -/
theorem pop_loop_unmap_nofault (pg pos : Nat) {arena : Nat} :
    ∀ (chain : List Nat) (fuel : Nat) (m : Machine) (a : Arena) (x : Nat),
      m.heap.rd arena = some a → a.base_pos = 0 →
      hasFlag a.flags ARENA_USE_FREE_LIST = false →
      LL Arena.prev m.heap x chain → chain.getLast? = some arena →
      chain.Nodup → m.dark = [] →
      pop_loop pg fuel m arena pos x ≠ .error .fault
  | _, 0, _, _, _, _, _, _, _, _, _, _ => by
    simp [pop_loop]
  | [], _ + 1, _, _, _, _, _, _, _, hlast, _, _ => by simp at hlast
  | x1 :: rest, fuel + 1, m, a, x, ha, hbp, hf, hll, hlast, hnd, hdark => by
    obtain ⟨hx, hx0, b1, hb1, hrest⟩ := hll
    subst hx
    have hdx : x ∉ m.dark := by rw [hdark]; exact List.not_mem_nil _
    have hda : arena ∉ m.dark := by rw [hdark]; exact List.not_mem_nil _
    by_cases hlt : pos < b1.base_pos
    · have hne : x ≠ arena := by
        intro e
        rw [e, ha] at hb1
        have : a = b1 := Option.some.inj hb1
        rw [← this, hbp] at hlt
        exact Nat.not_lt_zero _ hlt
      obtain ⟨hrne, hrlast⟩ := getLast?_cons_ne hlast hne
      have hret := retire_unmap_ok pg ha hb1 hf hda hdx
      have hnd1 : x ∉ rest ∧ rest.Nodup := by simpa [List.nodup_cons] using hnd
      have hrd : ∀ q, (munmap m x b1.capacity).heap.rd q = if q = x then none else m.heap.rd q := by
        intro q; simp [munmap, rd_unmap]
      have ha1 : (munmap m x b1.capacity).heap.rd arena = some a := by
        rw [hrd]; simp [Ne.symm hne, ha]
      have hll1 : LL Arena.prev (munmap m x b1.capacity).heap b1.prev rest := by
        refine LL_frame ?_ hrest
        intro q hq
        have hqx : q ≠ x := fun e => hnd1.1 (e ▸ hq)
        rw [hrd]; simp [hqx]
      have hdark1 : (munmap m x b1.capacity).dark = [] := by simp [munmap, hdark]
      have ih := pop_loop_unmap_nofault pg pos rest fuel (munmap m x b1.capacity) a
          b1.prev ha1 hbp hf hll1 hrlast hnd1.2 hdark1
      have e : pop_loop pg (fuel + 1) m arena pos x =
          pop_loop pg fuel (munmap m x b1.capacity) arena pos b1.prev := by
        simp [pop_loop, load_ok hb1 hdx, hlt, hret, bind, Except.bind]
      rw [e]
      exact ih
    · simp [pop_loop, load_ok hb1 hdx, hlt, bind, Except.bind, pure, Except.pure]

/-- The stores that end a rollback (lines 178-180) succeed when both
headers are accessible. -/
theorem pop_finish_ok (pos : Nat) {m : Machine} {arena y : Nat} {a b : Arena}
    (ha : m.heap.rd arena = some a) (hb : m.heap.rd y = some b)
    (hda : arena ∉ m.dark) (hdy : y ∉ m.dark) :
    ∃ m1,
      (do
        let m ← modify m y (fun b => { b with pos := u64sub pos b.base_pos })
        let m ← modify m y (fun b => { b with top := u64add b.base b.pos })
        modify m arena (fun b => { b with curr := y })) = Except.ok m1 := by
  by_cases hya : y = arena
  · subst hya
    simp [modify, ha, hdy, bind, Except.bind, rd_wr, keys_wr]
  · have hay : arena ≠ y := fun e => hya e.symm
    simp [modify, ha, hb, hda, hdy, bind, Except.bind, rd_wr, keys_wr, hya, hay]

/-- A rollback whose target lies in the current block returns. -/
theorem pop_to_stay_ok (pg : Nat) {m : Machine} {arena pos : Nat} {a c : Arena}
    {chain free : List Nat}
    (hwf : WF m arena a chain free) (hda : arena ∉ m.dark) (hdc : a.curr ∉ m.dark)
    (hc : m.heap.rd a.curr = some c) (hlo : c.base_pos ≤ pos) :
    ∃ m1, arena_pop_to pg m arena pos = .ok m1 := by
  have ha := hwf.head
  by_cases hp : pos > u64add c.base_pos c.pos
  · exact ⟨m, pop_to_reject_spec ha hc hda hdc hp⟩
  have hp2 : pos ≤ u64add c.base_pos c.pos := by omega
  by_cases hch : hasFlag a.flags ARENA_USE_CHAINING = true
  · have hnlt : ¬ pos < c.base_pos := by omega
    have hrun : pop_loop pg (m.heap.length + 1) m arena pos a.curr = .ok (a.curr, m) := by
      simp [pop_loop, load_ok hc hdc, hnlt, bind, Except.bind, pure, Except.pure]
    obtain ⟨m1, hfin⟩ := pop_finish_ok pos ha hc hda hdc
    refine ⟨m1, ?_⟩
    simp only [arena_pop_to, load_ok ha hda, load_ok hc hdc, bind, Except.bind, hp, if_false, hch,
      Bool.not_true, hrun]
    exact hfin
  · have hch2 : hasFlag a.flags ARENA_USE_CHAINING = false := by simpa using hch
    obtain ⟨hcurr, _, _⟩ := hwf.curr_eq_of_nochain hch2
    have hca : c = a := by
      rw [hcurr, ha] at hc
      exact (Option.some.inj hc).symm
    subst hca
    exact ⟨_, (pop_to_nochain_spec pg hwf hda hch2 hp2).1⟩

/-- With recycling disabled and no header inaccessible, a rollback returns. -/
theorem pop_to_unmap_ok (pg : Nat) {m : Machine} {arena : Nat} {a : Arena}
    {chain free : List Nat}
    (hwf : WF m arena a chain free)
    (hfl : hasFlag a.flags ARENA_USE_FREE_LIST = false) (hdark : m.dark = []) (pos : Nat) :
    ∃ m1, arena_pop_to pg m arena pos = .ok m1 := by
  have ha := hwf.head
  obtain ⟨c, hc⟩ := hwf.curr_mapped
  have hda : arena ∉ m.dark := by rw [hdark]; exact List.not_mem_nil _
  have hdc : a.curr ∉ m.dark := by rw [hdark]; exact List.not_mem_nil _
  by_cases hp : pos > u64add c.base_pos c.pos
  · exact ⟨m, pop_to_reject_spec ha hc hda hdc hp⟩
  have hp2 : pos ≤ u64add c.base_pos c.pos := by omega
  by_cases hch : hasFlag a.flags ARENA_USE_CHAINING = true
  swap
  · have hch2 : hasFlag a.flags ARENA_USE_CHAINING = false := by simpa using hch
    obtain ⟨hcurr, _, _⟩ := hwf.curr_eq_of_nochain hch2
    have hca : c = a := by
      rw [hcurr, ha] at hc
      exact (Option.some.inj hc).symm
    subst hca
    exact ⟨_, (pop_to_nochain_spec pg hwf hda hch2 hp2).1⟩
  have hfree : free = [] := hwf.nofree hfl
  subst hfree
  have hnd : chain.Nodup := by simpa using hwf.nodup
  rcases pop_loop_unmap_spec pg pos chain (m.heap.length + 1) m a a.curr
      ha hwf.head_base_pos hfl hwf.chain_ll hwf.chain_last hnd
      (by have := hwf.length_le; omega) with
    hrun | ⟨l1, y, l2, m1, hchain, hrun, hyd, hmono, hrd1, hk1, htr1, hret1, hy1⟩
  · exact absurd hrun (pop_loop_unmap_nofault pg pos chain _ m a a.curr ha hwf.head_base_pos hfl
      hwf.chain_ll hwf.chain_last hnd hdark)
  obtain ⟨b, hb, hnlt⟩ := hy1
  have hyl1 : y ∉ l1 := by
    intro hmem
    rw [hchain] at hnd
    have := (List.nodup_append.1 hnd).2.2 hmem
    simp at this
  have hal1 : arena ∉ l1 := by
    intro hmem
    obtain ⟨bq, hbq, hlt⟩ := hret1 arena hmem
    rw [ha] at hbq
    rw [← Option.some.inj hbq, hwf.head_base_pos] at hlt
    exact Nat.not_lt_zero _ hlt
  have ha1 : m1.heap.rd arena = some a := by rw [hrd1]; simp [hal1, ha]
  have hb1 : m1.heap.rd y = some b := by rw [hrd1]; simp [hyl1, hb]
  have hda1 : arena ∉ m1.dark := fun hmem => hda (hmono _ hmem)
  obtain ⟨m2, hfin⟩ := pop_finish_ok pos ha1 hb1 hda1 hyd
  refine ⟨m2, ?_⟩
  simp only [arena_pop_to, load_ok ha hda, load_ok hc hdc, bind, Except.bind, hp, if_false, hch,
    Bool.not_true, hrun]
  exact hfin

theorem push_dark_nil {pg : Nat} {m m1 : Machine} {arena size align r res : Nat} {a : Arena}
    {chain free : List Nat}
    (hwf : WF m arena a chain free) (hdark : m.dark = [])
    (hr : r = MAP_FAILED ∨ mmapFresh m r)
    (h : arena_push pg m arena size align r = .ok (res, m1)) :
    m1.dark = [] := by
  have ha := hwf.head
  obtain ⟨c, hc⟩ := hwf.curr_mapped
  have hall : ∀ q, q ∉ m.dark := by intro q; rw [hdark]; exact List.not_mem_nil _
  have hda := hall arena
  have hdc := hall a.curr
  apply List.eq_nil_iff_forall_not_mem.2
  by_cases hn : needed (aligned c align) size ≤ c.capacity
  · rw [push_fit_spec ha hc hda hdc hn] at h
    have hm1 : m1 = _ := (Prod.mk.inj (Except.ok.inj h)).2.symm
    intro q
    rw [hm1]
    exact not_mem_commitDark (hall q)
  · have hn2 : needed (aligned c align) size > c.capacity := by omega
    by_cases hch : hasFlag a.flags ARENA_USE_CHAINING = true
    · rcases first_fit_split
        (fun y => ∃ b, m.heap.rd y = some b ∧ needed (aligned c align) size ≤ b.capacity) free
        with hmiss | ⟨l1, x, l2, hfree, hno, bx, hx, hcap⟩
      · have hmiss2 : ∀ y ∈ free, ∀ b, m.heap.rd y = some b →
            b.capacity < needed (aligned c align) size := by
          intro y hy b hb
          have := hmiss y hy
          simp only [not_exists, not_and] at this
          have := this b hb
          omega
        rcases hr with hr | hr
        · rw [hr, push_alloc_fail_spec hwf hc hda hdc hn2 hch hmiss2] at h
          cases h
        · obtain ⟨hF, hS⟩ := push_fresh_spec pg size align hwf hc hda hdc hn2 hch hmiss2 hr
          by_cases hg : (∀ y ∈ free, y ∉ m.dark) ∧
              r ∉ (allocated pg { m with heap := m.heap.wr a.curr (aligned c align) }
                (needed (aligned c align) size) (needed (aligned c align) size)
                (ARENA_USE_CHAINING ||| ARENA_USE_FREE_LIST) r).dark
          swap
          · rw [hF hg] at h
            cases h
          obtain ⟨m3, a3, hrun, hdk, hdr, _⟩ := hS hg
          rw [hrun] at h
          have hm1 : m3 = m1 := (Prod.mk.inj (Except.ok.inj h)).2
          subst hm1
          intro q
          by_cases e : q = r
          · rw [e]; exact hdr
          · exact hdk q (hall q) e
      · have hfl : hasFlag a.flags ARENA_USE_FREE_LIST = true := by
          by_contra hfl
          have := hwf.nofree (by simpa using hfl)
          rw [this] at hfree
          simp at hfree
        have hno2 : ∀ y ∈ l1, ∀ b, m.heap.rd y = some b →
            b.capacity < needed (aligned c align) size := by
          intro y hy b hb
          have := hno y hy
          simp only [not_exists, not_and] at this
          have := this b hb
          omega
        obtain ⟨hF, hS⟩ := push_hit_spec pg size align r
            hwf hc hda hdc hn2 hch hfl hfree hno2 hx hcap
        by_cases hg : (∀ y ∈ l1, y ∉ m.dark) ∧ x ∉ m.dark
        swap
        · rw [hF hg] at h
          cases h
        obtain ⟨m3, a3, hrun, hdk, _⟩ := hS hg
        rw [hrun] at h
        have hm1 : m3 = m1 := (Prod.mk.inj (Except.ok.inj h)).2
        subst hm1
        intro q
        exact hdk q (hall q)
    · have hch2 : hasFlag a.flags ARENA_USE_CHAINING = false := by simpa using hch
      rw [push_fail_spec ha hc hda hdc hn2 hch2] at h
      have hm1 : m1 = _ := (Prod.mk.inj (Except.ok.inj h)).2.symm
      intro q
      rw [hm1]
      exact hall q

theorem pop_to_dark_nil {pg : Nat} {m m1 : Machine} {arena pos : Nat} {a : Arena}
    {chain free : List Nat}
    (hwf : WF m arena a chain free) (hdark : m.dark = [])
    (hfl : hasFlag a.flags ARENA_USE_FREE_LIST = false)
    (h : arena_pop_to pg m arena pos = .ok m1) :
    m1.dark = [] := by
  have ha := hwf.head
  obtain ⟨c, hc⟩ := hwf.curr_mapped
  have hall : ∀ q, q ∉ m.dark := by intro q; rw [hdark]; exact List.not_mem_nil _
  have hda := hall arena
  have hdc := hall a.curr
  by_cases hp : pos > u64add c.base_pos c.pos
  · rw [pop_to_reject_spec ha hc hda hdc hp] at h
    have : m = m1 := Except.ok.inj h
    subst this
    exact hdark
  · have hp2 : pos ≤ u64add c.base_pos c.pos := by omega
    by_cases hch : hasFlag a.flags ARENA_USE_CHAINING = true
    · rcases pop_to_unmap_spec pg hwf hch hfl hc hp2 with
        hF | ⟨l1, y, l2, b, m2, _, _, _, _, hrun, _, _, hmono, _⟩
      · rw [hF] at h
        cases h
      rw [hrun] at h
      have : m2 = m1 := Except.ok.inj h
      subst this
      apply List.eq_nil_iff_forall_not_mem.2
      intro q hq
      exact hall q (hmono q hq)
    · have hch2 : hasFlag a.flags ARENA_USE_CHAINING = false := by simpa using hch
      obtain ⟨hcurr, _, _⟩ := hwf.curr_eq_of_nochain hch2
      have hca : c = a := by
        rw [hcurr, ha] at hc
        exact (Option.some.inj hc).symm
      subst hca
      obtain ⟨hrun, _⟩ := pop_to_nochain_spec pg hwf hda hch2 hp2
      rw [hrun] at h
      have : _ = m1 := Except.ok.inj h
      subst this
      exact hdark

/-- An arena created without recycling never issues a decommit: in every
reachable state no header is inaccessible. -/
theorem reachable_dark_nil {s : Setup} {m : Machine} (h : Reachable s m)
    (hfl : hasFlag (s.flags % 256) ARENA_USE_FREE_LIST = false) : m.dark = [] := by
  induction h with
  | create hs =>
    obtain ⟨-, -, hd, hsub⟩ := created_heap s hs
    apply List.eq_nil_iff_forall_not_mem.2
    intro q hq
    have := hsub q hq
    subst this
    exact hd hq
  | after m m1 op hm hop hstep ih =>
    obtain ⟨a, chain, free, hwf, hflags, _, _, hda, hdc⟩ := reachable_live hm
    have hfa : hasFlag a.flags ARENA_USE_FREE_LIST = false := by rw [hflags]; exact hfl
    obtain ⟨c, hc⟩ := hwf.curr_mapped
    cases op with
    | push size align r =>
      simp only [step, Except.map] at hstep
      split at hstep
      · cases hstep
      · rename_i x hx
        obtain ⟨res, m2⟩ := x
        have : m2 = m1 := Except.ok.inj hstep
        subst this
        exact push_dark_nil hwf ih hop.2.2 hx
    | pop_to pos => exact pop_to_dark_nil hwf ih hfa hstep
    | pop size =>
      simp only [step, arena_pop, load_ok hwf.head hda, load_ok hc hdc, bind, Except.bind]
        at hstep
      exact pop_to_dark_nil hwf ih hfa hstep
    | clear => exact pop_to_dark_nil hwf ih hfa hstep

/-! ## The chain invariant -/

theorem demoHighFull_reachable : Reachable demoHigh demoHighFull :=
  Reachable.after _ _ (Op.push 400000 8 1695744)
    (Reachable.after demoHigh.created _ (Op.push 100 8 262144) (Reachable.create demoHigh_ok)
      ⟨by decide, by decide, Or.inr ⟨by decide, by decide, by decide⟩⟩ rfl)
    ⟨by decide, by decide, Or.inr ⟨by decide, by decide, by decide⟩⟩ rfl

theorem demoGrown_reachable : Reachable demo demoGrown :=
  Reachable.after _ _ (Op.push 70000 8 622592)
    (Reachable.after _ _ (Op.push 70000 8 262144)
      (Reachable.after _ _ (Op.push 8 8 262144)
        (Reachable.after demo.created _ (Op.push 40 8 262144) (Reachable.create demo_ok)
          ⟨by decide, by decide, Or.inr ⟨by decide, by decide, by decide⟩⟩ rfl)
        ⟨by decide, by decide, Or.inr ⟨by decide, by decide, by decide⟩⟩ rfl)
      ⟨by decide, by decide, Or.inr ⟨by decide, by decide, by decide⟩⟩ rfl)
    ⟨by decide, by decide, Or.inr ⟨by decide, by decide, by decide⟩⟩ rfl

theorem demoRolled_reachable : Reachable demo demoRolled :=
  Reachable.after _ _ (Op.pop_to 40) demoGrown_reachable (show 40 < WORD by decide) rfl

/-- In every reachable arena `arena_pop(arena, size)` is
`arena_pop_to(arena, (L - size) mod 2 ^ 64)` with `L` the logical size, and
for `L < size < 2 ^ 64` the target wraps above `L` and the call returns the
state unchanged. -/
theorem arena_pop_eq_pop_to {s : Setup} {m : Machine} (hm : Reachable s m) (size : Nat) :
    ∃ L, logical m s.arena = some L ∧
      arena_pop s.pg m s.arena size = arena_pop_to s.pg m s.arena (u64sub L size) ∧
      (L < size → size < WORD → L < u64sub L size ∧
        arena_pop s.pg m s.arena size = .ok m) := by
  obtain ⟨a, chain, free, hwf, _, _, _, hda, hdc⟩ := reachable_live hm
  obtain ⟨c, hc⟩ := hwf.curr_mapped
  have hL := logical_eq hwf.head hc
  have hlt : u64add c.base_pos c.pos < WORD := u64add_lt _ _
  have hpop : arena_pop s.pg m s.arena size =
      arena_pop_to s.pg m s.arena (u64sub (u64add c.base_pos c.pos) size) := by
    simp only [arena_pop, load_ok hwf.head hda, load_ok hc hdc, bind, Except.bind]
  refine ⟨_, hL, hpop, ?_⟩
  intro hgt hsz
  have hsub : u64add c.base_pos c.pos < u64sub (u64add c.base_pos c.pos) size := by
    unfold u64sub
    rw [Nat.mod_eq_of_lt hsz, Nat.mod_eq_of_lt (by omega)]
    omega
  exact ⟨hsub, by rw [hpop]; exact pop_to_reject_spec hwf.head hc hda hdc hsub⟩

/-- A rollback to a position `p` not above the logical size is a memory
fault or returns with the current block at `base_pos + pos = p` and
`top = base + pos`. -/
theorem pop_to_lands (pg : Nat) {m : Machine} {arena p : Nat} {a c : Arena}
    {chain free : List Nat}
    (hwf : WF m arena a chain free) (hda : arena ∉ m.dark)
    (hc : m.heap.rd a.curr = some c) (hp : p ≤ u64add c.base_pos c.pos) :
    arena_pop_to pg m arena p = .error .fault ∨
    ∃ m1 a1 c1 chain1 free1, arena_pop_to pg m arena p = .ok m1 ∧
      WF m1 arena a1 chain1 free1 ∧ m1.heap.rd a1.curr = some c1 ∧
      c1.base_pos + c1.pos = p ∧ c1.top = u64add c1.base c1.pos := by
  have ha := hwf.head
  have hpw : p < WORD := lt_of_le_of_lt hp (u64add_lt _ _)
  by_cases hch : hasFlag a.flags ARENA_USE_CHAINING = true
  · by_cases hfl : hasFlag a.flags ARENA_USE_FREE_LIST = true
    · rcases pop_to_recycle_spec pg hwf hch hfl hc hp with
        hF | ⟨l1, y, l2, b, m2, fl, _, hb, hle, _, hrun, _, _, hy, _, _, _, hwf2⟩
      · exact Or.inl hF
      right
      refine ⟨m2, _, _, _, _, hrun, hwf2, hy, ?_, ?_⟩
      · by_cases e : y = arena
        · have hba : b = a := by
            rw [e, ha] at hb; exact (Option.some.inj hb).symm
          subst hba
          simp only [e, if_true, popTarget]
          rw [u64sub_of_le hle hpw]; omega
        · simp only [e, if_false, popTarget]
          rw [u64sub_of_le hle hpw]; omega
      · by_cases e : y = arena
        · simp [e, popTarget]
        · simp [e, popTarget]
    · have hfl2 : hasFlag a.flags ARENA_USE_FREE_LIST = false := by simpa using hfl
      rcases pop_to_unmap_spec pg hwf hch hfl2 hc hp with
        hF | ⟨l1, y, l2, b, m2, _, hb, hle, _, hrun, _, _, _, hy, _, _, _, hwf2⟩
      · exact Or.inl hF
      right
      refine ⟨m2, _, _, _, _, hrun, hwf2, hy, ?_, ?_⟩
      · by_cases e : y = arena
        · have hba : b = a := by
            rw [e, ha] at hb; exact (Option.some.inj hb).symm
          subst hba
          simp only [e, if_true, popTarget]
          rw [u64sub_of_le hle hpw]; omega
        · simp only [e, if_false, popTarget]
          rw [u64sub_of_le hle hpw]; omega
      · by_cases e : y = arena
        · simp [e, popTarget]
        · simp [e, popTarget]
  · have hch2 : hasFlag a.flags ARENA_USE_CHAINING = false := by simpa using hch
    obtain ⟨hcurr, _, _⟩ := hwf.curr_eq_of_nochain hch2
    have hca : c = a := by
      rw [hcurr, ha] at hc
      exact (Option.some.inj hc).symm
    subst hca
    obtain ⟨hrun, hwf2⟩ := pop_to_nochain_spec pg hwf hda hch2 hp
    right
    refine ⟨_, _, { c with pos := p, top := u64add c.base p }, _, _, hrun, hwf2, ?_, ?_, ?_⟩
    · have h2 := hwf2.head
      simp only [hcurr] at h2 ⊢
      exact h2
    · simp [hwf.head_base_pos]
    · rfl

/-- In every reachable arena a rollback to `p ≤ L` is a memory fault or
returns with logical size `p` and `top = base + pos` in the current block;
it returns when the arena was created without recycling and when `p` is at
or above the `base_pos` of the current block. -/
theorem reachable_pop_to {s : Setup} {m : Machine} (hm : Reachable s m)
    {L p : Nat} (hL : logical m s.arena = some L) (hp : p ≤ L) :
    (arena_pop_to s.pg m s.arena p = .error .fault ∨
      ∃ m1 c1, arena_pop_to s.pg m s.arena p = .ok m1 ∧
        logical m1 s.arena = some p ∧ current m1 s.arena = some c1 ∧
        c1.base_pos + c1.pos = p ∧ c1.top = u64add c1.base c1.pos) ∧
    (hasFlag (s.flags % 256) ARENA_USE_FREE_LIST = false →
      arena_pop_to s.pg m s.arena p ≠ .error .fault) ∧
    (∀ c, current m s.arena = some c → c.base_pos ≤ p →
      arena_pop_to s.pg m s.arena p ≠ .error .fault) := by
  obtain ⟨a, chain, free, hwf, hflags, _, _, hda, hdc⟩ := reachable_live hm
  obtain ⟨a0, c, ha0, hc, hLeq⟩ := logical_inv hL
  have haa : a0 = a := by
    rw [hwf.head] at ha0; exact (Option.some.inj ha0).symm
  subst haa
  subst hLeq
  have hpw : p < WORD := lt_of_le_of_lt hp (u64add_lt _ _)
  refine ⟨?_, ?_, ?_⟩
  · rcases pop_to_lands s.pg hwf hda hc hp with
      hF | ⟨m1, a1, c1, chain1, free1, hrun, hwf1, hc1, hsum, htop⟩
    · exact Or.inl hF
    · right
      refine ⟨m1, c1, hrun, ?_, current_eq hwf1.head hc1, hsum, htop⟩
      rw [logical_eq hwf1.head hc1, u64add_of_lt (by omega), hsum]
  · intro hfl hF
    obtain ⟨m1, hrun⟩ := pop_to_unmap_ok s.pg hwf (by rw [hflags]; exact hfl)
      (reachable_dark_nil hm hfl) p
    rw [hrun] at hF
    cases hF
  · intro c0 hc0 hlo hF
    rw [current_eq hwf.head hc] at hc0
    have := Option.some.inj hc0
    subst this
    obtain ⟨m1, hrun⟩ := pop_to_stay_ok s.pg hwf hda hdc hc hlo
    rw [hrun] at hF
    cases hF

/-- C1, at a failing input: the 64 KiB arena mapped at 2097152, after
`push(100, 8)` and `push(400000, 8)` whose block of 401408 bytes `mmap`
placed at 1695744, has logical size 400100 and every header accessible.
`arena_pop_to(arena, 0)` retires the block at 1695744 (`base_pos = 100 > 0`):
line 169 asks to decommit 401320 bytes from `1695744 + 88 * 4096 = 2056192`,
a range that covers the head at 2097152, so the header page of the head
loses its access; the next test of the loop reads `base_pos` of the head and
is a memory fault.  The call does not return, and the logical size is never
set to 0. -/
theorem C1_pop_to_faults :
    Reachable demoHigh demoHighFull ∧
    logical demoHighFull demoHigh.arena = some 400100 ∧
    demoHighFull.heap.map (fun x => (x.1, x.2.capacity, x.2.base_pos, x.2.prev)) =
      [(1695744, 401408, 100, 2097152), (2097152, 65536, 0, NULL)] ∧
    (demoHighFull.heap.rd demoHigh.arena).map Arena.curr = some 1695744 ∧
    demoHighFull.dark = [] ∧
    u64add 1695744 (u64mul (ALIGN ARENA_HEADER_SIZE demoHigh.pg) ARENA_HEADER_SIZE) =
      2056192 ∧
    2056192 ≤ demoHigh.arena ∧ demoHigh.arena < 2056192 + (401408 - ARENA_HEADER_SIZE) ∧
    (retire demoHigh.pg demoHighFull demoHigh.arena 1695744).map
        (fun m1 => (m1.trace.getLast?, m1.dark)) =
      .ok (some (Event.decommit 2056192 401320), [2097152]) ∧
    (0 : Nat) ≤ 400100 ∧
    arena_pop_to demoHigh.pg demoHighFull demoHigh.arena 0 = .error .fault :=
  ⟨demoHighFull_reachable, rfl, rfl, rfl, rfl, by decide, by decide, by decide, rfl,
    by decide, rfl⟩

/-- C8, at a failing input: on the arena of 64 KiB mapped at 2097152 with
chaining and recycling, after `push(100, 8)` and `push(400000, 8)` (block of
401408 bytes at 1695744, directly below the head), `arena_clear` retires that
block, the decommit of line 169 takes the access to the header page of the
head, and the call is a memory fault: the arena is not returned to its empty
state.  Besides, at the witness of the claim (`push(70000, 8)` on the empty
64 KiB arena, then `pop_to(0)`), where the decommit hits no mapping, the call
returns but the block at 262144, chained at logical size 0, has
`base_pos = 0` and stays the current block, the free list staying empty. -/
theorem C8_clear_faults :
    Reachable demoHigh demoHighFull ∧
    hasFlag (demoHigh.flags % 256) ARENA_USE_CHAINING = true ∧
    hasFlag (demoHigh.flags % 256) ARENA_USE_FREE_LIST = true ∧
    logical demoHighFull demoHigh.arena = some 400100 ∧
    demoHighFull.dark = [] ∧
    arena_clear demoHigh.pg demoHighFull demoHigh.arena = .error .fault ∧
    Reachable demo (demo.after [Op.push 70000 8 262144]) ∧
    arena_clear demo.pg (demo.after [Op.push 70000 8 262144]) demo.arena =
      .ok (demo.after [Op.push 70000 8 262144, Op.clear]) ∧
    ((demo.after [Op.push 70000 8 262144, Op.clear]).heap.rd demo.arena).map
        (fun a => (a.curr, a.free_list)) = some (262144, NULL) ∧
    ((demo.after [Op.push 70000 8 262144, Op.clear]).heap.rd 262144).map
        (fun b => (b.base_pos, b.pos, b.prev)) = some (0, 0, demo.arena) :=
  ⟨demoHighFull_reachable, rfl, rfl, rfl, rfl, rfl,
    Reachable.after demo.created _ (Op.push 70000 8 262144) (Reachable.create demo_ok)
      ⟨by decide, by decide, Or.inr ⟨by decide, by decide, by decide⟩⟩ rfl,
    rfl, rfl, rfl⟩

/-- C12, at a failing input: on the arena mapped at 2097152 after
`push(100, 8)` and `push(400000, 8)` (block at 1695744), the logical size is
400100 and `arena_pop(arena, 400100)` is `arena_pop_to(arena, 0)`, which is a
memory fault (the decommit of the retired block covers the header of the
head): with `size ≤ L` the call does not return and the logical size does not
become `L - size`.  The same holds for `arena_pop(arena, 400050)`, whose
target is 50. -/
theorem C12_pop_faults :
    Reachable demoHigh demoHighFull ∧
    logical demoHighFull demoHigh.arena = some 400100 ∧
    u64sub 400100 400100 = 0 ∧ u64sub 400100 400050 = 50 ∧
    arena_pop demoHigh.pg demoHighFull demoHigh.arena 400100 =
      arena_pop_to demoHigh.pg demoHighFull demoHigh.arena (u64sub 400100 400100) ∧
    arena_pop demoHigh.pg demoHighFull demoHigh.arena 400100 = .error .fault ∧
    arena_pop demoHigh.pg demoHighFull demoHigh.arena 400050 = .error .fault :=
  ⟨demoHighFull_reachable, rfl, by decide, by decide, rfl, rfl, rfl⟩

/-- C16, at a failing input: on the arena mapped at 2097152 after
`push(100, 8)` and `push(400000, 8)`, the chain is the block at 1695744
(`base_pos = 100`) in front of the head (`base_pos = 0`) and the free list
is empty.  `arena_pop_to(arena, 50)` has to retire the block at 1695744 and
keep the head as the new current block; retiring it issues
`decommit(2056192, 401320)`, which covers the header of the head, and the
loop faults on the head, the block it has to keep: no new `curr` is set and
the call does not return.  A rollback to 100, which retires nothing,
returns. -/
theorem C16_pop_to_faults_on_kept_block :
    Reachable demoHigh demoHighFull ∧
    logical demoHighFull demoHigh.arena = some 400100 ∧
    demoHighFull.heap.map (fun x => (x.1, x.2.base_pos, x.2.prev)) =
      [(1695744, 100, 2097152), (2097152, 0, NULL)] ∧
    (demoHighFull.heap.rd demoHigh.arena).map (fun a => (a.curr, a.free_list)) =
      some (1695744, NULL) ∧
    (retire demoHigh.pg demoHighFull demoHigh.arena 1695744).map
        (fun m1 => (m1.trace.drop demoHighFull.trace.length, m1.dark,
          (m1.heap.rd demoHigh.arena).map Arena.free_list)) =
      .ok ([Event.decommit 2056192 401320], [demoHigh.arena], some 1695744) ∧
    arena_pop_to demoHigh.pg demoHighFull demoHigh.arena 50 = .error .fault ∧
    (arena_pop_to demoHigh.pg demoHighFull demoHigh.arena 100).map
        (fun m1 => (logical m1 demoHigh.arena, m1.dark)) = .ok (some 100, []) :=
  ⟨demoHighFull_reachable, rfl, rfl, rfl, rfl, rfl, rfl⟩

/-! ## Replay after a rollback -/

theorem demoReplayed_reachable : Reachable demo demoReplayed :=
  Reachable.after _ _ (Op.push 70000 8 MAP_FAILED)
    (Reachable.after _ _ (Op.push 8 8 MAP_FAILED) demoRolled_reachable
      ⟨by decide, by decide, Or.inl rfl⟩ rfl)
    ⟨by decide, by decide, Or.inl rfl⟩ rfl

/-- The third push of the replay reads the inaccessible header at 622592. -/
theorem demoReplayed_push_faults (r : Nat) :
    arena_push demo.pg demoReplayed demo.arena 70000 8 r = .error .fault := by
  obtain ⟨a, chain, free, hwf, _, _, _, hda, hdc⟩ := reachable_live demoReplayed_reachable
  have ha : demoReplayed.heap.rd demo.arena = some
      { pos := 48, base_pos := 0, capacity := 65536, committed := 4096, prev := 0,
        next := 262144, base := 65624, top := 65672, curr := 262144, free_list := 622592,
        flags := 3 } := rfl
  have ea := hwf.head
  rw [ha] at ea
  have ea2 := (Option.some.inj ea).symm
  subst ea2
  have hc : demoReplayed.heap.rd 262144 = some
      { pos := 70000, base_pos := 48, capacity := 73728, committed := 73728, prev := 65536,
        next := 622592, base := 262232, top := 332232, curr := 262144, free_list := 0,
        flags := 3 } := rfl
  have hx : demoReplayed.heap.rd 622592 = some
      { pos := 0, base_pos := 70048, capacity := 143360, committed := 4096, prev := 0,
        next := 0, base := 622680, top := 622680, curr := 622592, free_list := 0,
        flags := 3 } := rfl
  have hfree : free = [] ++ 622592 :: [] := by
    have hll := hwf.free_ll
    cases free with
    | nil =>
      have h0 : (622592 : Nat) = NULL := hll
      exact absurd h0 (by decide)
    | cons x l =>
      obtain ⟨e, _, b, hb, hrest⟩ := hll
      have e2 : x = 622592 := e.symm
      subst e2
      rw [hx] at hb
      have := (Option.some.inj hb).symm
      subst this
      cases l with
      | nil => rfl
      | cons y l2 => exact absurd hrest.1.symm hrest.2.1
  exact (push_hit_spec demo.pg 70000 8 r hwf hc hda hdc (by decide) rfl rfl hfree
    (fun y hy => absurd hy (List.not_mem_nil y)) hx (by decide)).1
    (fun hg => hg.2 (by decide))

/-- C7, at a failing input: on the 64 KiB arena with chaining and recycling,
the logical size 40 is observed after `push(40, 8)`; then `push(8, 8)`,
`push(70000, 8)` and `push(70000, 8)` return 65664, 262232 and 622680, `mmap`
having placed the two new blocks at 262144 (73728 bytes) and 622592 (143360
bytes).  `arena_pop_to(arena, 40)` returns and retires both blocks, but the
decommit issued for the block at 262144 is `decommit(622592, 73640)`: it
takes the access to the header page of the free-list block at 622592.  The
replay returns 65664 and 262232 again, and the third push, which searches
the free list for a block of 140088 bytes, reads the header at 622592 and is
a memory fault, whatever `mmap` would answer: the address 622680 is not
returned again. -/
theorem C7_replay_faults :
    Reachable demo demoRolled ∧
    hasFlag (demo.flags % 256) ARENA_USE_CHAINING = true ∧
    hasFlag (demo.flags % 256) ARENA_USE_FREE_LIST = true ∧
    logical (demo.after [Op.push 40 8 262144]) demo.arena = some 40 ∧
    pushAll demo.pg demo.arena (demo.after [Op.push 40 8 262144])
        [(8, 8, 262144), (70000, 8, 262144), (70000, 8, 622592)] =
      .ok ([65664, 262232, 622680], demoGrown) ∧
    arena_pop_to demo.pg demoGrown demo.arena 40 = .ok demoRolled ∧
    logical demoRolled demo.arena = some 40 ∧
    demoRolled.trace = demoGrown.trace ++
      [Event.decommit 983040 143272, Event.decommit 622592 73640] ∧
    demoRolled.dark = [622592] ∧
    demoRolled.heap.map (fun x => (x.1, x.2.capacity, x.2.next)) =
      [(622592, 143360, NULL), (262144, 73728, 622592), (65536, 65536, 262144)] ∧
    (demoRolled.heap.rd demo.arena).map (fun a => (a.curr, a.free_list)) =
      some (65536, 262144) ∧
    pushAll demo.pg demo.arena demoRolled [(8, 8, MAP_FAILED), (70000, 8, MAP_FAILED)] =
      .ok ([65664, 262232], demoReplayed) ∧
    (demoReplayed.heap.rd demo.arena).map (fun a => (a.curr, a.free_list)) =
      some (262144, 622592) ∧
    (demoReplayed.heap.rd 262144).map (fun b => needed (aligned b 8) 70000) = some 140088 ∧
    demoReplayed.dark = [622592] ∧
    ∀ r, arena_push demo.pg demoReplayed demo.arena 70000 8 r = .error .fault :=
  ⟨demoRolled_reachable, rfl, rfl, rfl, rfl, rfl, rfl, rfl, rfl, rfl, rfl, rfl, rfl, rfl, rfl,
    fun r => demoReplayed_push_faults r⟩

/-! ## The logical size after a failed push -/

/-- C5, at a failing input: on the single-block arena of 4096 bytes
(logical size 0, `top = 65624`), `push(1, 1)` returns 65624 with padding
`ALIGN(65624, 1) - 65624 = 0`; `push(5000, 8)` fails, but line 78 has moved
`top` from 65625 to 65632 while `pos` stays 1; `push(8, 1)` finds
`top = 65632`, inserts the padding `ALIGN(65632, 1) - 65632 = 0` and returns
65632.  The logical size is then 16, not the initial size plus the sizes and
paddings of the two successful pushes, `0 + (1 + 0) + (8 + 0) = 9`: the 7
bytes skipped by the failed push are counted. -/
theorem C5_failed_push_is_counted :
    Reachable demoFixed (demoFixed.after
      [Op.push 1 1 MAP_FAILED, Op.push 5000 8 MAP_FAILED, Op.push 8 1 MAP_FAILED]) ∧
    isPow2 1 ∧ isPow2 8 ∧
    logical demoFixed.created demoFixed.arena = some 0 ∧
    pushAll demoFixed.pg demoFixed.arena demoFixed.created
        [(1, 1, MAP_FAILED), (5000, 8, MAP_FAILED), (8, 1, MAP_FAILED)] =
      .ok ([65624, NULL, 65632], demoFixed.after
        [Op.push 1 1 MAP_FAILED, Op.push 5000 8 MAP_FAILED, Op.push 8 1 MAP_FAILED]) ∧
    priorTop demoFixed.created demoFixed.arena = 65624 ∧ ALIGN 65624 1 - 65624 = 0 ∧
    priorTop (demoFixed.after [Op.push 1 1 MAP_FAILED]) demoFixed.arena = 65625 ∧
    logical (demoFixed.after [Op.push 1 1 MAP_FAILED]) demoFixed.arena = some 1 ∧
    priorTop (demoFixed.after [Op.push 1 1 MAP_FAILED, Op.push 5000 8 MAP_FAILED])
      demoFixed.arena = 65632 ∧
    logical (demoFixed.after [Op.push 1 1 MAP_FAILED, Op.push 5000 8 MAP_FAILED])
      demoFixed.arena = some 1 ∧
    ALIGN 65632 1 - 65632 = 0 ∧
    logical (demoFixed.after
      [Op.push 1 1 MAP_FAILED, Op.push 5000 8 MAP_FAILED, Op.push 8 1 MAP_FAILED])
      demoFixed.arena = some 16 ∧
    16 ≠ 0 + (1 + 0) + (8 + 0) :=
  ⟨Reachable.after _ _ (Op.push 8 1 MAP_FAILED)
      (Reachable.after _ _ (Op.push 5000 8 MAP_FAILED)
        (Reachable.after demoFixed.created _ (Op.push 1 1 MAP_FAILED)
          (Reachable.create demoFixed_ok) ⟨by decide, by decide, Or.inl rfl⟩ rfl)
        ⟨by decide, by decide, Or.inl rfl⟩ rfl)
      ⟨by decide, by decide, Or.inl rfl⟩ rfl,
    ⟨0, by decide, rfl⟩, ⟨3, by decide, rfl⟩, rfl, rfl, rfl, rfl, rfl, rfl, rfl, rfl,
    rfl, rfl, by decide⟩

end ArenaAlloc
